import Mathlib

/-!
# toolbox `ls` (src/toolbox/ls.c): shallow embedding and verified properties

Conventions of the embedding.

* A C string is the list of the bytes that precede its NUL terminator
  (`CStr = List Nat`).  Text written to `stdout` is a list of bytes.
* `int` values are `Int`; where the C code can leave the 32-bit range the
  embedding wraps explicitly with `wrap32`.
* A call is described by a `Run`: the bytes it wrote to `stdout` and how it
  ended (`ret v`: returned `v`; `abort`: `abort()` ended the process;
  `nofuel`: the step budget of the model ran out; `fault`: the call stored
  past the end of an array or handed a NULL pointer to libc, after which C
  defines no behaviour: the bytes are those written before that point).
* The operating system is a parameter (`Env`): the directory enumeration
  order of `readdir`, the results of `stat`, `lstat`, `readlink`, the
  password and group databases, `localtime`, `strftime`, the `MAJOR` /
  `MINOR` macros and `sizeof(void*)`.  It does not change during a run.
* Diagnostics written to `stderr` are not part of the model; `malloc` and
  `realloc` are taken to succeed; directory handles are not tracked.
-/

namespace Ls

/-! ## Strings and outcomes -/

/-- C string: the bytes before the terminating NUL. -/
abbrev CStr := List Nat

/-- Bytes of a literal, used to write constants such as format text. -/
def lit (s : String) : CStr := s.toList.map Char.toNat

/-- How a call ended. -/
inductive Outcome (α : Type) where
  | ret (v : α)
  | abort
  | nofuel
  | fault
  deriving DecidableEq, Repr

/-- Whether the call returned to its caller. -/
def Outcome.returned {α : Type} : Outcome α → Bool
  | .ret _ => true
  | .abort => false
  | .nofuel => false
  | .fault => false

/-- What a call did: bytes written to stdout, and how it ended. -/
structure Run (α : Type) where
  out : List Nat
  res : Outcome α
  deriving DecidableEq, Repr

/-- Conversion of an integer to a 32-bit `int` (two's complement). -/
def wrap32 (x : Int) : Int := (x + 2147483648) % 4294967296 - 2147483648

/-- The libc `strcmp`: sign of the first difference, bytes compared as
unsigned, the terminator being smaller than every byte. -/
def strcmp : CStr → CStr → Int
  | [], [] => 0
  | [], _ :: _ => -1
  | _ :: _, [] => 1
  | a :: as, b :: bs => if a = b then strcmp as bs else if a < b then -1 else 1

/-- The libc `snprintf(buf, size, ...)` for already formatted text: at most
`size - 1` bytes are stored. -/
def snprintf (size : Nat) (text : CStr) : CStr := text.take (size - 1)

/-! ## dynamic arrays (ls.c 18-89) -/

/-- The struct `dynarray_t`; `items` holds the initialised slots. -/
structure dynarray_t (α : Type) where
  count : Int
  capacity : Int
  items : List α
  deriving DecidableEq, Repr

def INT_MAX : Int := 2147483647

/-- The initializer `DYNARRAY_INITIALIZER`. -/
def DYNARRAY_INITIALIZER {α : Type} : dynarray_t α := ⟨0, 0, []⟩

def dynarray_init {α : Type} (_a : dynarray_t α) : dynarray_t α := ⟨0, 0, []⟩

/-- The `while (new_cap < new_count)` loop of `dynarray_reserve_more`
(ls.c 49-55); `none` when the iteration budget runs out. -/
def reserve_loop (max_cap new_count : Int) : Nat → Int → Option Int
  | 0, _ => none
  | fuel + 1, new_cap =>
    if new_cap < new_count then
      let old_cap := new_cap
      let new_cap := wrap32 (new_cap + ((new_cap >>> (2 : Nat)) + 4))
      let new_cap := if new_cap < old_cap ∨ new_cap > max_cap then max_cap else new_cap
      reserve_loop max_cap new_count fuel new_cap
    else some new_cap

/-- Iteration budget given to `reserve_loop`. -/
def RESERVE_FUEL : Nat := 2147483648

/-- The function `dynarray_reserve_more` (ls.c 33-62). -/
def dynarray_reserve_more {α : Type} (sizeof_voidp : Nat) (a : dynarray_t α) (count : Int) :
    Outcome (dynarray_t α) :=
  let max_cap : Int := INT_MAX / (sizeof_voidp : Int)
  if count ≤ 0 then .ret a
  else if count > max_cap - a.count then .abort
  else
    let new_count := a.count + count
    match reserve_loop max_cap new_count RESERVE_FUEL a.capacity with
    | none => .nofuel
    | some new_cap => .ret { a with capacity := new_cap }

/-- The function `dynarray_append` (ls.c 64-70). -/
def dynarray_append {α : Type} (sizeof_voidp : Nat) (a : dynarray_t α) (item : α) :
    Outcome (dynarray_t α) :=
  let store (a : dynarray_t α) : dynarray_t α :=
    { a with items := a.items.take a.count.toNat ++ [item], count := a.count + 1 }
  if a.count ≥ a.capacity then
    match dynarray_reserve_more sizeof_voidp a 1 with
    | .ret a1 => .ret (store a1)
    | .abort => .abort
    | .nofuel => .nofuel
    | .fault => .fault
  else .ret (store a)

def dynarray_done {α : Type} (_a : dynarray_t α) : dynarray_t α := ⟨0, 0, []⟩

/-! ## string arrays (ls.c 91-139) -/

abbrev strlist_t := dynarray_t CStr

def STRLIST_INITIALIZER : strlist_t := DYNARRAY_INITIALIZER

def strlist_init (list : strlist_t) : strlist_t := dynarray_init list

/-- The function `strlist_append_b`: a copy of the first `slen` bytes is appended. -/
def strlist_append_b (sizeof_voidp : Nat) (list : strlist_t) (str : CStr) (slen : Nat) :
    Outcome strlist_t :=
  dynarray_append sizeof_voidp list (str.take slen)

/-- The function `strlist_append_dup`. -/
def strlist_append_dup (sizeof_voidp : Nat) (list : strlist_t) (str : CStr) : Outcome strlist_t :=
  strlist_append_b sizeof_voidp list str str.length

def strlist_done (list : strlist_t) : strlist_t := dynarray_done list

/-- The comparator `strlist_compare_strings`. -/
def strlist_compare_strings (a b : CStr) : Int := strcmp a b

/-- The libc `qsort` on the item sequence.  Only the comparator's sign is
used; the result is a permutation of the input that is ascending for the
comparator (insertion sort is the representative). -/
def qsort {α : Type} (compar : α → α → Int) (items : List α) : List α :=
  items.insertionSort (fun a b => compar a b ≤ 0)

/-- The function `strlist_sort` (ls.c 131-139). -/
def strlist_sort (list : strlist_t) : strlist_t :=
  if list.count > 0 then
    { list with items := qsort strlist_compare_strings (list.items.take list.count.toNat) ++
                          list.items.drop list.count.toNat }
  else list

/-! ## flags and file modes (ls.c 141-191) -/

def LIST_LONG : Nat := 1 <<< 0
def LIST_ALL : Nat := 1 <<< 1
def LIST_RECURSIVE : Nat := 1 <<< 2
def LIST_DIRECTORIES : Nat := 1 <<< 3
def LIST_SIZE : Nat := 1 <<< 4

/-! The file-type constants of `<sys/stat.h>` (Linux values). -/

def S_IFMT : Nat := 0o170000
def S_IFSOCK : Nat := 0o140000
def S_IFLNK : Nat := 0o120000
def S_IFREG : Nat := 0o100000
def S_IFBLK : Nat := 0o060000
def S_IFDIR : Nat := 0o040000
def S_IFCHR : Nat := 0o020000
def S_IFIFO : Nat := 0o010000

/-- The macro `S_ISDIR`. -/
def S_ISDIR (mode : Nat) : Bool := mode &&& S_IFMT == S_IFDIR

/-- The fields of `struct stat` that ls.c reads. -/
structure stat_t where
  st_mode : Nat
  st_uid : Nat
  st_gid : Nat
  st_rdev : Nat
  st_size : Int
  st_blocks : Nat
  st_mtime : Int
  deriving DecidableEq, Repr

/-- The fields of `struct tm` that the format "%Y-%m-%d %H:%M" reads. -/
structure tm_t where
  tm_year : Int
  tm_mon : Int
  tm_mday : Int
  tm_hour : Int
  tm_min : Int
  deriving DecidableEq, Repr

/-- The operating system and libc as seen by ls.c. -/
structure Env where
  /-- Width of a pointer, `sizeof(void*)`. -/
  sizeof_voidp : Nat
  /-- Result of `opendir`: `none` on failure, else the names that
  successive `readdir` calls return, in that order, on every pass over the
  stream (`rewinddir` starts the next pass). -/
  opendir : CStr → Option (List CStr)
  /-- Result of `stat` (follows symbolic links); `none` on failure. -/
  stat : CStr → Option stat_t
  /-- Result of `lstat`; `none` on failure. -/
  lstat : CStr → Option stat_t
  /-- Result of `readlink`: the whole target of the link, `none` on failure. -/
  readlink : CStr → Option (List Nat)
  /-- Result of `getpwuid`: the `pw_name` of the entry found. -/
  getpwuid : Nat → Option CStr
  /-- Result of `getgrgid`: the `gr_name` of the entry found. -/
  getgrgid : Nat → Option CStr
  /-- Result of `localtime`: `none` is the NULL pointer, returned when the
  time has no representation as a broken-down time. -/
  localtime : Int → Option tm_t
  /-- Text that `strftime` produces for the format "%Y-%m-%d %H:%M". -/
  strftime : tm_t → CStr
  /-- The macro `MAJOR` of `<linux/kdev_t.h>`. -/
  MAJOR : Nat → Int
  /-- The macro `MINOR` of `<linux/kdev_t.h>`. -/
  MINOR : Nat → Int
  /-- Content of the uninitialised 256-byte buffer `linkto` before `readlink`. -/
  linkto0 : List Nat

/-- The function `mode2kind` (ls.c 151-163). -/
def mode2kind (mode : Nat) : Char :=
  let t := mode &&& S_IFMT
  if t = S_IFSOCK then 's'
  else if t = S_IFLNK then 'l'
  else if t = S_IFREG then '-'
  else if t = S_IFDIR then 'd'
  else if t = S_IFBLK then 'b'
  else if t = S_IFCHR then 'c'
  else if t = S_IFIFO then 'p'
  else '?'

/-- The function `mode2str` (ls.c 165-191): the characters stored before the NUL. -/
def mode2str (mode : Nat) : List Char :=
  [ mode2kind mode,
    if mode &&& 0o400 ≠ 0 then 'r' else '-',
    if mode &&& 0o200 ≠ 0 then 'w' else '-',
    if mode &&& 0o4000 ≠ 0 then (if mode &&& 0o100 ≠ 0 then 's' else 'S')
    else (if mode &&& 0o100 ≠ 0 then 'x' else '-'),
    if mode &&& 0o40 ≠ 0 then 'r' else '-',
    if mode &&& 0o20 ≠ 0 then 'w' else '-',
    if mode &&& 0o2000 ≠ 0 then (if mode &&& 0o10 ≠ 0 then 's' else 'S')
    else (if mode &&& 0o10 ≠ 0 then 'x' else '-'),
    if mode &&& 0o4 ≠ 0 then 'r' else '-',
    if mode &&& 0o2 ≠ 0 then 'w' else '-',
    if mode &&& 0o1000 ≠ 0 then (if mode &&& 0o1 ≠ 0 then 't' else 'T')
    else (if mode &&& 0o1 ≠ 0 then 'x' else '-') ]

/-! ## printf conversions -/

/-- Text of the conversion `%d` (also `%lld`). -/
def fmt_d (i : Int) : CStr :=
  if i < 0 then 45 :: (Nat.toDigits 10 i.natAbs).map Char.toNat
  else (Nat.toDigits 10 i.natAbs).map Char.toNat

/-- Right justification in a field of width `w` (as in `%8d`, `%3d`). -/
def pad_left (w : Nat) (s : CStr) : CStr := List.replicate (w - s.length) 32 ++ s

/-- Left justification in a field of width `w` (as in `%-8s`). -/
def pad_right (w : Nat) (s : CStr) : CStr := s ++ List.replicate (w - s.length) 32

/-- The function `user2str` (ls.c 193-201) called with an array `out` of
`size` bytes: the text stored (the uid is printed with `%d`), or `none`
when the text and its terminator do not fit, so that `strcpy` stores past
the end of the array. -/
def user2str (env : Env) (uid : Nat) (size : Nat) : Option CStr :=
  let text :=
    match env.getpwuid uid with
    | some pw_name => pw_name
    | none => fmt_d (wrap32 uid)
  if text.length < size then some text else none

/-- The function `group2str` (ls.c 203-211), as `user2str`. -/
def group2str (env : Env) (gid : Nat) (size : Nat) : Option CStr :=
  let text :=
    match env.getgrgid gid with
    | some gr_name => gr_name
    | none => fmt_d (wrap32 gid)
  if text.length < size then some text else none

/-! ## the hidden-name filter shared by the three `readdir` loops -/

/-- The two `continue` tests at the head of each `readdir` loop
(ls.c 222-225, 373-374, 392-395): true when the entry is skipped. -/
def skipped (flags : Nat) (d_name : CStr) : Bool :=
  if strcmp d_name (lit ".") == 0 || strcmp d_name (lit "..") == 0 then true
  else if d_name.head? == some 46 && flags &&& LIST_ALL == 0 then true
  else false

/-- Child path built in `show_total_size` and in the recursive scan of
`listdir`: "/%s" under the root, "%s/%s" elsewhere, stored in a buffer of
`size` bytes. -/
def child_path (size : Nat) (dirname d_name : CStr) : CStr :=
  if strcmp dirname (lit "/") == 0 then snprintf size (lit "/" ++ d_name)
  else snprintf size (dirname ++ lit "/" ++ d_name)

/-! ## show_total_size (ls.c 213-244) -/

/-- The `readdir` loop of `show_total_size`: `none` when an `lstat` fails,
else the value of `sum` (an `int`) after the loop. -/
def total_loop (env : Env) (dirname : CStr) (flags : Nat) : List CStr → Int → Option Int
  | [], sum => some sum
  | d_name :: rest, sum =>
    if skipped flags d_name then total_loop env dirname flags rest sum
    else
      match env.lstat (child_path 1024 dirname d_name) with
      | none => none
      | some s => total_loop env dirname flags rest (wrap32 (sum + (s.st_blocks / 2 : Nat)))

/-- The function `show_total_size`; `entries` is what the directory stream yields. -/
def show_total_size (env : Env) (dirname : CStr) (entries : List CStr) (flags : Nat) :
    List Nat × Int :=
  match total_loop env dirname flags entries 0 with
  | none => ([], -1)
  | some sum => (lit "total " ++ fmt_d sum ++ lit "\n", 0)

/-! ## listfile (ls.c 246-353) -/

/-- The function `listfile_size` (ls.c 246-258). -/
def listfile_size (env : Env) (path filename : CStr) (_flags : Nat) : List Nat × Int :=
  match env.lstat path with
  | none => ([], -1)
  | some s => (fmt_d ((s.st_blocks / 2 : Nat) : Int) ++ lit " " ++ filename ++ lit "\n", 0)

/-- Position after the final '/' (`strrchr(path, '/') + 1`), or the whole path. -/
def basename (path : CStr) : CStr :=
  match path with
  | [] => []
  | c :: rest =>
    if 47 ∈ rest then basename rest
    else if c = 47 then rest
    else c :: rest

/-- The text `printf("%s", buf)` shows for a byte buffer: the bytes before the first NUL. -/
def cstr_of (buf : List Nat) : CStr := buf.takeWhile (fun b => b != 0)

/-- The symlink branch of `listfile_long` (ls.c 304-317): content of
`linkto` as a C string after `readlink(path, linkto, 256)` stored
`target` and the code placed the terminator. -/
def linkto_text (linkto0 target : List Nat) : CStr :=
  let len := min target.length 256
  let linkto := target.take 256 ++ linkto0.drop len
  let linkto :=
    if len > 255 then (((linkto.set 252 46).set 253 46).set 254 46).set 255 0
    else linkto.set len 0
  cstr_of linkto

/-- The `printf` calls of `listfile_long` (ls.c 291-328) once `mode`,
`user`, `group` and `date` are filled in. -/
def listfile_long_print (env : Env) (path : CStr) (s : stat_t) (mode user group date : CStr) :
    Run Int :=
  let name := basename path
  let t := s.st_mode &&& S_IFMT
  if t = S_IFBLK ∨ t = S_IFCHR then
    ⟨mode ++ lit " " ++ pad_right 8 user ++ lit " " ++ pad_right 8 group ++ lit " " ++
      pad_left 3 (fmt_d (wrap32 (env.MAJOR s.st_rdev))) ++ lit ", " ++
      pad_left 3 (fmt_d (wrap32 (env.MINOR s.st_rdev))) ++ lit " " ++
      date ++ lit " " ++ name ++ lit "\n", .ret 0⟩
  else if t = S_IFREG then
    ⟨mode ++ lit " " ++ pad_right 8 user ++ lit " " ++ pad_right 8 group ++ lit " " ++
      pad_left 8 (fmt_d (wrap32 s.st_size)) ++ lit " " ++
      date ++ lit " " ++ name ++ lit "\n", .ret 0⟩
  else if t = S_IFLNK then
    match env.readlink path with
    | none => ⟨[], .ret (-1)⟩
    | some target =>
      ⟨mode ++ lit " " ++ pad_right 8 user ++ lit " " ++ pad_right 8 group ++
        lit "          " ++ date ++ lit " " ++ name ++ lit " -> " ++
        linkto_text env.linkto0 target ++ lit "\n", .ret 0⟩
  else
    ⟨mode ++ lit " " ++ pad_right 8 user ++ lit " " ++ pad_right 8 group ++
      lit "          " ++ date ++ lit " " ++ name ++ lit "\n", .ret 0⟩

/-- The function `listfile_long` (ls.c 260-329).  The arrays `user` and
`group` have 16 bytes (ls.c 265-266): a name of 16 bytes or more is stored
past their end.  The result of `localtime` is passed to `strftime`
unchecked (ls.c 285): a NULL pointer is dereferenced there.  Both end the
call as a `fault`, before anything is printed.  `strftime` stores into the
32 bytes of `date` and `date[31]` is set to 0 (ls.c 285-286): the first 31
bytes of the text are kept (a text that does not fit leaves the array
unspecified in C; with a year that is an `int` the text has at most 23
bytes). -/
def listfile_long (env : Env) (path : CStr) (_flags : Nat) : Run Int :=
  match env.lstat path with
  | none => ⟨[], .ret (-1)⟩
  | some s =>
    let mode := (mode2str s.st_mode).map Char.toNat
    match user2str env s.st_uid 16 with
    | none => ⟨[], .fault⟩
    | some user =>
      match group2str env s.st_gid 16 with
      | none => ⟨[], .fault⟩
      | some group =>
        match env.localtime s.st_mtime with
        | none => ⟨[], .fault⟩
        | some tm =>
          let date := (env.strftime tm).take 31
          listfile_long_print env path s mode user group date

/-- The function `listfile` (ls.c 331-353); `dirname = none` is the NULL pointer. -/
def listfile (env : Env) (dirname : Option CStr) (filename : CStr) (flags : Nat) : Run Int :=
  if flags &&& (LIST_LONG ||| LIST_SIZE) = 0 then ⟨filename ++ lit "\n", .ret 0⟩
  else
    let pathname :=
      match dirname with
      | some d => snprintf 4096 (d ++ lit "/" ++ filename)
      | none => filename
    if flags &&& LIST_LONG ≠ 0 then listfile_long env pathname flags
    else
      let r := listfile_size env pathname filename flags
      ⟨r.1, .ret r.2⟩

/-! ## listdir (ls.c 355-431) -/

/-- The first `readdir` loop of `listdir` (ls.c 372-377). -/
def scan_files (env : Env) (flags : Nat) : List CStr → strlist_t → Outcome strlist_t
  | [], files => .ret files
  | d_name :: rest, files =>
    if skipped flags d_name then scan_files env flags rest files
    else
      match strlist_append_dup env.sizeof_voidp files d_name with
      | .ret files1 => scan_files env flags rest files1
      | .abort => .abort
      | .nofuel => .nofuel
      | .fault => .fault

/-- The loop `STRLIST_FOREACH(&files, filename, listfile(name, filename, flags))`
(ls.c 380): the output of the calls in order; their return values are
discarded.  The loop goes on as long as the calls return. -/
def foreach_listfile (env : Env) (name : CStr) (flags : Nat) : List CStr → Run Unit
  | [] => ⟨[], .ret ()⟩
  | filename :: rest =>
    let r := listfile env (some name) filename flags
    match r.res with
    | .ret _ =>
      let r2 := foreach_listfile env name flags rest
      ⟨r.out ++ r2.out, r2.res⟩
    | .abort => ⟨r.out, .abort⟩
    | .nofuel => ⟨r.out, .nofuel⟩
    | .fault => ⟨r.out, .fault⟩

/-- The second `readdir` loop of `listdir` (ls.c 388-420).  `ret none` is
the early `return -1` after a failed `stat`/`lstat`. -/
def scan_subdirs (env : Env) (name : CStr) (flags : Nat) :
    List CStr → strlist_t → Outcome (Option strlist_t)
  | [], subdirs => .ret (some subdirs)
  | d_name :: rest, subdirs =>
    if skipped flags d_name then scan_subdirs env name flags rest subdirs
    else
      let tmp := child_path 4096 name d_name
      let err := if tmp.getLast? = some 47 then env.stat tmp else env.lstat tmp
      match err with
      | none => .ret none
      | some s =>
        if S_ISDIR s.st_mode then
          match strlist_append_dup env.sizeof_voidp subdirs tmp with
          | .ret subdirs1 => scan_subdirs env name flags rest subdirs1
          | .abort => .abort
          | .nofuel => .nofuel
          | .fault => .fault
        else scan_subdirs env name flags rest subdirs

/-- The loop `STRLIST_FOREACH(&subdirs, path, ...)` of ls.c 422-425, `list`
standing for the recursive call `listdir(path, flags)`, whose return value
is discarded. -/
def foreach_subdir (list : CStr → Run Int) : List CStr → Run Unit
  | [] => ⟨[], .ret ()⟩
  | path :: rest =>
    let r := list path
    match r.res with
    | .ret _ =>
      let r2 := foreach_subdir list rest
      ⟨lit "\n" ++ path ++ lit ":\n" ++ r.out ++ r2.out, r2.res⟩
    | .abort => ⟨lit "\n" ++ path ++ lit ":\n" ++ r.out, .abort⟩
    | .nofuel => ⟨lit "\n" ++ path ++ lit ":\n" ++ r.out, .nofuel⟩
    | .fault => ⟨lit "\n" ++ path ++ lit ":\n" ++ r.out, .fault⟩

/-- The function `listdir` (ls.c 355-431).  The first argument bounds the
depth of the recursion. -/
def listdir : Nat → Env → CStr → Nat → Run Int
  | 0, _, _, _ => ⟨[], .nofuel⟩
  | fuel + 1, env, name, flags =>
    match env.opendir name with
    | none => ⟨[], .ret (-1)⟩
    | some entries =>
      let total :=
        if flags &&& LIST_SIZE ≠ 0 then (show_total_size env name entries flags).1 else []
      match scan_files env flags entries STRLIST_INITIALIZER with
      | .abort => ⟨total, .abort⟩
      | .nofuel => ⟨total, .nofuel⟩
      | .fault => ⟨total, .fault⟩
      | .ret files =>
        let files := strlist_sort files
        let lines := foreach_listfile env name flags (files.items.take files.count.toNat)
        match lines.res with
        | .abort => ⟨total ++ lines.out, .abort⟩
        | .nofuel => ⟨total ++ lines.out, .nofuel⟩
        | .fault => ⟨total ++ lines.out, .fault⟩
        | .ret _ =>
          if flags &&& LIST_RECURSIVE ≠ 0 then
            match scan_subdirs env name flags entries STRLIST_INITIALIZER with
            | .abort => ⟨total ++ lines.out, .abort⟩
            | .nofuel => ⟨total ++ lines.out, .nofuel⟩
            | .fault => ⟨total ++ lines.out, .fault⟩
            | .ret none => ⟨total ++ lines.out, .ret (-1)⟩
            | .ret (some subdirs) =>
              let subdirs := strlist_sort subdirs
              let r := foreach_subdir (fun path => listdir fuel env path flags)
                (subdirs.items.take subdirs.count.toNat)
              match r.res with
              | .ret _ => ⟨total ++ lines.out ++ r.out, .ret 0⟩
              | .abort => ⟨total ++ lines.out ++ r.out, .abort⟩
              | .nofuel => ⟨total ++ lines.out ++ r.out, .nofuel⟩
              | .fault => ⟨total ++ lines.out ++ r.out, .fault⟩
          else ⟨total ++ lines.out, .ret 0⟩

/-! ## listpath and ls_main (ls.c 433-508) -/

/-- The function `listpath` (ls.c 433-460).  For the empty name the C code
reads `name[-1]`; the model takes the `lstat` branch there. -/
def listpath (fuel : Nat) (env : Env) (name : CStr) (flags : Nat) : Run Int :=
  let err := if name.getLast? = some 47 then env.stat name else env.lstat name
  match err with
  | none => ⟨[], .ret (-1)⟩
  | some s =>
    if flags &&& LIST_DIRECTORIES = 0 ∧ S_ISDIR s.st_mode = true then
      let header := if flags &&& LIST_RECURSIVE ≠ 0 then lit "\n" ++ name ++ lit ":\n" else []
      let r := listdir fuel env name flags
      ⟨header ++ r.out, r.res⟩
    else listfile env none name flags

/-- The `while (arg[0])` loop of `ls_main` over the letters of one option
argument (ls.c 476-488); `none` is the `exit(1)` of the default case. -/
def parse_letters : CStr → Nat → Option Nat
  | [], flags => some flags
  | c :: arg, flags =>
    if c = 108 then parse_letters arg (flags ||| LIST_LONG)
    else if c = 115 then parse_letters arg (flags ||| LIST_SIZE)
    else if c = 82 then parse_letters arg (flags ||| LIST_RECURSIVE)
    else if c = 100 then parse_letters arg (flags ||| LIST_DIRECTORIES)
    else if c = 97 then parse_letters arg (flags ||| LIST_ALL)
    else none

/-- The `for` loop of `ls_main` over `argv[1..]` (ls.c 472-493); `ret none`
is the `exit(1)` on an unknown option. -/
def parse_args (env : Env) : List CStr → Nat → strlist_t → Outcome (Option (Nat × strlist_t))
  | [], flags, files => .ret (some (flags, files))
  | arg :: rest, flags, files =>
    if arg.head? = some 45 then
      match parse_letters arg.tail flags with
      | none => .ret none
      | some flags1 => parse_args env rest flags1 files
    else
      match strlist_append_dup env.sizeof_voidp files arg with
      | .ret files1 => parse_args env rest flags files1
      | .abort => .abort
      | .nofuel => .nofuel
      | .fault => .fault

/-- The loop `STRLIST_FOREACH(&files, path, ...)` of `ls_main` (ls.c 496-500),
threading the variable `err`. -/
def foreach_listpath (fuel : Nat) (env : Env) (flags : Nat) : List CStr → Int → Run Int
  | [], err => ⟨[], .ret err⟩
  | path :: rest, err =>
    let r := listpath fuel env path flags
    match r.res with
    | .ret v =>
      let r2 := foreach_listpath fuel env flags rest (if v ≠ 0 then 1 else err)
      ⟨r.out ++ r2.out, r2.res⟩
    | .abort => ⟨r.out, .abort⟩
    | .nofuel => ⟨r.out, .nofuel⟩
    | .fault => ⟨r.out, .fault⟩

/-- The function `ls_main` (ls.c 462-508); `argv` includes `argv[0]`.  The
returned value is the exit status of the process, also when it ends through
`exit(1)`. -/
def ls_main (fuel : Nat) (env : Env) (argv : List CStr) : Run Int :=
  if argv.length > 1 then
    match parse_args env argv.tail 0 STRLIST_INITIALIZER with
    | .abort => ⟨[], .abort⟩
    | .nofuel => ⟨[], .nofuel⟩
    | .fault => ⟨[], .fault⟩
    | .ret none => ⟨[], .ret 1⟩
    | .ret (some (flags, files)) =>
      if files.count > 0 then
        foreach_listpath fuel env flags (files.items.take files.count.toNat) 0
      else listpath fuel env (lit ".") flags
  else listpath fuel env (lit ".") 0

/-! ## sample environments -/

/-- Metadata of a plain entry of the given mode and block count. -/
def mkstat (mode blocks : Nat) : stat_t := ⟨mode, 0, 0, 0, 0, blocks, 0⟩

/-- Two decimal digits, as the conversions `%m`, `%d`, `%H`, `%M` of `strftime`. -/
def two_digits (i : Int) : CStr :=
  (if i < 10 then lit "0" else []) ++ fmt_d i

/-- The text of "%Y-%m-%d %H:%M" for a broken-down time of the years 1000 to 9999. -/
def date_text (tm : tm_t) : CStr :=
  fmt_d (1900 + tm.tm_year) ++ lit "-" ++ two_digits (tm.tm_mon + 1) ++ lit "-" ++
    two_digits tm.tm_mday ++ lit " " ++ two_digits tm.tm_hour ++ lit ":" ++ two_digits tm.tm_min

/-- An environment in which every system call fails; its clock knows the
first hour of 1970 (UTC). -/
def env0 : Env where
  sizeof_voidp := 8
  opendir := fun _ => none
  stat := fun _ => none
  lstat := fun _ => none
  readlink := fun _ => none
  getpwuid := fun _ => none
  getgrgid := fun _ => none
  localtime := fun t => if 0 ≤ t ∧ t < 3600 then some ⟨70, 0, 1, 0, t / 60⟩ else none
  strftime := date_text
  MAJOR := fun dev => ((dev >>> 8 : Nat) : Int)
  MINOR := fun dev => ((dev &&& 255 : Nat) : Int)
  linkto0 := List.replicate 256 0

/-- Directory `d` holding `b.txt`, `a.txt`, `.hidden` and the subdirectory
`sub`, enumerated in that order after `.` and `..`. -/
def env1 : Env :=
  { env0 with
    opendir := fun p =>
      if p = lit "d" then
        some [lit ".", lit "..", lit "b.txt", lit "a.txt", lit ".hidden", lit "sub"]
      else if p = lit "d/sub" then some [lit ".", lit ".."]
      else none
    lstat := fun p =>
      if p = lit "d" ∨ p = lit "d/sub" then some (mkstat 0o040755 8)
      else if p = lit "d/a.txt" ∨ p = lit "d/b.txt" ∨ p = lit "d/.hidden" then
        some (mkstat 0o100644 8)
      else none }

/-! ## notions used to state the properties -/

/-- Ascending byte-wise lexicographic order on strings. -/
def lex_le (a b : CStr) : Prop := a = b ∨ List.Lex (· < ·) a b

/-- The hidden-name filter in the words of the specification: the name is
neither "." nor "..", and it does not begin with '.' unless LIST_ALL is set. -/
def passes_filter (flags : Nat) (d_name : CStr) : Bool :=
  decide (d_name ≠ lit ".") && decide (d_name ≠ lit "..") &&
    (decide (d_name.head? ≠ some 46) || decide (flags &&& LIST_ALL ≠ 0))

/-- The metadata the recursive scan of `listdir` obtains for a child path:
`stat` when the path ends in '/', `lstat` otherwise (ls.c 406-409). -/
def scan_stat (env : Env) (tmp : CStr) : Option stat_t :=
  if tmp.getLast? = some 47 then env.stat tmp else env.lstat tmp

/-- Whether the recursive scan finds a directory at the path. -/
def scan_isdir (env : Env) (tmp : CStr) : Bool :=
  match scan_stat env tmp with
  | some s => S_ISDIR s.st_mode
  | none => false

/-- One section of a recursive listing: blank line, header, listing of the path. -/
def section_text (listing : CStr → List Nat) (path : CStr) : List Nat :=
  lit "\n" ++ path ++ lit ":\n" ++ listing path

/-- Well-formed array state: `count` items, within the capacity, within `max_cap`. -/
def dynarray_wf {α : Type} (psz : Nat) (a : dynarray_t α) : Prop :=
  a.count = (a.items.length : Int) ∧ a.count ≤ a.capacity ∧
    a.capacity ≤ INT_MAX / (psz : Int)

/-- The "total N" line of a directory, present when LIST_SIZE is set (ls.c 368-370). -/
def total_line (env : Env) (name : CStr) (flags : Nat) (entries : List CStr) : List Nat :=
  if flags &&& LIST_SIZE ≠ 0 then (show_total_size env name entries flags).1 else []

/-- The names rendered for a directory: the entries that pass the filter, sorted. -/
def shown_names (flags : Nat) (entries : List CStr) : List CStr :=
  qsort strlist_compare_strings (entries.filter (fun d => passes_filter flags d))

/-- The direct entry lines of a directory: `listfile` on each rendered name. -/
def entry_lines (env : Env) (name : CStr) (flags : Nat) (entries : List CStr) : List Nat :=
  (foreach_listfile env name flags (shown_names flags entries)).out

/-- The paths the recursive scan collects, sorted: the children that pass
the filter and are directories. -/
def subdir_paths (env : Env) (name : CStr) (flags : Nat) (entries : List CStr) : List CStr :=
  qsort strlist_compare_strings
    (((entries.filter (fun d => passes_filter flags d)).map (child_path 4096 name)).filter
      (fun p => scan_isdir env p))

/-- Permission character of a read or write bit: the letter when set, '-' otherwise. -/
def flag_char (set : Bool) (letter : Char) : Char := if set then letter else '-'

/-- Character of an execute position: with the special bit (setuid, setgid,
sticky) set, `lower` when the execute bit is set and `upper` when it is
clear; without it, 'x' or '-'. -/
def exec_char (special exec : Bool) (lower upper : Char) : Char :=
  if special then (if exec then lower else upper) else (if exec then 'x' else '-')

/-- The path of a child in the words of the specification: "<dir>/<child>",
or "/<child>" when the directory is "/". -/
def join_path (dir child : CStr) : CStr :=
  if dir = lit "/" then lit "/" ++ child else dir ++ lit "/" ++ child

/-- A directory path of 4090 bytes: fifteen components of 255 bytes and one of 250. -/
def long_dir : CStr :=
  (List.replicate 15 (List.replicate 255 97 ++ [47])).flatten ++ List.replicate 250 97

/-- The directory `long_dir` holds the subdirectories `abcd` and `abcdefgh`, both empty. -/
def env_long : Env :=
  { env0 with
    opendir := fun p =>
      if p = long_dir then some [lit ".", lit "..", lit "abcd", lit "abcdefgh"]
      else if p = long_dir ++ lit "/abcd" ∨ p = long_dir ++ lit "/abcdefgh" then
        some [lit ".", lit ".."]
      else none
    lstat := fun p =>
      if p = long_dir ∨ p = long_dir ++ lit "/abcd" ∨ p = long_dir ++ lit "/abcdefgh" then
        some (mkstat 0o040755 8)
      else none }

/-- Directory `d` holding one regular file `big` with 2^33 allocated blocks (4 TiB). -/
def env_big : Env :=
  { env0 with
    opendir := fun p => if p = lit "d" then some [lit ".", lit "..", lit "big"] else none
    lstat := fun p =>
      if p = lit "d" then some (mkstat 0o040755 8)
      else if p = lit "d/big" then some (mkstat 0o100644 8589934592)
      else none }

/-- A directory path of 1020 bytes: three components of 255 bytes and one of 252. -/
def dir1020 : CStr :=
  (List.replicate 3 (List.replicate 255 97 ++ [47])).flatten ++ List.replicate 252 97

/-- The directory `dir1020` holds one regular file `abcdef` of 8 blocks. -/
def env1020 : Env :=
  { env0 with
    opendir := fun p => if p = dir1020 then some [lit ".", lit "..", lit "abcdef"] else none
    lstat := fun p =>
      if p = dir1020 then some (mkstat 0o040755 8)
      else if p = dir1020 ++ lit "/abcdef" then some (mkstat 0o100644 8)
      else none }

/-- The flags that the option arguments select, read in command-line
order; `none` when a letter is unknown. -/
def parse_flags : List CStr → Nat → Option Nat
  | [], flags => some flags
  | arg :: rest, flags =>
    if arg.head? = some 45 then
      match parse_letters arg.tail flags with
      | none => none
      | some flags1 => parse_flags rest flags1
    else parse_flags rest flags

/-- The path arguments: the arguments that do not begin with '-', in command-line order. -/
def path_args (args : List CStr) : List CStr :=
  args.filter (fun arg => decide (arg.head? ≠ some 45))

/-- Directory `d` whose subdirectory `sub` cannot be opened, and directory
`e` whose entry `f` cannot be examined. -/
def env9 : Env :=
  { env0 with
    opendir := fun p =>
      if p = lit "d" then some [lit ".", lit "..", lit "sub"]
      else if p = lit "e" then some [lit ".", lit "..", lit "f"]
      else none
    lstat := fun p =>
      if p = lit "d" ∨ p = lit "e" ∨ p = lit "d/sub" then some (mkstat 0o040755 8) else none }

/-- Directory `d` with the subdirectories `a` (cannot be opened) and `b`
(holds `x`); directory `e` with the subdirectory `a` and the entry `b`
that cannot be examined; no file `nope`. -/
def env10 : Env :=
  { env0 with
    opendir := fun p =>
      if p = lit "d" then some [lit ".", lit "..", lit "b", lit "a"]
      else if p = lit "d/b" then some [lit ".", lit "..", lit "x"]
      else if p = lit "e" then some [lit ".", lit "..", lit "a", lit "b"]
      else if p = lit "e/a" then some [lit ".", lit ".."]
      else none
    lstat := fun p =>
      if p = lit "d" ∨ p = lit "e" ∨ p = lit "d/a" ∨ p = lit "d/b" ∨ p = lit "e/a" then
        some (mkstat 0o040755 8)
      else if p = lit "d/b/x" then some (mkstat 0o100644 8)
      else none }

/-- Size in KB that `show_total_size` adds for a child: `st_blocks / 2`
of its `lstat`, 0 when the `lstat` fails. -/
def child_kb (env : Env) (dirname d_name : CStr) : Nat :=
  match env.lstat (join_path dirname d_name) with
  | some s => s.st_blocks / 2
  | none => 0

/-- Sum of the sizes in KB of the children that pass the hidden-name filter. -/
def total_kb (env : Env) (dirname : CStr) (flags : Nat) (entries : List CStr) : Nat :=
  ((entries.filter (fun d => passes_filter flags d)).map (child_kb env dirname)).sum

/-- The option letters `ls_main` knows: l, s, R, d, a. -/
def known_letter (c : Nat) : Bool := c == 108 || c == 115 || c == 82 || c == 100 || c == 97

/-- The argument begins with '-' and holds a letter other than l, s, R, d, a. -/
def bad_option (arg : CStr) : Bool :=
  arg.head? == some 45 && arg.tail.any (fun c => !known_letter c)

/-- The arguments of `ls -l d -az e`: the third one holds the unknown letter z. -/
def argv_bad : List CStr := [lit "ls", lit "-l", lit "d", lit "-az", lit "e"]

/-- The path `listfile` examines, in the words of the specification:
parent + "/" + filename, or the filename alone when there is no parent. -/
def resolved_path (dirname : Option CStr) (filename : CStr) : CStr :=
  match dirname with
  | some d => d ++ lit "/" ++ filename
  | none => filename

/-- Decimal text of a natural number. -/
def decimal (n : Nat) : CStr := lit (Nat.repr n)

/-- Under `long_dir`: `abcd` has 8 blocks, `abcdefgh` has 16 blocks. -/
def env_long2 : Env :=
  { env0 with
    lstat := fun p =>
      if p = long_dir ++ lit "/abcd" then some (mkstat 0o100644 8)
      else if p = long_dir ++ lit "/abcdefgh" then some (mkstat 0o100644 16)
      else none }

/-- Regular files `f` of 4 GiB (2^32 bytes, 2^23 blocks) and `h` of 2 GiB
(2^31 bytes, 2^22 blocks). -/
def env_4g : Env :=
  { env0 with
    lstat := fun p =>
      if p = lit "f" then some ⟨0o100644, 0, 0, 0, 4294967296, 8388608, 0⟩
      else if p = lit "h" then some ⟨0o100644, 0, 0, 0, 2147483648, 4194304, 0⟩
      else none }

/-- One growth step in the words of the specification:
cap + floor(cap / 4) + 4, clamped to `max_cap`. -/
def grow_step (max_cap cap : Int) : Int := min (cap + cap / 4 + 4) max_cap

/-- Size in KB that `listfile_size` prints before an entry of a directory:
`st_blocks / 2` of the `lstat` of "<dir>/<entry>", 0 when the `lstat` fails. -/
def entry_kb (env : Env) (dirname d_name : CStr) : Nat :=
  match env.lstat (dirname ++ lit "/" ++ d_name) with
  | some s => s.st_blocks / 2
  | none => 0

/-- A directory path of 1023 bytes: four components of 255 bytes. -/
def dir1023 : CStr :=
  (List.replicate 3 (List.replicate 255 97 ++ [47])).flatten ++ List.replicate 255 97

/-- The directory `dir1023` (8 blocks) holds one regular file `x` of 16 blocks. -/
def env1023 : Env :=
  { env0 with
    opendir := fun p => if p = dir1023 then some [lit ".", lit "..", lit "x"] else none
    lstat := fun p =>
      if p = dir1023 then some (mkstat 0o040755 8)
      else if p = dir1023 ++ lit "/x" then some (mkstat 0o100644 16)
      else none }

/-! ## the resources of one call of listdir -/

/-- What a call of `listdir` that opened its directory leaves behind when
it returns: the number of `closedir(d)` calls it made, the collection
`files`, and the collection `subdirs` (`none` when the block that declares
it was not entered). -/
structure frame_t where
  closedir_calls : Nat
  files : strlist_t
  subdirs : Option strlist_t
  deriving DecidableEq, Repr

/-- The second `readdir` loop of `listdir` (ls.c 388-420) with the
collection it leaves: `(true, subdirs)` when the loop completes,
`(false, subdirs)` at the early `return -1`, `subdirs` being the
collection at that moment. -/
def scan_subdirs_state (env : Env) (name : CStr) (flags : Nat) :
    List CStr → strlist_t → Outcome (Bool × strlist_t)
  | [], subdirs => .ret (true, subdirs)
  | d_name :: rest, subdirs =>
    if skipped flags d_name then scan_subdirs_state env name flags rest subdirs
    else
      let tmp := child_path 4096 name d_name
      let err := if tmp.getLast? = some 47 then env.stat tmp else env.lstat tmp
      match err with
      | none => .ret (false, subdirs)
      | some s =>
        if S_ISDIR s.st_mode then
          match strlist_append_dup env.sizeof_voidp subdirs tmp with
          | .ret subdirs1 => scan_subdirs_state env name flags rest subdirs1
          | .abort => .abort
          | .nofuel => .nofuel
          | .fault => .fault
        else scan_subdirs_state env name flags rest subdirs

/-- The resources of the frame of `listdir(name, flags)` when it returns
after a successful `opendir`; `none` when `opendir` fails or the call does
not return.  `strlist_done(&files)` is ls.c 381, the early return with its
`closedir` ls.c 411-415, `strlist_done(&subdirs)` ls.c 426 and the final
`closedir` ls.c 429.  `fuel` bounds the listings of the subdirectories. -/
def listdir_frame (fuel : Nat) (env : Env) (name : CStr) (flags : Nat) : Option frame_t :=
  match env.opendir name with
  | none => none
  | some entries =>
    match scan_files env flags entries STRLIST_INITIALIZER with
    | .abort => none
    | .nofuel => none
    | .fault => none
    | .ret files =>
      let files := strlist_sort files
      match (foreach_listfile env name flags (files.items.take files.count.toNat)).res with
      | .abort => none
      | .nofuel => none
      | .fault => none
      | .ret _ =>
        let files := strlist_done files
        if flags &&& LIST_RECURSIVE ≠ 0 then
          match scan_subdirs_state env name flags entries STRLIST_INITIALIZER with
          | .abort => none
          | .nofuel => none
          | .fault => none
          | .ret (false, subdirs) => some ⟨1, files, some subdirs⟩
          | .ret (true, subdirs) =>
            let subdirs := strlist_sort subdirs
            match (foreach_subdir (fun path => listdir fuel env path flags)
                (subdirs.items.take subdirs.count.toNat)).res with
            | .ret _ => some ⟨1, files, some (strlist_done subdirs)⟩
            | .abort => none
            | .nofuel => none
            | .fault => none
        else some ⟨1, files, none⟩

/-- A collection that holds nothing: the state after `strlist_done`, which
is also the initial state. -/
def released (list : strlist_t) : Prop := list = ⟨0, 0, []⟩

/-! ## the directories a recursive listing visits -/

/-- A directory entry name as the file system gives it: not empty, without '/'. -/
def good_name (d : CStr) : Prop := d ≠ [] ∧ 47 ∉ d

/-- The child is a directory itself (by `lstat`, which does not follow links). -/
def real_subdir (env : Env) (p d : CStr) : Prop :=
  ∃ s, env.lstat (join_path p d) = some s ∧ S_ISDIR s.st_mode = true

/-- Directory `q` is reached from directory `p` through real subdirectories
that pass the hidden-name filter. -/
inductive Reach (env : Env) (flags : Nat) : CStr → CStr → Prop where
  | self (p : CStr) : Reach env flags p p
  | down (p : CStr) (entries : List CStr) (d q : CStr) :
      env.opendir p = some entries → d ∈ entries → passes_filter flags d = true →
      real_subdir env p d → Reach env flags (join_path p d) q → Reach env flags p q

/-- A finite file system tree below `root`, as far as a listing walks it:
in every directory reached from `root` that opens, the names that pass the
filter are well-formed and every child path fits the 4096-byte buffer, and
every real subdirectory is strictly less deep than its parent. -/
structure finite_tree (env : Env) (flags : Nat) (root : CStr) (depth : CStr → Nat) : Prop where
  names : ∀ p entries, Reach env flags root p → env.opendir p = some entries →
    ∀ d ∈ entries, passes_filter flags d = true → good_name d
  fits : ∀ p entries, Reach env flags root p → env.opendir p = some entries →
    ∀ d ∈ entries, passes_filter flags d = true → p.length + 1 + d.length < 4096
  deeper : ∀ p entries, Reach env flags root p → env.opendir p = some entries →
    ∀ d ∈ entries, passes_filter flags d = true → real_subdir env p d →
      depth (join_path p d) < depth p

/-- A tree in which nothing stops a listing: in every directory reached
from `root` that opens, the names are distinct and within `max_cap` in
number, every child that passes the filter can be examined with `lstat`,
and the call of `listfile` on it returns. -/
structure listable_tree (env : Env) (flags : Nat) (root : CStr) : Prop where
  distinct : ∀ p entries, Reach env flags root p → env.opendir p = some entries →
    entries.Nodup
  count : ∀ p entries, Reach env flags root p → env.opendir p = some entries →
    (entries.length : Int) ≤ INT_MAX / (env.sizeof_voidp : Int)
  examined : ∀ p entries, Reach env flags root p → env.opendir p = some entries →
    ∀ d ∈ entries, passes_filter flags d = true → (env.lstat (join_path p d)).isSome = true
  printed : ∀ p entries, Reach env flags root p → env.opendir p = some entries →
    ∀ d ∈ entries, passes_filter flags d = true →
      (listfile env (some p) d flags).res.returned = true

/-- The lines of one directory in a listing: its total line and its entry
lines; nothing when the directory does not open. -/
def dir_listing (env : Env) (flags : Nat) (q : CStr) : List Nat :=
  match env.opendir q with
  | none => []
  | some entries => total_line env q flags entries ++ entry_lines env q flags entries

/-- The text that begins the path of every child of a directory. -/
def dir_lead (p : CStr) : CStr := if p = lit "/" then lit "/" else p ++ lit "/"

/-- Path `q` lies in the subtree of the child `d` of `p`: it is the path of
the child, possibly followed by '/' and more. -/
def comp_of (p d q : CStr) : Prop :=
  ∃ rest : CStr, (rest = [] ∨ rest.head? = some 47) ∧ q = dir_lead p ++ d ++ rest

/-- The names of the children `listdir` recurses into, sorted. -/
def subdir_names (env : Env) (name : CStr) (flags : Nat) (entries : List CStr) : List CStr :=
  qsort strlist_compare_strings
    (entries.filter (fun d => scan_isdir env (join_path name d) && passes_filter flags d))

/-- A small tree: directory `d` holds the directory `sub` (which holds the
file `g`), the file `f` and the symbolic link `loop` that points back to
`d`, so that `stat` on it finds a directory. -/
def env_tree : Env :=
  { env0 with
    readlink := fun p => if p = lit "d/loop" then some (lit ".") else none
    opendir := fun p =>
      if p = lit "d" then some [lit ".", lit "..", lit "sub", lit "loop", lit "f"]
      else if p = lit "d/sub" then some [lit ".", lit "..", lit "g"]
      else none
    stat := fun p =>
      if p = lit "d" ∨ p = lit "d/sub" ∨ p = lit "d/loop" then some (mkstat 0o040755 8)
      else if p = lit "d/f" ∨ p = lit "d/sub/g" then some (mkstat 0o100644 8)
      else none
    lstat := fun p =>
      if p = lit "d" ∨ p = lit "d/sub" then some (mkstat 0o040755 8)
      else if p = lit "d/loop" then some (mkstat 0o120777 0)
      else if p = lit "d/f" ∨ p = lit "d/sub/g" then some (mkstat 0o100644 8)
      else none }

/-- Depth of the directories of `env_tree`. -/
def depth_tree (p : CStr) : Nat := if p = lit "d" then 1 else 0

/-- Depth of the directories of `env10`. -/
def depth10 (p : CStr) : Nat := if p = lit "d" ∨ p = lit "e" then 1 else 0

/-- The directories of the tree below `p`, each followed by those below its
real subdirectories in ascending order of their names, down to `fuel` levels. -/
def tree_dirs : Nat → Env → Nat → CStr → List CStr
  | 0, _, _, _ => []
  | fuel + 1, env, flags, p =>
    p ::
      match env.opendir p with
      | none => []
      | some entries =>
        ((subdir_names env p flags entries).map
          (fun d => tree_dirs fuel env flags (join_path p d))).flatten

/-! ## Reading a mode string back -/

/-- Value `v` when the character `c` is one of `cs`, else 0. -/
def glyph_bit (c : Char) (cs : List Char) (v : Nat) : Nat :=
  if c ∈ cs then v else 0

/-- Decoder of the specification: the twelve low mode bits read back from
the nine permission characters that follow the type glyph (`r`, `w` set the
read and write bits; `x`, `s`, `t` the execute bit; `s`, `S` in the owner
and group columns the setuid and setgid bits; `t`, `T` the sticky bit). -/
def decode_perm : List Char → Option Nat
  | [_, c1, c2, c3, c4, c5, c6, c7, c8, c9] =>
    some (glyph_bit c1 ['r'] 0o400 + glyph_bit c2 ['w'] 0o200 +
      glyph_bit c3 ['x', 's'] 0o100 + glyph_bit c3 ['s', 'S'] 0o4000 +
      glyph_bit c4 ['r'] 0o40 + glyph_bit c5 ['w'] 0o20 +
      glyph_bit c6 ['x', 's'] 0o10 + glyph_bit c6 ['s', 'S'] 0o2000 +
      glyph_bit c7 ['r'] 0o4 + glyph_bit c8 ['w'] 0o2 +
      glyph_bit c9 ['x', 't'] 0o1 + glyph_bit c9 ['t', 'T'] 0o1000)
  | _ => none

/-! ## Properties -/


theorem strcmp_range (a b : CStr) : strcmp a b = -1 ∨ strcmp a b = 0 ∨ strcmp a b = 1 := by
  induction a generalizing b with
  | nil => cases b <;> simp [strcmp]
  | cons x xs ih =>
    cases b with
    | nil => simp [strcmp]
    | cons y ys =>
      simp only [strcmp]
      split_ifs
      · exact ih ys
      · simp
      · simp

theorem strcmp_eq_zero_iff (a b : CStr) : strcmp a b = 0 ↔ a = b := by
  induction a generalizing b with
  | nil => cases b <;> simp [strcmp]
  | cons x xs ih =>
    cases b with
    | nil => simp [strcmp]
    | cons y ys =>
      simp only [strcmp]
      split_ifs with h1 h2
      · simp [ih ys, h1]
      · simp [h1]
      · simp [h1]

theorem strcmp_neg_iff (a b : CStr) : strcmp a b < 0 ↔ List.Lex (· < ·) a b := by
  induction a generalizing b with
  | nil => cases b <;> simp [strcmp, List.Lex.nil]
  | cons x xs ih =>
    cases b with
    | nil => simp [strcmp]
    | cons y ys =>
      simp only [strcmp]
      split_ifs with h1 h2
      · subst h1
        rw [ih ys]
        constructor
        · intro h; exact List.Lex.cons h
        · intro h
          cases h with
          | cons h => exact h
          | rel h => exact absurd h (lt_irrefl _)
      · simp only [Int.reduceNeg, Left.neg_neg_iff, zero_lt_one, true_iff]
        exact List.Lex.rel h2
      · simp only [Nat.not_lt_eq, false_iff, Nat.lt_irrefl, Int.reduceLT] 
        intro h
        cases h with
        | cons h => exact h1 rfl
        | rel h => exact h2 h

theorem strcmp_le_iff (a b : CStr) : strcmp a b ≤ 0 ↔ lex_le a b := by
  unfold lex_le
  rw [← strcmp_eq_zero_iff, ← strcmp_neg_iff]
  omega

theorem strcmp_swap (a b : CStr) : strcmp b a = - strcmp a b := by
  induction a generalizing b with
  | nil => cases b <;> simp [strcmp]
  | cons x xs ih =>
    cases b with
    | nil => simp [strcmp]
    | cons y ys =>
      simp only [strcmp]
      by_cases h1 : x = y
      · subst h1; simp [ih ys]
      · have h2 : ¬ y = x := fun h => h1 h.symm
        simp only [h1, h2, if_false]
        by_cases h3 : x < y
        · have : ¬ y < x := by omega
          simp [h3, this]
        · have : y < x := by omega
          simp [h3, this]

theorem strcmp_trans (a b c : CStr) (h1 : strcmp a b ≤ 0) (h2 : strcmp b c ≤ 0) :
    strcmp a c ≤ 0 := by
  induction a generalizing b c with
  | nil => cases c <;> simp [strcmp]
  | cons x xs ih =>
    cases b with
    | nil => simp [strcmp] at h1
    | cons y ys =>
      cases c with
      | nil => simp [strcmp] at h2
      | cons z zs =>
        simp only [strcmp] at h1 h2 ⊢
        split_ifs at h1 h2 ⊢ <;> first
          | omega
          | exact ih _ _ h1 h2

theorem strcmp_isTotal : IsTotal CStr (fun a b => strcmp a b ≤ 0) :=
  ⟨fun a b => by have := strcmp_swap a b; omega⟩

theorem strcmp_isTrans : IsTrans CStr (fun a b => strcmp a b ≤ 0) :=
  ⟨fun a b c => strcmp_trans a b c⟩

theorem strcmp_isAntisymm : IsAntisymm CStr (fun a b => strcmp a b ≤ 0) :=
  ⟨fun a b h1 h2 => by
    have := strcmp_swap a b
    exact (strcmp_eq_zero_iff a b).1 (by omega)⟩

/-- The result of `qsort` with the string comparator is a permutation of its input. -/
theorem qsort_perm (l : List CStr) : (qsort strlist_compare_strings l).Perm l :=
  List.perm_insertionSort _ l

/-- The result of `qsort` with the string comparator is ascending. -/
theorem qsort_sorted (l : List CStr) :
    (qsort strlist_compare_strings l).Sorted (fun a b => strcmp a b ≤ 0) := by
  haveI := strcmp_isTotal
  haveI := strcmp_isTrans
  exact List.sorted_insertionSort _ l

/-- Any ascending permutation of the input is the result of `qsort`: with
`strcmp` as comparator the result does not depend on the sorting algorithm. -/
theorem qsort_unique (l l2 : List CStr) (hp : l2.Perm l)
    (hs : l2.Sorted (fun a b => strcmp a b ≤ 0)) : qsort strlist_compare_strings l = l2 := by
  haveI := strcmp_isAntisymm
  exact List.eq_of_perm_of_sorted ((qsort_perm l).trans hp.symm) (qsort_sorted l) hs

theorem qsort_congr (l l2 : List CStr) (hp : l2.Perm l) :
    qsort strlist_compare_strings l2 = qsort strlist_compare_strings l :=
  (qsort_unique l _ ((qsort_perm l2).trans hp) (qsort_sorted l2)).symm

theorem qsort_lex_sorted (l : List CStr) : (qsort strlist_compare_strings l).Sorted lex_le := by
  have h := qsort_sorted l
  exact List.Pairwise.imp (fun {a b} hab => (strcmp_le_iff a b).1 hab) h

/-! ### dynamic arrays -/

theorem wrap32_id (x : Int) (h1 : -2147483648 ≤ x) (h2 : x < 2147483648) : wrap32 x = x := by
  unfold wrap32; omega

theorem shr2_eq (c : Int) : c >>> (2 : Nat) = c / 4 := by
  rw [Int.shiftRight_eq_div_pow]; rfl

theorem reserve_loop_spec (max_cap new_count : Int) (hmax : max_cap ≤ INT_MAX)
    (hnc : new_count ≤ max_cap) :
    ∀ (fuel : Nat) (c : Int), 0 ≤ c → c ≤ max_cap → new_count - c < fuel → 0 < fuel →
      ∃ r, reserve_loop max_cap new_count fuel c = some r ∧ new_count ≤ r ∧ c ≤ r ∧
        r ≤ max_cap := by
  intro fuel
  induction fuel with
  | zero =>
    intro c h0 hc hf hpos
    exact absurd hpos (lt_irrefl _)
  | succ n ih =>
    intro c h0 hc hf _
    unfold reserve_loop
    by_cases hlt : c < new_count
    · simp only [hlt, if_true]
      rw [shr2_eq]
      unfold INT_MAX at hmax
      have hn : 0 < n := by push_cast at hf; omega
      by_cases hclamp : wrap32 (c + (c / 4 + 4)) < c ∨ wrap32 (c + (c / 4 + 4)) > max_cap
      · simp only [hclamp, if_true]
        obtain ⟨r, hr, h1, h2, h3⟩ := ih max_cap (by omega) (le_refl _)
          (by push_cast at hf ⊢; omega) hn
        exact ⟨r, hr, h1, by omega, h3⟩
      · simp only [hclamp, if_false]
        have hw : c < wrap32 (c + (c / 4 + 4)) := by
          unfold wrap32 at hclamp ⊢
          omega
        obtain ⟨r, hr, h1, h2, h3⟩ := ih (wrap32 (c + (c / 4 + 4))) (by omega) (by omega)
          (by push_cast at hf ⊢; omega) hn
        exact ⟨r, hr, h1, by omega, h3⟩
    · simp only [hlt, if_false]
      exact ⟨c, rfl, by omega, le_refl _, hc⟩

theorem dynarray_append_spec {α : Type} (psz : Nat) (a : dynarray_t α) (x : α)
    (hwf : dynarray_wf psz a) (hroom : (a.items.length : Int) < INT_MAX / (psz : Int)) :
    ∃ a2, dynarray_append psz a x = .ret a2 ∧ dynarray_wf psz a2 ∧ a2.items = a.items ++ [x] := by
  obtain ⟨hc, hcap, hmc⟩ := hwf
  have htake : a.items.take a.count.toNat = a.items := by
    rw [hc]; simp
  have hmax : INT_MAX / (psz : Int) ≤ INT_MAX := by
    apply Int.ediv_le_self; unfold INT_MAX; omega
  unfold dynarray_append
  by_cases hfull : a.count ≥ a.capacity
  · simp only [hfull, if_true]
    unfold dynarray_reserve_more
    have h1 : ¬ ((1 : Int) ≤ 0) := by omega
    have h2 : ¬ ((1 : Int) > INT_MAX / (psz : Int) - a.count) := by omega
    simp only [h1, h2, if_false]
    obtain ⟨r, hr, hr1, hr2, hr3⟩ := reserve_loop_spec (INT_MAX / (psz : Int)) (a.count + 1) hmax
      (by omega) RESERVE_FUEL a.capacity (by omega) hmc
      (by unfold RESERVE_FUEL; unfold INT_MAX at hmax; push_cast; omega)
      (by unfold RESERVE_FUEL; omega)
    rw [hr]
    refine ⟨_, rfl, ⟨?_, ?_, ?_⟩, ?_⟩
    · simp [htake]; omega
    · simp; omega
    · simpa using hr3
    · simp [htake]
  · simp only [hfull, if_false]
    refine ⟨_, rfl, ⟨?_, ?_, ?_⟩, ?_⟩
    · simp [htake]; omega
    · simp; omega
    · simpa using hmc
    · simp [htake]

theorem strlist_append_dup_spec (psz : Nat) (list : strlist_t) (str : CStr)
    (hwf : dynarray_wf psz list) (hroom : (list.items.length : Int) < INT_MAX / (psz : Int)) :
    ∃ l2, strlist_append_dup psz list str = .ret l2 ∧ dynarray_wf psz l2 ∧
      l2.items = list.items ++ [str] := by
  unfold strlist_append_dup strlist_append_b
  rw [List.take_length]
  exact dynarray_append_spec psz list str hwf hroom

theorem strlist_initializer_wf (psz : Nat) (h : 0 ≤ INT_MAX / (psz : Int)) :
    dynarray_wf psz STRLIST_INITIALIZER := by
  unfold dynarray_wf STRLIST_INITIALIZER DYNARRAY_INITIALIZER
  simp [h]

/-- The items a `STRLIST_FOREACH` loop visits. -/
theorem strlist_sort_items (psz : Nat) (list : strlist_t) (hwf : dynarray_wf psz list) :
    (strlist_sort list).items.take (strlist_sort list).count.toNat =
      qsort strlist_compare_strings list.items := by
  obtain ⟨hc, -, -⟩ := hwf
  unfold strlist_sort
  by_cases hpos : list.count > 0
  · simp only [hpos, if_true]
    rw [hc]
    simp [qsort, List.length_insertionSort]
  · simp only [hpos, if_false]
    have : list.items = [] := by
      apply List.eq_nil_of_length_eq_zero; omega
    rw [hc, this]; simp [qsort]


theorem returned_iff {α : Type} {o : Outcome α} : o.returned = true ↔ ∃ v, o = .ret v := by
  cases o <;> simp [Outcome.returned]

/-! ### the readdir loops -/

theorem skipped_eq (flags : Nat) (d : CStr) : skipped flags d = !passes_filter flags d := by
  unfold skipped passes_filter
  by_cases h1 : d = lit "."
  · simp [h1, (strcmp_eq_zero_iff _ _).2]
  · by_cases h2 : d = lit ".."
    · simp [h2, (strcmp_eq_zero_iff _ _).2]
    · have e1 : ¬ strcmp d (lit ".") = 0 := fun h => h1 ((strcmp_eq_zero_iff _ _).1 h)
      have e2 : ¬ strcmp d (lit "..") = 0 := fun h => h2 ((strcmp_eq_zero_iff _ _).1 h)
      by_cases h3 : d.head? = some 46 <;> by_cases h4 : flags &&& LIST_ALL = 0 <;>
        simp [h1, h2, h3, h4, e1, e2]

theorem scan_files_spec (env : Env) (flags : Nat) :
    ∀ (es : List CStr) (files : strlist_t), dynarray_wf env.sizeof_voidp files →
      ((files.items.length + es.length : Nat) : Int) ≤ INT_MAX / (env.sizeof_voidp : Int) →
      ∃ f2, scan_files env flags es files = .ret f2 ∧ dynarray_wf env.sizeof_voidp f2 ∧
        f2.items = files.items ++ es.filter (fun d => passes_filter flags d) := by
  intro es
  induction es with
  | nil => intro files hwf _; exact ⟨files, rfl, hwf, by simp⟩
  | cons d rest ih =>
    intro files hwf hcap
    unfold scan_files
    rw [skipped_eq]
    by_cases hp : passes_filter flags d = true
    · simp only [hp, Bool.not_true, Bool.false_eq_true, if_false]
      obtain ⟨l2, h1, h2, h3⟩ := strlist_append_dup_spec env.sizeof_voidp files d hwf
        (by simp only [List.length_cons] at hcap; push_cast at hcap; omega)
      rw [h1]
      obtain ⟨f2, g1, g2, g3⟩ := ih l2 h2
        (by rw [h3]; simp only [List.length_cons, List.length_append, List.length_nil] at hcap ⊢
            push_cast at hcap ⊢; omega)
      exact ⟨f2, g1, g2, by rw [g3, h3]; simp [hp]⟩
    · simp only [Bool.not_eq_true] at hp
      simp only [hp, Bool.not_false, if_true]
      obtain ⟨f2, g1, g2, g3⟩ := ih files hwf
        (by simp only [List.length_cons] at hcap; push_cast at hcap ⊢; omega)
      exact ⟨f2, g1, g2, by rw [g3]; simp [hp]⟩

theorem max_cap_nonneg (psz : Nat) : 0 ≤ INT_MAX / (psz : Int) := by
  apply Int.ediv_nonneg
  · unfold INT_MAX; omega
  · omega

/-- The names `listdir` renders: the filtered entries, sorted. -/
theorem listdir_files (env : Env) (flags : Nat) (entries : List CStr)
    (hcap : (entries.length : Int) ≤ INT_MAX / (env.sizeof_voidp : Int)) :
    ∃ f, scan_files env flags entries STRLIST_INITIALIZER = .ret f ∧
      (strlist_sort f).items.take (strlist_sort f).count.toNat =
        qsort strlist_compare_strings (entries.filter (fun d => passes_filter flags d)) := by
  obtain ⟨f, h1, h2, h3⟩ := scan_files_spec env flags entries STRLIST_INITIALIZER
    (strlist_initializer_wf _ (max_cap_nonneg _))
    (by simpa [STRLIST_INITIALIZER, DYNARRAY_INITIALIZER] using hcap)
  refine ⟨f, h1, ?_⟩
  rw [strlist_sort_items _ f h2, h3]
  simp [STRLIST_INITIALIZER, DYNARRAY_INITIALIZER]

theorem scan_subdirs_spec (env : Env) (name : CStr) (flags : Nat) :
    ∀ (es : List CStr) (subdirs : strlist_t), dynarray_wf env.sizeof_voidp subdirs →
      ((subdirs.items.length + es.length : Nat) : Int) ≤ INT_MAX / (env.sizeof_voidp : Int) →
      (∀ d ∈ es, passes_filter flags d = true →
        (scan_stat env (child_path 4096 name d)).isSome = true) →
      ∃ f2, scan_subdirs env name flags es subdirs = .ret (some f2) ∧
        dynarray_wf env.sizeof_voidp f2 ∧
        f2.items = subdirs.items ++
          ((es.filter (fun d => passes_filter flags d)).map (child_path 4096 name)).filter
            (fun p => scan_isdir env p) := by
  intro es
  induction es with
  | nil => intro subdirs hwf _ _; exact ⟨subdirs, rfl, hwf, by simp⟩
  | cons d rest ih =>
    intro subdirs hwf hcap hstat
    unfold scan_subdirs
    rw [skipped_eq]
    have hrest : ∀ d ∈ rest, passes_filter flags d = true →
        (scan_stat env (child_path 4096 name d)).isSome = true :=
      fun d2 hd2 => hstat d2 (List.mem_cons_of_mem _ hd2)
    by_cases hp : passes_filter flags d = true
    · simp only [hp, Bool.not_true, Bool.false_eq_true, if_false]
      have hs := hstat d (List.mem_cons_self _ _) hp
      obtain ⟨s, hs2⟩ := Option.isSome_iff_exists.1 hs
      have hs3 : (if (child_path 4096 name d).getLast? = some 47
          then env.stat (child_path 4096 name d) else env.lstat (child_path 4096 name d)) =
          some s := hs2
      simp only [hs3]
      by_cases hdir : S_ISDIR s.st_mode = true
      · simp only [hdir, if_true]
        obtain ⟨l2, h1, h2, h3⟩ := strlist_append_dup_spec env.sizeof_voidp subdirs
          (child_path 4096 name d) hwf
          (by simp only [List.length_cons] at hcap; push_cast at hcap; omega)
        rw [h1]
        obtain ⟨f2, g1, g2, g3⟩ := ih l2 h2
          (by rw [h3]; simp only [List.length_cons, List.length_append, List.length_nil] at hcap ⊢
              push_cast at hcap ⊢; omega) hrest
        refine ⟨f2, g1, g2, ?_⟩
        rw [g3, h3]
        simp [hp, scan_isdir, hs2, hdir]
      · simp only [hdir, if_false]
        obtain ⟨f2, g1, g2, g3⟩ := ih subdirs hwf
          (by simp only [List.length_cons] at hcap; push_cast at hcap ⊢; omega) hrest
        refine ⟨f2, g1, g2, ?_⟩
        rw [g3]
        simp [hp, scan_isdir, hs2, hdir]
    · simp only [Bool.not_eq_true] at hp
      simp only [hp, Bool.not_false, if_true]
      obtain ⟨f2, g1, g2, g3⟩ := ih subdirs hwf
        (by simp only [List.length_cons] at hcap; push_cast at hcap ⊢; omega) hrest
      exact ⟨f2, g1, g2, by rw [g3]; simp [hp]⟩

theorem scan_subdirs_fail (env : Env) (name : CStr) (flags : Nat) :
    ∀ (es : List CStr) (subdirs : strlist_t), dynarray_wf env.sizeof_voidp subdirs →
      ((subdirs.items.length + es.length : Nat) : Int) ≤ INT_MAX / (env.sizeof_voidp : Int) →
      (∃ d ∈ es, passes_filter flags d = true ∧
        scan_stat env (child_path 4096 name d) = none) →
      scan_subdirs env name flags es subdirs = .ret none := by
  intro es
  induction es with
  | nil => intro subdirs _ _ h; obtain ⟨d, hd, _⟩ := h; cases hd
  | cons d rest ih =>
    intro subdirs hwf hcap hex
    unfold scan_subdirs
    rw [skipped_eq]
    by_cases hp : passes_filter flags d = true
    · simp only [hp, Bool.not_true, Bool.false_eq_true, if_false]
      cases hs : scan_stat env (child_path 4096 name d) with
      | none =>
        have hs3 : (if (child_path 4096 name d).getLast? = some 47
            then env.stat (child_path 4096 name d) else env.lstat (child_path 4096 name d)) =
            none := hs
        simp only [hs3]
      | some s =>
        have hs3 : (if (child_path 4096 name d).getLast? = some 47
            then env.stat (child_path 4096 name d) else env.lstat (child_path 4096 name d)) =
            some s := hs
        have hrest : ∃ d2 ∈ rest, passes_filter flags d2 = true ∧
            scan_stat env (child_path 4096 name d2) = none := by
          obtain ⟨d2, hd2, h1, h2⟩ := hex
          rcases List.mem_cons.1 hd2 with h | h
          · subst h; rw [hs] at h2; cases h2
          · exact ⟨d2, h, h1, h2⟩
        simp only [hs3]
        by_cases hdir : S_ISDIR s.st_mode = true
        · simp only [hdir, if_true]
          obtain ⟨l2, h1, h2, h3⟩ := strlist_append_dup_spec env.sizeof_voidp subdirs
            (child_path 4096 name d) hwf
            (by simp only [List.length_cons] at hcap; push_cast at hcap; omega)
          rw [h1]
          exact ih l2 h2
            (by rw [h3]; simp only [List.length_cons, List.length_append, List.length_nil] at hcap ⊢
                push_cast at hcap ⊢; omega) hrest
        · simp only [hdir, if_false]
          exact ih subdirs hwf
            (by simp only [List.length_cons] at hcap; push_cast at hcap ⊢; omega) hrest
    · have hrest : ∃ d2 ∈ rest, passes_filter flags d2 = true ∧
          scan_stat env (child_path 4096 name d2) = none := by
        obtain ⟨d2, hd2, h1, h2⟩ := hex
        rcases List.mem_cons.1 hd2 with h | h
        · subst h; exact absurd h1 hp
        · exact ⟨d2, h, h1, h2⟩
      simp only [Bool.not_eq_true] at hp
      simp only [hp, Bool.not_false, if_true]
      exact ih subdirs hwf
        (by simp only [List.length_cons] at hcap; push_cast at hcap ⊢; omega) hrest

/-! ### the entry loop -/

theorem shown_names_perm (flags : Nat) (entries : List CStr) :
    (shown_names flags entries).Perm (entries.filter (fun d => passes_filter flags d)) :=
  qsort_perm _

/-- A call of `listfile_long` returns or ends as a fault. -/
theorem listfile_long_ends (env : Env) (path : CStr) (flags : Nat) :
    (listfile_long env path flags).res = .fault ∨
      ∃ v, (listfile_long env path flags).res = .ret v := by
  unfold listfile_long
  split
  · exact Or.inr ⟨_, rfl⟩
  · split
    · exact Or.inl rfl
    · split
      · exact Or.inl rfl
      · split
        · exact Or.inl rfl
        · right
          simp only [listfile_long_print]
          split_ifs
          · exact ⟨_, rfl⟩
          · exact ⟨_, rfl⟩
          · cases env.readlink path <;> exact ⟨_, rfl⟩
          · exact ⟨_, rfl⟩

/-- A call of `listfile` returns or ends as a fault. -/
theorem listfile_ends (env : Env) (dirname : Option CStr) (filename : CStr) (flags : Nat) :
    (listfile env dirname filename flags).res = .fault ∨
      ∃ v, (listfile env dirname filename flags).res = .ret v := by
  unfold listfile
  split_ifs
  · exact Or.inr ⟨_, rfl⟩
  · exact listfile_long_ends env _ flags
  · exact Or.inr ⟨_, rfl⟩

/-- Outside the long format every call of `listfile` returns. -/
theorem listfile_short_ret (env : Env) (dirname : Option CStr) (filename : CStr) (flags : Nat)
    (hnl : flags &&& LIST_LONG = 0) :
    (listfile env dirname filename flags).res.returned = true := by
  unfold listfile
  split_ifs with h1 h2
  · rfl
  · exact absurd hnl h2
  · rfl

/-- When every call returns, the entry loop prints the output of each call in order. -/
theorem foreach_listfile_ret (env : Env) (name : CStr) (flags : Nat) :
    ∀ names : List CStr,
      (∀ d ∈ names, (listfile env (some name) d flags).res.returned = true) →
      foreach_listfile env name flags names =
        ⟨(names.map (fun d => (listfile env (some name) d flags).out)).flatten, .ret ()⟩ := by
  intro names
  induction names with
  | nil => intro _; rfl
  | cons d rest ih =>
    intro h
    obtain ⟨v, hv⟩ := returned_iff.1 (h d (List.mem_cons_self _ _))
    unfold foreach_listfile
    simp only [hv]
    rw [ih (fun q hq => h q (List.mem_cons_of_mem _ hq))]
    simp

/-- The entry loop returns or ends as a fault. -/
theorem foreach_listfile_ends (env : Env) (name : CStr) (flags : Nat) :
    ∀ names : List CStr, (foreach_listfile env name flags names).res = .fault ∨
      (foreach_listfile env name flags names).res = .ret () := by
  intro names
  induction names with
  | nil => exact Or.inr rfl
  | cons d rest ih =>
    unfold foreach_listfile
    rcases listfile_ends env (some name) d flags with h | ⟨v, h⟩
    · simp [h]
    · simp only [h]; exact ih

/-- When the call of `listfile` on every rendered entry returns, the entry loop returns. -/
theorem entry_loop_ret (env : Env) (name : CStr) (flags : Nat) (entries : List CStr)
    (hlines : ∀ d ∈ entries, passes_filter flags d = true →
      (listfile env (some name) d flags).res.returned = true) :
    (foreach_listfile env name flags (shown_names flags entries)).res = .ret () := by
  rw [foreach_listfile_ret env name flags _ (by
    intro d hd
    rw [(shown_names_perm flags entries).mem_iff, List.mem_filter] at hd
    exact hlines d hd.1 hd.2)]

/-! ### listdir -/

/-- When the entry loop ends as a fault, so does `listdir`, after the lines printed so far. -/
theorem listdir_fault (env : Env) (fuel : Nat) (name : CStr) (flags : Nat) (entries : List CStr)
    (hopen : env.opendir name = some entries)
    (hcap : (entries.length : Int) ≤ INT_MAX / (env.sizeof_voidp : Int))
    (hstop : (foreach_listfile env name flags (shown_names flags entries)).res = .fault) :
    listdir (fuel + 1) env name flags =
      ⟨total_line env name flags entries ++ entry_lines env name flags entries, .fault⟩ := by
  obtain ⟨f, hf, hitems⟩ := listdir_files env flags entries hcap
  unfold shown_names at hstop
  simp only [listdir, hopen, hf, hitems, hstop]
  simp [total_line, entry_lines, shown_names]

/-- Without LIST_RECURSIVE, when the entry loop returns, `listdir` prints
the total line and the entry lines, and returns 0. -/
theorem listdir_norec (env : Env) (fuel : Nat) (name : CStr) (flags : Nat) (entries : List CStr)
    (hopen : env.opendir name = some entries)
    (hcap : (entries.length : Int) ≤ INT_MAX / (env.sizeof_voidp : Int))
    (hnorec : flags &&& LIST_RECURSIVE = 0)
    (hlines : (foreach_listfile env name flags (shown_names flags entries)).res = .ret ()) :
    listdir (fuel + 1) env name flags =
      ⟨total_line env name flags entries ++ entry_lines env name flags entries, .ret 0⟩ := by
  obtain ⟨f, hf, hitems⟩ := listdir_files env flags entries hcap
  have hl := hlines
  unfold shown_names at hl
  simp only [listdir, hopen, hf, hitems, hnorec, hl]
  simp [total_line, entry_lines, shown_names]

/-- With LIST_RECURSIVE, when the entry loop returns and a child cannot be
examined, `listdir` stops after the entry lines and returns -1. -/
theorem listdir_rec_fail (env : Env) (fuel : Nat) (name : CStr) (flags : Nat)
    (entries : List CStr)
    (hopen : env.opendir name = some entries)
    (hcap : (entries.length : Int) ≤ INT_MAX / (env.sizeof_voidp : Int))
    (hrec : flags &&& LIST_RECURSIVE ≠ 0)
    (hlines : (foreach_listfile env name flags (shown_names flags entries)).res = .ret ())
    (hfail : ∃ d ∈ entries, passes_filter flags d = true ∧
      scan_stat env (child_path 4096 name d) = none) :
    listdir (fuel + 1) env name flags =
      ⟨total_line env name flags entries ++ entry_lines env name flags entries, .ret (-1)⟩ := by
  obtain ⟨f, hf, hitems⟩ := listdir_files env flags entries hcap
  have hl := hlines
  unfold shown_names at hl
  have hs := scan_subdirs_fail env name flags entries STRLIST_INITIALIZER
    (strlist_initializer_wf _ (max_cap_nonneg _))
    (by simpa [STRLIST_INITIALIZER, DYNARRAY_INITIALIZER] using hcap) hfail
  simp only [listdir, hopen, hf, hitems, hs, hl]
  simp [total_line, entry_lines, shown_names, hrec]

/-- With LIST_RECURSIVE, when the entry loop returns and every child can be
examined, `listdir` prints the entry lines and then runs the subdirectory
loop over the sorted paths. -/
theorem listdir_rec_ok (env : Env) (fuel : Nat) (name : CStr) (flags : Nat)
    (entries : List CStr)
    (hopen : env.opendir name = some entries)
    (hcap : (entries.length : Int) ≤ INT_MAX / (env.sizeof_voidp : Int))
    (hrec : flags &&& LIST_RECURSIVE ≠ 0)
    (hlines : (foreach_listfile env name flags (shown_names flags entries)).res = .ret ())
    (hstat : ∀ d ∈ entries, passes_filter flags d = true →
      (scan_stat env (child_path 4096 name d)).isSome = true) :
    listdir (fuel + 1) env name flags =
      ⟨total_line env name flags entries ++ entry_lines env name flags entries ++
          (foreach_subdir (fun path => listdir fuel env path flags)
            (subdir_paths env name flags entries)).out,
        match (foreach_subdir (fun path => listdir fuel env path flags)
            (subdir_paths env name flags entries)).res with
        | .ret _ => .ret 0
        | .abort => .abort
        | .nofuel => .nofuel
        | .fault => .fault⟩ := by
  obtain ⟨f, hf, hitems⟩ := listdir_files env flags entries hcap
  have hl := hlines
  unfold shown_names at hl
  obtain ⟨g, hg, hgwf, hgitems⟩ := scan_subdirs_spec env name flags entries STRLIST_INITIALIZER
    (strlist_initializer_wf _ (max_cap_nonneg _))
    (by simpa [STRLIST_INITIALIZER, DYNARRAY_INITIALIZER] using hcap) hstat
  have hg2 := strlist_sort_items _ g hgwf
  rw [hgitems] at hg2
  simp only [STRLIST_INITIALIZER, DYNARRAY_INITIALIZER, List.nil_append] at hg2
  simp only [listdir, hopen, hf, hitems, hg, hg2, hl]
  simp only [total_line, entry_lines, shown_names, subdir_paths, hrec, ne_eq, not_false_eq_true,
    if_true]
  cases (foreach_subdir (fun path => listdir fuel env path flags)
      (qsort strlist_compare_strings
        (List.filter (fun p => scan_isdir env p)
          (List.map (child_path 4096 name)
            (List.filter (fun d => passes_filter flags d) entries))))).res <;> rfl

/-- When every call returns, the subdirectory loop prints one section per
path, in order. -/
theorem foreach_subdir_ret (list : CStr → Run Int) :
    ∀ paths : List CStr, (∀ p ∈ paths, ∃ v, (list p).res = .ret v) →
      foreach_subdir list paths =
        ⟨(paths.map (section_text (fun p => (list p).out))).flatten, .ret ()⟩ := by
  intro paths
  induction paths with
  | nil => intro _; rfl
  | cons p rest ih =>
    intro h
    obtain ⟨v, hv⟩ := h p (List.mem_cons_self _ _)
    unfold foreach_subdir
    simp only [hv]
    rw [ih (fun q hq => h q (List.mem_cons_of_mem _ hq))]
    simp [section_text]

/-- In bare-name mode each entry line is the name followed by a newline. -/
theorem foreach_listfile_bare (env : Env) (name : CStr) (flags : Nat)
    (hbare : flags &&& (LIST_LONG ||| LIST_SIZE) = 0) (names : List CStr) :
    foreach_listfile env name flags names =
      ⟨(names.map (fun n => n ++ lit "\n")).flatten, .ret ()⟩ := by
  induction names with
  | nil => rfl
  | cons n rest ih =>
    unfold foreach_listfile
    rw [ih]
    simp [listfile, hbare]

theorem bare_no_size (flags : Nat) (hbare : flags &&& (LIST_LONG ||| LIST_SIZE) = 0) :
    flags &&& LIST_SIZE = 0 := by
  have h : flags &&& LIST_SIZE = (flags &&& (LIST_LONG ||| LIST_SIZE)) &&& LIST_SIZE := by
    rw [Nat.and_assoc]; rfl
  rw [h, hbare]; rfl

theorem bare_no_long (flags : Nat) (hbare : flags &&& (LIST_LONG ||| LIST_SIZE) = 0) :
    flags &&& LIST_LONG = 0 := by
  have h : flags &&& LIST_LONG = (flags &&& (LIST_LONG ||| LIST_SIZE)) &&& LIST_LONG := by
    rw [Nat.and_assoc]; rfl
  rw [h, hbare]; rfl

theorem shown_names_congr (flags : Nat) (entries entries2 : List CStr)
    (hp : entries2.Perm entries) : shown_names flags entries2 = shown_names flags entries :=
  qsort_congr _ _ (hp.filter _)

theorem and_two_pow_eq (m k : Nat) : m &&& 2 ^ k = if m.testBit k then 2 ^ k else 0 := by
  apply Nat.eq_of_testBit_eq
  intro i
  by_cases h : m.testBit k = true
  · simp only [h, if_true, Nat.testBit_and, Nat.testBit_two_pow]
    by_cases hk : k = i
    · subst hk; simp [h]
    · simp [hk]
  · simp only [h, if_false, Nat.testBit_and, Nat.testBit_two_pow, Nat.zero_testBit]
    by_cases hk : k = i
    · subst hk; simp at h; simp [h]
    · simp [hk]

theorem and_two_pow_ne_zero (m k : Nat) : m &&& 2 ^ k ≠ 0 ↔ m.testBit k = true := by
  rw [and_two_pow_eq]
  by_cases h : m.testBit k = true
  · simp [h]
  · simp [h]

theorem passes_filter_iff (flags : Nat) (d : CStr) :
    passes_filter flags d = true ↔
      d ≠ lit "." ∧ d ≠ lit ".." ∧ (d.head? ≠ some 46 ∨ flags &&& LIST_ALL ≠ 0) := by
  unfold passes_filter
  simp only [Bool.and_eq_true, Bool.or_eq_true, decide_eq_true_eq]
  tauto

theorem strcmp_append_left (p a b : CStr) : strcmp (p ++ a) (p ++ b) = strcmp a b := by
  induction p with
  | nil => rfl
  | cons x xs ih => simp [strcmp, ih]

theorem qsort_map_append (p : CStr) (l : List CStr) :
    qsort strlist_compare_strings (l.map (fun d => p ++ d)) =
      (qsort strlist_compare_strings l).map (fun d => p ++ d) := by
  apply qsort_unique
  · exact (qsort_perm l).map _
  · have h := qsort_sorted l
    unfold List.Sorted at h ⊢
    rw [List.pairwise_map]
    exact List.Pairwise.imp (fun {a b} hab => by rw [strcmp_append_left]; exact hab) h

theorem lit_slash_length : (lit "/").length = 1 := rfl

theorem child_path_eq_join (name d : CStr) (hfit : name.length + 1 + d.length < 4096) :
    child_path 4096 name d = join_path name d := by
  unfold child_path join_path snprintf
  by_cases h : name = lit "/"
  · have h0 : strcmp name (lit "/") = 0 := (strcmp_eq_zero_iff _ _).2 h
    simp only [h0, beq_self_eq_true, if_true, h]
    apply List.take_of_length_le
    simp only [List.length_append, lit_slash_length]; omega
  · have h0 : ¬ strcmp name (lit "/") = 0 := fun e => h ((strcmp_eq_zero_iff _ _).1 e)
    simp only [beq_iff_eq, h0, if_false, h]
    apply List.take_of_length_le
    simp only [List.length_append, lit_slash_length]; omega

theorem join_path_eq_append (name : CStr) :
    join_path name = fun d => (if name = lit "/" then lit "/" else name ++ lit "/") ++ d := by
  funext d
  unfold join_path
  by_cases h : name = lit "/" <;> simp [h]

/-- When every child path fits the buffer, the paths the recursive scan
collects are the joined paths of the directory children, in ascending order
of the child names. -/
theorem subdir_paths_eq (env : Env) (name : CStr) (flags : Nat) (entries : List CStr)
    (hfit : ∀ d ∈ entries, passes_filter flags d = true → name.length + 1 + d.length < 4096) :
    subdir_paths env name flags entries =
      (qsort strlist_compare_strings
        (entries.filter (fun d => scan_isdir env (join_path name d) && passes_filter flags d))).map
        (join_path name) := by
  unfold subdir_paths
  have h1 : (entries.filter (fun d => passes_filter flags d)).map (child_path 4096 name) =
      (entries.filter (fun d => passes_filter flags d)).map (join_path name) := by
    apply List.map_congr_left
    intro d hd
    rw [List.mem_filter] at hd
    exact child_path_eq_join name d (hfit d hd.1 hd.2)
  rw [h1, List.filter_map, List.filter_filter, join_path_eq_append, qsort_map_append]
  rfl

/-- If the subdirectory loop does not run out of budget with `f`, it behaves
the same with any `g` that agrees with `f` wherever `f` does not run out. -/
theorem foreach_subdir_mono (f g : CStr → Run Int)
    (h : ∀ p, (f p).res ≠ .nofuel → g p = f p) :
    ∀ paths : List CStr, (foreach_subdir f paths).res ≠ .nofuel →
      foreach_subdir g paths = foreach_subdir f paths := by
  intro paths
  induction paths with
  | nil => intro _; rfl
  | cons p rest ih =>
    intro hne
    unfold foreach_subdir at hne ⊢
    cases hfp : (f p).res with
    | ret v =>
      have hg : g p = f p := h p (by rw [hfp]; simp)
      simp only [hfp] at hne
      simp only [hg, hfp]
      rw [ih hne]
    | abort =>
      have hg : g p = f p := h p (by rw [hfp]; simp)
      simp only [hg, hfp]
    | fault =>
      have hg : g p = f p := h p (by rw [hfp]; simp)
      simp only [hg, hfp]
    | nofuel =>
      simp only [hfp] at hne
      exact absurd rfl hne

/-- A listing that ends within the budget is the same with a larger budget. -/
theorem listdir_succ (env : Env) (flags : Nat) :
    ∀ (fuel : Nat) (name : CStr), (listdir fuel env name flags).res ≠ .nofuel →
      listdir (fuel + 1) env name flags = listdir fuel env name flags := by
  intro fuel
  induction fuel with
  | zero => intro name h; exact absurd rfl h
  | succ n ih =>
    intro name hne
    unfold listdir at hne ⊢
    cases hopen : env.opendir name with
    | none => rfl
    | some entries =>
      simp only [hopen] at hne ⊢
      cases hfiles : scan_files env flags entries STRLIST_INITIALIZER with
      | abort => rfl
      | nofuel => rfl
      | fault => rfl
      | ret files =>
        simp only [hfiles] at hne ⊢
        cases hlines : (foreach_listfile env name flags
            (List.take (strlist_sort files).count.toNat (strlist_sort files).items)).res with
        | abort => rfl
        | nofuel => rfl
        | fault => rfl
        | ret u =>
          simp only [hlines] at hne ⊢
          by_cases hrec : flags &&& LIST_RECURSIVE ≠ 0
          · simp only [if_pos hrec] at hne ⊢
            cases hsub : scan_subdirs env name flags entries STRLIST_INITIALIZER with
            | abort => rfl
            | nofuel => rfl
            | fault => rfl
            | ret o =>
              cases o with
              | none => rfl
              | some subdirs =>
                simp only [hsub] at hne ⊢
                have hloop : (foreach_subdir (fun path => listdir n env path flags)
                    (List.take (strlist_sort subdirs).count.toNat
                      (strlist_sort subdirs).items)).res ≠ .nofuel := by
                  intro hcontra
                  rw [hcontra] at hne
                  exact hne rfl
                rw [foreach_subdir_mono (fun path => listdir n env path flags)
                  (fun path => listdir (n + 1) env path flags) (fun p hp => ih p hp) _ hloop]
          · simp only [if_neg hrec]

/-- A listing that ends within the budget is the same with every larger budget. -/
theorem listdir_mono (env : Env) (flags : Nat) (fuel extra : Nat) (name : CStr)
    (h : (listdir fuel env name flags).res ≠ .nofuel) :
    listdir (fuel + extra) env name flags = listdir fuel env name flags := by
  induction extra with
  | zero => rfl
  | succ k ih =>
    rw [← Nat.add_assoc, listdir_succ env flags (fuel + k) name (by rw [ih]; exact h), ih]

/-! ### show_total_size -/

theorem wrap32_add (a b : Int) : wrap32 (wrap32 a + b) = wrap32 (a + b) := by
  unfold wrap32; omega

theorem child_path_1024_eq_join (name d : CStr) (hfit : name.length + 1 + d.length < 1024) :
    child_path 1024 name d = join_path name d := by
  unfold child_path join_path snprintf
  by_cases h : name = lit "/"
  · have h0 : strcmp name (lit "/") = 0 := (strcmp_eq_zero_iff _ _).2 h
    simp only [h0, beq_self_eq_true, if_true, h]
    apply List.take_of_length_le
    simp only [List.length_append, lit_slash_length]; omega
  · have h0 : ¬ strcmp name (lit "/") = 0 := fun e => h ((strcmp_eq_zero_iff _ _).1 e)
    simp only [beq_iff_eq, h0, if_false, h]
    apply List.take_of_length_le
    simp only [List.length_append, lit_slash_length]; omega

theorem total_loop_spec (env : Env) (dirname : CStr) (flags : Nat) :
    ∀ (es : List CStr) (sum : Int), wrap32 sum = sum →
      (∀ d ∈ es, passes_filter flags d = true → dirname.length + 1 + d.length < 1024) →
      (∀ d ∈ es, passes_filter flags d = true →
        (env.lstat (join_path dirname d)).isSome = true) →
      total_loop env dirname flags es sum =
        some (wrap32 (sum + (total_kb env dirname flags es : Nat))) := by
  intro es
  induction es with
  | nil =>
    intro sum hsum _ _
    simp only [total_loop, total_kb, List.filter_nil, List.map_nil, List.sum_nil]
    simp [hsum]
  | cons d rest ih =>
    intro sum hsum hfit hstat
    have hfit2 := fun d2 hd2 => hfit d2 (List.mem_cons_of_mem _ hd2)
    have hstat2 := fun d2 hd2 => hstat d2 (List.mem_cons_of_mem _ hd2)
    unfold total_loop
    rw [skipped_eq]
    by_cases hp : passes_filter flags d = true
    · simp only [hp, Bool.not_true, Bool.false_eq_true, if_false]
      rw [child_path_1024_eq_join dirname d (hfit d (List.mem_cons_self _ _) hp)]
      obtain ⟨s, hs⟩ := Option.isSome_iff_exists.1 (hstat d (List.mem_cons_self _ _) hp)
      simp only [hs]
      rw [ih _ (by unfold wrap32; omega) hfit2 hstat2, wrap32_add]
      have hk : total_kb env dirname flags (d :: rest) =
          s.st_blocks / 2 + total_kb env dirname flags rest := by
        simp [total_kb, hp, child_kb, hs]
      rw [hk]
      push_cast
      rw [add_assoc]
    · simp only [Bool.not_eq_true] at hp
      simp only [hp, Bool.not_false, if_true]
      rw [ih sum hsum hfit2 hstat2]
      have hk : total_kb env dirname flags (d :: rest) = total_kb env dirname flags rest := by
        simp [total_kb, hp]
      rw [hk]

/-- Within its limits `show_total_size` prints the sum of the children's
sizes in KB: when every child path fits the 1024-byte buffer, every `lstat`
succeeds and the sum is below 2^31. -/
theorem show_total_size_spec (env : Env) (dirname : CStr) (flags : Nat) (entries : List CStr)
    (hfit : ∀ d ∈ entries, passes_filter flags d = true →
      dirname.length + 1 + d.length < 1024)
    (hstat : ∀ d ∈ entries, passes_filter flags d = true →
      (env.lstat (join_path dirname d)).isSome = true)
    (hsum : total_kb env dirname flags entries < 2147483648) :
    show_total_size env dirname entries flags =
      (lit "total " ++ fmt_d (total_kb env dirname flags entries : Nat) ++ lit "\n", 0) := by
  unfold show_total_size
  rw [total_loop_spec env dirname flags entries 0 (by decide) hfit hstat]
  simp only [zero_add]
  rw [wrap32_id _ (by omega) (by omega)]

/-! ### ls_main -/

theorem parse_args_spec (env : Env) :
    ∀ (args : List CStr) (flags : Nat) (files : strlist_t),
      dynarray_wf env.sizeof_voidp files →
      ((files.items.length + args.length : Nat) : Int) ≤ INT_MAX / (env.sizeof_voidp : Int) →
      (parse_flags args flags = none → parse_args env args flags files = .ret none) ∧
      (∀ fl, parse_flags args flags = some fl →
        ∃ fs, parse_args env args flags files = .ret (some (fl, fs)) ∧
          dynarray_wf env.sizeof_voidp fs ∧ fs.items = files.items ++ path_args args) := by
  intro args
  induction args with
  | nil =>
    intro flags files hwf _
    refine ⟨fun h => by simp [parse_flags] at h, fun fl h => ?_⟩
    simp only [parse_flags, Option.some.injEq] at h
    subst h
    exact ⟨files, rfl, hwf, by simp [path_args]⟩
  | cons arg rest ih =>
    intro flags files hwf hcap
    unfold parse_args parse_flags
    by_cases hdash : arg.head? = some 45
    · simp only [hdash, if_true]
      cases hl : parse_letters arg.tail flags with
      | none => simp
      | some flags1 =>
        simp only []
        have hcap2 : ((files.items.length + rest.length : Nat) : Int) ≤
            INT_MAX / (env.sizeof_voidp : Int) := by
          simp only [List.length_cons] at hcap; push_cast at hcap ⊢; omega
        obtain ⟨h1, h2⟩ := ih flags1 files hwf hcap2
        refine ⟨h1, fun fl hfl => ?_⟩
        obtain ⟨fs, g1, g2, g3⟩ := h2 fl hfl
        exact ⟨fs, g1, g2, by rw [g3]; simp [path_args, hdash]⟩
    · simp only [hdash, if_false]
      obtain ⟨l2, a1, a2, a3⟩ := strlist_append_dup_spec env.sizeof_voidp files arg hwf
        (by simp only [List.length_cons] at hcap; push_cast at hcap; omega)
      rw [a1]
      obtain ⟨h1, h2⟩ := ih flags l2 a2
        (by rw [a3]; simp only [List.length_cons, List.length_append, List.length_nil] at hcap ⊢
            push_cast at hcap ⊢; omega)
      refine ⟨h1, fun fl hfl => ?_⟩
      obtain ⟨fs, g1, g2, g3⟩ := h2 fl hfl
      exact ⟨fs, g1, g2, by rw [g3, a3]; simp [path_args, hdash]⟩

/-- When the options are known and there is a path argument, `ls_main`
runs the `listpath` loop over the path arguments. -/
theorem ls_main_paths (env : Env) (fuel : Nat) (argv : List CStr) (flags : Nat)
    (hflags : parse_flags argv.tail 0 = some flags)
    (hcap : (argv.length : Int) ≤ INT_MAX / (env.sizeof_voidp : Int))
    (hpaths : path_args argv.tail ≠ []) :
    ls_main fuel env argv = foreach_listpath fuel env flags (path_args argv.tail) 0 := by
  have hlen : argv.length > 1 := by
    cases argv with
    | nil => simp [path_args] at hpaths
    | cons a rest =>
      cases rest with
      | nil => simp [path_args] at hpaths
      | cons b rest2 => simp
  obtain ⟨-, h2⟩ := parse_args_spec env argv.tail 0 STRLIST_INITIALIZER
    (strlist_initializer_wf _ (max_cap_nonneg _))
    (by simp only [STRLIST_INITIALIZER, DYNARRAY_INITIALIZER, List.length_nil, List.length_tail]
        push_cast; omega)
  obtain ⟨fs, g1, g2, g3⟩ := h2 flags hflags
  simp only [STRLIST_INITIALIZER, DYNARRAY_INITIALIZER, List.nil_append] at g3
  have hcount : fs.count > 0 := by
    rw [g2.1, g3]
    have : (path_args argv.tail).length ≠ 0 := fun h => hpaths (List.eq_nil_of_length_eq_zero h)
    omega
  have htake : fs.items.take fs.count.toNat = path_args argv.tail := by
    rw [g2.1, ← g3]; simp
  simp only [ls_main, hlen, if_true, g1, hcount, htake]

/-- When every call returns, the `listpath` loop prints the output of each
call in order and returns the initial `err`, or 1 when some call returned non-zero. -/
theorem foreach_listpath_spec (fuel : Nat) (env : Env) (flags : Nat) :
    ∀ (paths : List CStr) (err : Int),
      (∀ p ∈ paths, (listpath fuel env p flags).res.returned = true) →
      foreach_listpath fuel env flags paths err =
        ⟨(paths.map (fun p => (listpath fuel env p flags).out)).flatten,
          .ret (if paths.all (fun p => decide ((listpath fuel env p flags).res = .ret 0))
            then err else 1)⟩ := by
  intro paths
  induction paths with
  | nil => intro err _; rfl
  | cons p rest ih =>
    intro err h
    obtain ⟨v, hv⟩ := returned_iff.1 (h p (List.mem_cons_self _ _))
    have hrest := fun q hq => h q (List.mem_cons_of_mem _ hq)
    unfold foreach_listpath
    simp only [hv]
    rw [ih _ hrest]
    by_cases hv0 : v = 0
    · subst hv0
      simp [hv]
    · simp only [ne_eq, hv0, not_false_eq_true, if_true, List.map_cons, List.flatten_cons,
        List.all_cons, hv, Outcome.ret.injEq, decide_False, Bool.false_and,
        Bool.false_eq_true, if_false]
      split_ifs <;> rfl

/-! ### unknown options -/

theorem parse_letters_none_iff (arg : CStr) :
    ∀ flags : Nat, parse_letters arg flags = none ↔ arg.any (fun c => !known_letter c) = true := by
  induction arg with
  | nil => intro flags; simp [parse_letters]
  | cons c rest ih =>
    intro flags
    unfold parse_letters
    simp only [List.any_cons, Bool.or_eq_true]
    by_cases h1 : c = 108
    · simp [h1, ih, known_letter]
    · by_cases h2 : c = 115
      · simp [h2, ih, known_letter]
      · by_cases h3 : c = 82
        · simp [h3, ih, known_letter]
        · by_cases h4 : c = 100
          · simp [h4, ih, known_letter]
          · by_cases h5 : c = 97
            · simp [h5, ih, known_letter]
            · simp [h1, h2, h3, h4, h5, known_letter]

theorem parse_flags_none_iff (args : List CStr) :
    ∀ flags : Nat, parse_flags args flags = none ↔ args.any bad_option = true := by
  induction args with
  | nil => intro flags; simp [parse_flags]
  | cons arg rest ih =>
    intro flags
    unfold parse_flags
    simp only [List.any_cons, Bool.or_eq_true]
    by_cases hdash : arg.head? = some 45
    · simp only [hdash, if_true]
      cases hl : parse_letters arg.tail flags with
      | none =>
        have := (parse_letters_none_iff arg.tail flags).1 hl
        simp [bad_option, hdash, this]
      | some flags1 =>
        have hnb : ¬ (arg.tail.any (fun c => !known_letter c) = true) := by
          intro hb
          rw [(parse_letters_none_iff arg.tail flags).2 hb] at hl
          cases hl
        have hb : bad_option arg = false := by
          simp only [bad_option, Bool.and_eq_false_imp]
          intro _
          simpa using hnb
        simp only [hb, Bool.false_eq_true, false_or]
        exact ih flags1
    · have hb : bad_option arg = false := by
        simp [bad_option, hdash]
      simp only [hdash, if_false, hb, Bool.false_eq_true, false_or]
      exact ih flags

/-! ### number formatting -/

theorem fmt_d_nat (n : Nat) : fmt_d (n : Int) = decimal n := by
  unfold fmt_d decimal lit Nat.repr
  have h : ¬ ((n : Int) < 0) := by omega
  simp only [h, if_false, Int.natAbs_ofNat]
  rfl

theorem decimal_length_le (n e : Nat) (hlt : n < 10 ^ e) (hpos : 0 < e) :
    (decimal n).length ≤ e := by
  unfold decimal lit Nat.repr
  simp only [List.length_map]
  exact Nat.toDigitsCore_length 10 (by decide) (n + 1) n e hlt hpos

theorem snprintf_fit (size : Nat) (text : CStr) (h : text.length < size) :
    snprintf size text = text := by
  unfold snprintf
  exact List.take_of_length_le (by omega)

/-! ### growth of the capacity -/

theorem grow_step_eq (max_cap c : Int) (hmax : max_cap ≤ INT_MAX) (h0 : 0 ≤ c)
    (hc : c ≤ max_cap) :
    (if wrap32 (c + ((c >>> (2 : Nat)) + 4)) < c ∨ wrap32 (c + ((c >>> (2 : Nat)) + 4)) > max_cap
      then max_cap else wrap32 (c + ((c >>> (2 : Nat)) + 4))) = grow_step max_cap c := by
  rw [shr2_eq]
  unfold grow_step INT_MAX wrap32 at *
  rw [min_def]
  split_ifs <;> omega

theorem grow_step_range (max_cap c : Int) (h0 : 0 ≤ c) (hc : c ≤ max_cap) :
    0 ≤ grow_step max_cap c ∧ grow_step max_cap c ≤ max_cap ∧ c ≤ grow_step max_cap c := by
  unfold grow_step
  rw [min_def]
  split_ifs <;> omega

theorem grow_iterate_range (max_cap c : Int) (h0 : 0 ≤ c) (hc : c ≤ max_cap) (j : Nat) :
    0 ≤ (grow_step max_cap)^[j] c ∧ (grow_step max_cap)^[j] c ≤ max_cap := by
  induction j with
  | zero => exact ⟨h0, hc⟩
  | succ k ih =>
    rw [Function.iterate_succ_apply']
    have := grow_step_range max_cap _ ih.1 ih.2
    exact ⟨this.1, this.2.1⟩

/-- The value the loop of `dynarray_reserve_more` ends with is the first
iterate of the growth step that reaches the needed count. -/
theorem reserve_loop_iter (max_cap need : Int) (hmax : max_cap ≤ INT_MAX) :
    ∀ (fuel : Nat) (c r : Int), 0 ≤ c → c ≤ max_cap →
      reserve_loop max_cap need fuel c = some r →
      ∃ k : Nat, r = (grow_step max_cap)^[k] c ∧
        (∀ j < k, (grow_step max_cap)^[j] c < need) ∧ need ≤ r := by
  intro fuel
  induction fuel with
  | zero => intro c r _ _ h; simp [reserve_loop] at h
  | succ n ih =>
    intro c r h0 hc h
    unfold reserve_loop at h
    by_cases hlt : c < need
    · simp only [hlt, if_true] at h
      rw [grow_step_eq max_cap c hmax h0 hc] at h
      have hr := grow_step_range max_cap c h0 hc
      obtain ⟨k, hk1, hk2, hk3⟩ := ih _ r hr.1 hr.2.1 h
      refine ⟨k + 1, ?_, ?_, hk3⟩
      · rw [Function.iterate_succ_apply]; exact hk1
      · intro j hj
        cases j with
        | zero => exact hlt
        | succ i =>
          rw [Function.iterate_succ_apply]
          exact hk2 i (by omega)
    · simp only [hlt, if_false, Option.some.injEq] at h
      subst h
      exact ⟨0, rfl, fun j hj => absurd hj (by omega), by omega⟩

theorem max_cap_le_half (psz : Nat) (h : 2 ≤ psz) : INT_MAX / (psz : Int) ≤ 1073741823 := by
  unfold INT_MAX
  have h1 : (2147483647 : Int) / (psz : Int) = ((2147483647 / psz : Nat) : Int) := by
    norm_cast
  rw [h1]
  have h2 : 2147483647 / psz ≤ 2147483647 / 2 := Nat.div_le_div_left h (by decide)
  have h3 : (2147483647 : Nat) / 2 = 1073741823 := by decide
  omega

theorem fmt_d_wrap32 (x : Int) (h0 : 0 ≤ x) (hx : x < 2147483648) :
    fmt_d (wrap32 x) = decimal x.toNat := by
  rw [wrap32_id x (by omega) hx]
  have h : fmt_d x = fmt_d ((x.toNat : Nat) : Int) := by rw [Int.toNat_of_nonneg h0]
  rw [h, fmt_d_nat]

/-- In size-only mode each entry line is the size in KB, a blank and the name. -/
theorem foreach_listfile_size (env : Env) (name : CStr) (flags : Nat)
    (hnl : flags &&& LIST_LONG = 0) (hs : flags &&& LIST_SIZE ≠ 0) :
    ∀ names : List CStr,
      (∀ d ∈ names, name.length + 1 + d.length < 4096) →
      (∀ d ∈ names, (env.lstat (name ++ lit "/" ++ d)).isSome = true) →
      foreach_listfile env name flags names =
        ⟨(names.map
          (fun d => decimal (entry_kb env name d) ++ lit " " ++ d ++ lit "\n")).flatten,
          .ret ()⟩ := by
  intro names
  induction names with
  | nil => intro _ _; rfl
  | cons d rest ih =>
    intro hfit hstat
    have hnb : ¬ (flags &&& (LIST_LONG ||| LIST_SIZE) = 0) :=
      fun hb => hs (bare_no_size flags hb)
    obtain ⟨s, hst⟩ := Option.isSome_iff_exists.1 (hstat d (List.mem_cons_self _ _))
    have hpath : snprintf 4096 (name ++ lit "/" ++ d) = name ++ lit "/" ++ d := by
      apply snprintf_fit
      have := hfit d (List.mem_cons_self _ _)
      simp only [List.length_append, lit_slash_length]; omega
    unfold foreach_listfile
    rw [ih (fun d2 h2 => hfit d2 (List.mem_cons_of_mem _ h2))
      (fun d2 h2 => hstat d2 (List.mem_cons_of_mem _ h2))]
    simp only [listfile, hnb, if_false, hnl, ne_eq, not_true_eq_false, hpath, listfile_size, hst,
      fmt_d_nat, List.map_cons, List.flatten_cons, entry_kb]

/-- Within the limits of `show_total_size` (child paths shorter than 1024
bytes, sum below 2^31) and outside "/", the number of the total line is the
sum of the numbers that begin the entry lines of the directory. -/
theorem total_equals_entry_sum (env : Env) (name : CStr) (flags : Nat) (entries : List CStr)
    (hnl : flags &&& LIST_LONG = 0) (hs : flags &&& LIST_SIZE ≠ 0)
    (hroot : name ≠ lit "/")
    (hfit : ∀ d ∈ entries, passes_filter flags d = true → name.length + 1 + d.length < 1024)
    (hstat : ∀ d ∈ entries, passes_filter flags d = true →
      (env.lstat (name ++ lit "/" ++ d)).isSome = true)
    (hsum : ((shown_names flags entries).map (entry_kb env name)).sum < 2147483648) :
    total_line env name flags entries =
        lit "total " ++ decimal ((shown_names flags entries).map (entry_kb env name)).sum ++
          lit "\n" ∧
      entry_lines env name flags entries =
        ((shown_names flags entries).map
          (fun d => decimal (entry_kb env name d) ++ lit " " ++ d ++ lit "\n")).flatten := by
  have hjoin : ∀ d, join_path name d = name ++ lit "/" ++ d := by
    intro d; simp [join_path, hroot]
  have hkb : child_kb env name = entry_kb env name := by
    funext d; simp [child_kb, entry_kb, hjoin]
  have htot : total_kb env name flags entries =
      ((shown_names flags entries).map (entry_kb env name)).sum := by
    unfold total_kb
    rw [hkb]
    exact (((shown_names_perm flags entries).map _).sum_eq).symm
  refine ⟨?_, ?_⟩
  · unfold total_line
    simp only [hs, ne_eq, not_false_eq_true, if_true]
    rw [show_total_size_spec env name flags entries hfit
      (fun d hd hp => by rw [hjoin]; exact hstat d hd hp) (by rw [htot]; exact hsum), htot,
      fmt_d_nat]
  · unfold entry_lines
    rw [foreach_listfile_size env name flags hnl hs _ (by
      intro d hd
      rw [(shown_names_perm flags entries).mem_iff, List.mem_filter] at hd
      have := hfit d hd.1 hd.2
      omega) (by
      intro d hd
      rw [(shown_names_perm flags entries).mem_iff, List.mem_filter] at hd
      exact hstat d hd.1 hd.2)]

/-! ### the resources of a frame -/

/-- The loop with its final collection agrees with the loop of `listdir`. -/
theorem scan_subdirs_state_erase (env : Env) (name : CStr) (flags : Nat) :
    ∀ (es : List CStr) (subdirs : strlist_t),
      scan_subdirs env name flags es subdirs =
        match scan_subdirs_state env name flags es subdirs with
        | .ret (true, l) => .ret (some l)
        | .ret (false, _) => .ret none
        | .abort => .abort
        | .nofuel => .nofuel
        | .fault => .fault := by
  intro es
  induction es with
  | nil => intro subdirs; rfl
  | cons d rest ih =>
    intro subdirs
    unfold scan_subdirs scan_subdirs_state
    by_cases hsk : skipped flags d = true
    · simp only [hsk, if_true]; exact ih subdirs
    · simp only [hsk, if_false]
      cases herr : (if (child_path 4096 name d).getLast? = some 47
          then env.stat (child_path 4096 name d) else env.lstat (child_path 4096 name d)) with
      | none => rfl
      | some s =>
        simp only []
        by_cases hdir : S_ISDIR s.st_mode = true
        · simp only [hdir, if_true]
          cases happ : strlist_append_dup env.sizeof_voidp subdirs (child_path 4096 name d) with
          | ret l => exact ih l
          | abort => rfl
          | nofuel => rfl
          | fault => rfl
        · simp only [hdir, if_false]; exact ih subdirs

/-- A frame is described exactly when the directory opens and the call returns. -/
theorem listdir_frame_isSome (fuel : Nat) (env : Env) (name : CStr) (flags : Nat) :
    (listdir_frame fuel env name flags).isSome = true ↔
      (env.opendir name).isSome = true ∧
        (listdir (fuel + 1) env name flags).res.returned = true := by
  unfold listdir_frame
  rw [listdir]
  cases hopen : env.opendir name with
  | none => simp
  | some entries =>
    simp only [Option.isSome_some, true_and]
    cases hfiles : scan_files env flags entries STRLIST_INITIALIZER with
    | abort => simp [Outcome.returned]
    | nofuel => simp [Outcome.returned]
    | fault => simp [Outcome.returned]
    | ret files =>
      simp only []
      cases hlines : (foreach_listfile env name flags
          (List.take (strlist_sort files).count.toNat (strlist_sort files).items)).res with
      | abort => simp [Outcome.returned]
      | nofuel => simp [Outcome.returned]
      | fault => simp [Outcome.returned]
      | ret u0 =>
        simp only []
        by_cases hrec : flags &&& LIST_RECURSIVE ≠ 0
        · simp only [if_pos hrec]
          rw [scan_subdirs_state_erase]
          cases hsub : scan_subdirs_state env name flags entries STRLIST_INITIALIZER with
          | abort => simp [Outcome.returned]
          | nofuel => simp [Outcome.returned]
          | fault => simp [Outcome.returned]
          | ret v =>
            obtain ⟨ok, l⟩ := v
            cases ok with
            | false => simp [Outcome.returned]
            | true =>
              simp only []
              cases hloop : (foreach_subdir (fun path => listdir fuel env path flags)
                  (List.take (strlist_sort l).count.toNat (strlist_sort l).items)).res with
              | ret u => simp [Outcome.returned]
              | abort => simp [Outcome.returned]
              | nofuel => simp [Outcome.returned]
              | fault => simp [Outcome.returned]
        · simp [if_neg hrec, Outcome.returned]

/-- On every return after a successful `opendir` the handle was closed
once and `files` was released; when the call returns 0 (normal completion)
`subdirs` was released too, if it was created. -/
theorem listdir_frame_normal (fuel : Nat) (env : Env) (name : CStr) (flags : Nat)
    (fr : frame_t) (h : listdir_frame fuel env name flags = some fr) :
    fr.closedir_calls = 1 ∧ released fr.files ∧
      ((listdir (fuel + 1) env name flags).res = .ret 0 →
        ∀ l, fr.subdirs = some l → released l) := by
  unfold listdir_frame at h
  rw [listdir]
  cases hopen : env.opendir name with
  | none => rw [hopen] at h; cases h
  | some entries =>
    simp only [hopen] at h ⊢
    cases hfiles : scan_files env flags entries STRLIST_INITIALIZER with
    | abort => rw [hfiles] at h; cases h
    | nofuel => rw [hfiles] at h; cases h
    | fault => rw [hfiles] at h; cases h
    | ret files =>
      simp only [hfiles] at h ⊢
      cases hlines : (foreach_listfile env name flags
          (List.take (strlist_sort files).count.toNat (strlist_sort files).items)).res with
      | abort => rw [hlines] at h; cases h
      | nofuel => rw [hlines] at h; cases h
      | fault => rw [hlines] at h; cases h
      | ret u0 =>
        simp only [hlines] at h ⊢
        by_cases hrec : flags &&& LIST_RECURSIVE ≠ 0
        · simp only [if_pos hrec] at h ⊢
          rw [scan_subdirs_state_erase]
          cases hsub : scan_subdirs_state env name flags entries STRLIST_INITIALIZER with
          | abort => rw [hsub] at h; cases h
          | nofuel => rw [hsub] at h; cases h
          | fault => rw [hsub] at h; cases h
          | ret v =>
            obtain ⟨ok, l⟩ := v
            rw [hsub] at h
            cases ok with
            | false =>
              simp only [Option.some.injEq] at h
              subst h
              refine ⟨rfl, rfl, fun h0 => ?_⟩
              simp at h0
            | true =>
              simp only [] at h ⊢
              cases hloop : (foreach_subdir (fun path => listdir fuel env path flags)
                  (List.take (strlist_sort l).count.toNat (strlist_sort l).items)).res with
              | ret u =>
                rw [hloop] at h
                simp only [Option.some.injEq] at h
                subst h
                refine ⟨rfl, rfl, fun _ l2 hl2 => ?_⟩
                simp only [Option.some.injEq] at hl2
                subst hl2
                rfl
              | abort => rw [hloop] at h; cases h
              | nofuel => rw [hloop] at h; cases h
              | fault => rw [hloop] at h; cases h
        · simp only [if_neg hrec, Option.some.injEq] at h
          subst h
          exact ⟨rfl, rfl, fun _ l2 hl2 => by cases hl2⟩

/-! ### the loops without a bound on the number of entries -/

/-- From a well-formed array `dynarray_append` aborts or stores the item. -/
theorem dynarray_append_cases {α : Type} (psz : Nat) (a : dynarray_t α) (x : α)
    (hwf : dynarray_wf psz a) :
    dynarray_append psz a x = .abort ∨
      ∃ a2, dynarray_append psz a x = .ret a2 ∧ dynarray_wf psz a2 ∧
        a2.items = a.items ++ [x] := by
  by_cases hroom : (a.items.length : Int) < INT_MAX / (psz : Int)
  · exact Or.inr (dynarray_append_spec psz a x hwf hroom)
  · left
    obtain ⟨hc, hcap, hmc⟩ := hwf
    unfold dynarray_append dynarray_reserve_more
    have hfull : a.count ≥ a.capacity := by omega
    have h1 : ¬ ((1 : Int) ≤ 0) := by omega
    have h2 : (1 : Int) > INT_MAX / (psz : Int) - a.count := by omega
    simp only [hfull, if_true, h1, if_false, h2]

theorem strlist_append_dup_cases (psz : Nat) (list : strlist_t) (str : CStr)
    (hwf : dynarray_wf psz list) :
    strlist_append_dup psz list str = .abort ∨
      ∃ l2, strlist_append_dup psz list str = .ret l2 ∧ dynarray_wf psz l2 ∧
        l2.items = list.items ++ [str] := by
  unfold strlist_append_dup strlist_append_b
  rw [List.take_length]
  exact dynarray_append_cases psz list str hwf

/-- The first `readdir` loop aborts or collects the filtered entries. -/
theorem scan_files_cases (env : Env) (flags : Nat) :
    ∀ (es : List CStr) (files : strlist_t), dynarray_wf env.sizeof_voidp files →
      scan_files env flags es files = .abort ∨
        ∃ f2, scan_files env flags es files = .ret f2 ∧ dynarray_wf env.sizeof_voidp f2 ∧
          f2.items = files.items ++ es.filter (fun d => passes_filter flags d) := by
  intro es
  induction es with
  | nil => intro files hwf; exact Or.inr ⟨files, rfl, hwf, by simp⟩
  | cons d rest ih =>
    intro files hwf
    unfold scan_files
    rw [skipped_eq]
    by_cases hp : passes_filter flags d = true
    · simp only [hp, Bool.not_true, Bool.false_eq_true, if_false]
      rcases strlist_append_dup_cases env.sizeof_voidp files d hwf with h | ⟨l2, h1, h2, h3⟩
      · left; rw [h]
      · rw [h1]
        rcases ih l2 h2 with g | ⟨f2, g1, g2, g3⟩
        · exact Or.inl g
        · exact Or.inr ⟨f2, g1, g2, by rw [g3, h3]; simp [hp]⟩
    · simp only [Bool.not_eq_true] at hp
      simp only [hp, Bool.not_false, if_true]
      rcases ih files hwf with g | ⟨f2, g1, g2, g3⟩
      · exact Or.inl g
      · exact Or.inr ⟨f2, g1, g2, by rw [g3]; simp [hp]⟩

/-- The second `readdir` loop aborts, returns early, or collects the paths
of the filtered children that are directories. -/
theorem scan_subdirs_cases (env : Env) (name : CStr) (flags : Nat) :
    ∀ (es : List CStr) (subdirs : strlist_t), dynarray_wf env.sizeof_voidp subdirs →
      scan_subdirs env name flags es subdirs = .abort ∨
        scan_subdirs env name flags es subdirs = .ret none ∨
        ∃ f2, scan_subdirs env name flags es subdirs = .ret (some f2) ∧
          dynarray_wf env.sizeof_voidp f2 ∧
          f2.items = subdirs.items ++
            ((es.filter (fun d => passes_filter flags d)).map (child_path 4096 name)).filter
              (fun p => scan_isdir env p) := by
  intro es
  induction es with
  | nil => intro subdirs hwf; exact Or.inr (Or.inr ⟨subdirs, rfl, hwf, by simp⟩)
  | cons d rest ih =>
    intro subdirs hwf
    unfold scan_subdirs
    rw [skipped_eq]
    by_cases hp : passes_filter flags d = true
    · simp only [hp, Bool.not_true, Bool.false_eq_true, if_false]
      cases hs : scan_stat env (child_path 4096 name d) with
      | none =>
        have hs3 : (if (child_path 4096 name d).getLast? = some 47
            then env.stat (child_path 4096 name d) else env.lstat (child_path 4096 name d)) =
            none := hs
        simp [hs3]
      | some s =>
        have hs3 : (if (child_path 4096 name d).getLast? = some 47
            then env.stat (child_path 4096 name d) else env.lstat (child_path 4096 name d)) =
            some s := hs
        simp only [hs3]
        by_cases hdir : S_ISDIR s.st_mode = true
        · simp only [hdir, if_true]
          rcases strlist_append_dup_cases env.sizeof_voidp subdirs (child_path 4096 name d) hwf
            with h | ⟨l2, h1, h2, h3⟩
          · left; rw [h]
          · rw [h1]
            rcases ih l2 h2 with g | g | ⟨f2, g1, g2, g3⟩
            · exact Or.inl g
            · exact Or.inr (Or.inl g)
            · refine Or.inr (Or.inr ⟨f2, g1, g2, ?_⟩)
              rw [g3, h3]
              simp [hp, scan_isdir, hs, hdir]
        · simp only [hdir, if_false]
          rcases ih subdirs hwf with g | g | ⟨f2, g1, g2, g3⟩
          · exact Or.inl g
          · exact Or.inr (Or.inl g)
          · refine Or.inr (Or.inr ⟨f2, g1, g2, ?_⟩)
            rw [g3]
            simp [hp, scan_isdir, hs, hdir]
    · simp only [Bool.not_eq_true] at hp
      simp only [hp, Bool.not_false, if_true]
      rcases ih subdirs hwf with g | g | ⟨f2, g1, g2, g3⟩
      · exact Or.inl g
      · exact Or.inr (Or.inl g)
      · exact Or.inr (Or.inr ⟨f2, g1, g2, by rw [g3]; simp [hp]⟩)

/-- The subdirectory loop runs out of budget only when one of the calls does. -/
theorem foreach_subdir_nofuel (list : CStr → Run Int) :
    ∀ paths : List CStr, (foreach_subdir list paths).res = .nofuel →
      ∃ c ∈ paths, (list c).res = .nofuel := by
  intro paths
  induction paths with
  | nil => intro h; cases h
  | cons p rest ih =>
    intro h
    unfold foreach_subdir at h
    cases hp : (list p).res with
    | ret v =>
      simp only [hp] at h
      obtain ⟨c, hc, hn⟩ := ih h
      exact ⟨c, List.mem_cons_of_mem _ hc, hn⟩
    | abort => simp only [hp] at h; cases h
    | fault => simp only [hp] at h; cases h
    | nofuel => exact ⟨p, List.mem_cons_self _ _, hp⟩

/-- A call of `listdir` with a positive budget runs out of it only inside
the loop over the subdirectories. -/
theorem listdir_nofuel (env : Env) (fuel : Nat) (name : CStr) (flags : Nat)
    (h : (listdir (fuel + 1) env name flags).res = .nofuel) :
    ∃ entries, env.opendir name = some entries ∧
      (foreach_subdir (fun path => listdir fuel env path flags)
        (subdir_paths env name flags entries)).res = .nofuel := by
  rw [listdir] at h
  cases hopen : env.opendir name with
  | none => simp only [hopen] at h; cases h
  | some entries =>
    refine ⟨entries, rfl, ?_⟩
    simp only [hopen] at h
    have hwf0 := strlist_initializer_wf env.sizeof_voidp (max_cap_nonneg _)
    rcases scan_files_cases env flags entries STRLIST_INITIALIZER hwf0 with hf | ⟨f, hf, -, -⟩
    · simp only [hf] at h; cases h
    · simp only [hf] at h
      rcases foreach_listfile_ends env name flags
        (List.take (strlist_sort f).count.toNat (strlist_sort f).items) with hl | hl
      · simp only [hl] at h; cases h
      · simp only [hl] at h
        by_cases hrec : flags &&& LIST_RECURSIVE ≠ 0
        · simp only [if_pos hrec] at h
          rcases scan_subdirs_cases env name flags entries STRLIST_INITIALIZER hwf0
            with hg | hg | ⟨g, hg, hgwf, hgitems⟩
          · simp only [hg] at h; cases h
          · simp only [hg] at h; cases h
          · simp only [hg] at h
            have hg2 := strlist_sort_items _ g hgwf
            rw [hgitems] at hg2
            simp only [STRLIST_INITIALIZER, DYNARRAY_INITIALIZER, List.nil_append] at hg2
            rw [hg2] at h
            unfold subdir_paths
            cases hr : (foreach_subdir (fun path => listdir fuel env path flags)
                (qsort strlist_compare_strings
                  (List.filter (fun p => scan_isdir env p)
                    (List.map (child_path 4096 name)
                      (List.filter (fun d => passes_filter flags d) entries))))).res with
            | nofuel => rfl
            | ret v => rw [hr] at h; cases h
            | abort => rw [hr] at h; cases h
            | fault => rw [hr] at h; cases h
        · simp only [if_neg hrec] at h; cases h

/-! ### paths of children -/

theorem join_path_lead (p d : CStr) : join_path p d = dir_lead p ++ d := by
  unfold join_path dir_lead
  by_cases h : p = lit "/" <;> simp [h]

theorem dir_lead_length (p : CStr) :
    p.length ≤ (dir_lead p).length ∧ 1 ≤ (dir_lead p).length := by
  unfold dir_lead
  by_cases h : p = lit "/"
  · simp only [h, if_true]; exact ⟨le_refl _, by decide⟩
  · simp only [h, if_false, List.length_append, lit_slash_length]; omega

theorem good_name_length (d : CStr) (h : good_name d) : 1 ≤ d.length := by
  have := List.length_pos.2 h.1
  omega

theorem join_path_ne_root (p d : CStr) (h : good_name d) : join_path p d ≠ lit "/" := by
  intro e
  have hl := congrArg List.length e
  rw [join_path_lead, List.length_append, lit_slash_length] at hl
  have := dir_lead_length p
  have := good_name_length d h
  omega

theorem join_path_last (p d : CStr) (h : good_name d) : (join_path p d).getLast? ≠ some 47 := by
  rw [join_path_lead, List.getLast?_append]
  obtain ⟨hne, hns⟩ := h
  cases hd : d.getLast? with
  | none => rw [List.getLast?_eq_none_iff] at hd; exact absurd hd hne
  | some x =>
    simp only [Option.or_some]
    intro e
    have hx : x = 47 := by simpa using e
    subst hx
    exact hns (List.mem_of_getLast?_eq_some hd)

theorem comp_of_self (p d : CStr) : comp_of p d (join_path p d) :=
  ⟨[], Or.inl rfl, by rw [join_path_lead]; simp⟩

theorem comp_of_ne (p d q : CStr) (h : good_name d) (hc : comp_of p d q) : q ≠ p := by
  obtain ⟨rest, -, rfl⟩ := hc
  intro e
  have hl := congrArg List.length e
  simp only [List.length_append] at hl
  have := dir_lead_length p
  have := good_name_length d h
  omega

theorem takeWhile_name (d rest : CStr) (h : good_name d)
    (hr : rest = [] ∨ rest.head? = some 47) :
    (d ++ rest).takeWhile (fun c => c != 47) = d := by
  rw [List.takeWhile_append_of_pos (by
    intro a ha
    have : a ≠ 47 := fun e => h.2 (e ▸ ha)
    simpa using this)]
  rcases hr with hr | hr
  · subst hr; simp
  · cases rest with
    | nil => simp
    | cons x xs =>
      have hx : x = 47 := by simpa using hr
      subst hx
      simp

theorem comp_of_unique (p d1 d2 q : CStr) (h1 : good_name d1) (h2 : good_name d2)
    (c1 : comp_of p d1 q) (c2 : comp_of p d2 q) : d1 = d2 := by
  obtain ⟨r1, hr1, e1⟩ := c1
  obtain ⟨r2, hr2, e2⟩ := c2
  rw [e1, List.append_assoc, List.append_assoc] at e2
  have e := List.append_cancel_left e2
  rw [← takeWhile_name d1 r1 h1 hr1, ← takeWhile_name d2 r2 h2 hr2, e]

theorem comp_of_child (p d d2 q : CStr) (h : good_name d)
    (hc : comp_of (join_path p d) d2 q) : comp_of p d q := by
  obtain ⟨rest, -, e⟩ := hc
  have hpre : dir_lead (join_path p d) = join_path p d ++ lit "/" := by
    unfold dir_lead
    simp only [join_path_ne_root p d h, if_false]
  refine ⟨lit "/" ++ d2 ++ rest, Or.inr rfl, ?_⟩
  rw [e, hpre, join_path_lead]
  simp only [List.append_assoc]

/-! ### the walk of a recursive listing -/

theorem scan_stat_lstat (env : Env) (p d : CStr) (hgood : good_name d)
    (hfit : p.length + 1 + d.length < 4096) :
    child_path 4096 p d = join_path p d ∧
      scan_stat env (child_path 4096 p d) = env.lstat (join_path p d) := by
  have h1 := child_path_eq_join p d hfit
  refine ⟨h1, ?_⟩
  rw [h1]
  unfold scan_stat
  simp only [join_path_last p d hgood, if_false]

theorem scan_isdir_iff (env : Env) (p d : CStr) (hgood : good_name d) :
    scan_isdir env (join_path p d) = true ↔ real_subdir env p d := by
  unfold scan_isdir scan_stat real_subdir
  simp only [join_path_last p d hgood, if_false]
  cases env.lstat (join_path p d) with
  | none => simp
  | some s => simp

theorem subdir_names_mem (env : Env) (name : CStr) (flags : Nat) (entries : List CStr)
    (d : CStr) :
    d ∈ subdir_names env name flags entries ↔
      d ∈ entries ∧ scan_isdir env (join_path name d) = true ∧
        passes_filter flags d = true := by
  unfold subdir_names
  rw [(qsort_perm _).mem_iff, List.mem_filter, Bool.and_eq_true]

theorem subdir_names_nodup (env : Env) (name : CStr) (flags : Nat) (entries : List CStr)
    (h : entries.Nodup) : (subdir_names env name flags entries).Nodup := by
  unfold subdir_names
  rw [(qsort_perm _).nodup_iff]
  exact h.filter _

theorem reach_trans (env : Env) (flags : Nat) (a b c : CStr)
    (h1 : Reach env flags a b) (h2 : Reach env flags b c) : Reach env flags a c := by
  induction h1 with
  | self => exact h2
  | down p entries d q ho hd hp hr _ ih => exact Reach.down p entries d c ho hd hp hr (ih h2)

theorem reach_child (env : Env) (flags : Nat) (root p : CStr) (entries : List CStr) (d : CStr)
    (h : Reach env flags root p) (ho : env.opendir p = some entries) (hd : d ∈ entries)
    (hp : passes_filter flags d = true) (hr : real_subdir env p d) :
    Reach env flags root (join_path p d) :=
  reach_trans env flags root p _ h (Reach.down p entries d _ ho hd hp hr (Reach.self _))

/-- The children a listing of a reached directory recurses into are real
subdirectories, reached as well and less deep. -/
theorem subdir_kid (env : Env) (flags : Nat) (root : CStr) (depth : CStr → Nat)
    (ht : finite_tree env flags root depth) (p : CStr) (entries : List CStr)
    (hp : Reach env flags root p) (hopen : env.opendir p = some entries) :
    ∀ d ∈ subdir_names env p flags entries,
      d ∈ entries ∧ passes_filter flags d = true ∧ good_name d ∧ real_subdir env p d ∧
        Reach env flags root (join_path p d) ∧ depth (join_path p d) < depth p := by
  intro d hd
  rw [subdir_names_mem] at hd
  obtain ⟨h1, h2, h3⟩ := hd
  have hg := ht.names p entries hp hopen d h1 h3
  have hr := (scan_isdir_iff env p d hg).1 h2
  exact ⟨h1, h3, hg, hr, reach_child env flags root p entries d hp hopen h1 h3 hr,
    ht.deeper p entries hp hopen d h1 h3 hr⟩

/-- In a finite tree a listing with a step budget above the depth of the
directory does not run out of budget. -/
theorem listdir_ends (env : Env) (flags : Nat) (root : CStr) (depth : CStr → Nat)
    (ht : finite_tree env flags root depth) :
    ∀ (n : Nat) (p : CStr), Reach env flags root p → depth p < n →
      (listdir n env p flags).res ≠ .nofuel := by
  intro n
  induction n with
  | zero => intro p _ h; omega
  | succ m ih =>
    intro p hp hdep hno
    obtain ⟨entries, hopen, hloop⟩ := listdir_nofuel env m p flags hno
    obtain ⟨c, hc, hcn⟩ := foreach_subdir_nofuel _ _ hloop
    rw [subdir_paths_eq env p flags entries (ht.fits p entries hp hopen), List.mem_map] at hc
    obtain ⟨d, hd, rfl⟩ := hc
    obtain ⟨-, -, -, -, hreach, hless⟩ := subdir_kid env flags root depth ht p entries hp hopen d hd
    exact ih _ hreach (by omega) hcn

theorem tree_dirs_open (fuel : Nat) (env : Env) (flags : Nat) (p : CStr) (entries : List CStr)
    (hopen : env.opendir p = some entries) :
    tree_dirs (fuel + 1) env flags p =
      p :: ((subdir_names env p flags entries).map
        (fun d => tree_dirs fuel env flags (join_path p d))).flatten := by
  rw [tree_dirs]
  simp only [hopen]

theorem sections_flatten (listing : CStr → List Nat) (L : List (List CStr)) :
    (L.flatten.map (section_text listing)).flatten =
      (L.map (fun l => (l.map (section_text listing)).flatten)).flatten := by
  induction L with
  | nil => rfl
  | cons l rest ih =>
    rw [List.flatten_cons, List.map_append, List.flatten_append, ih, List.map_cons,
      List.flatten_cons]

/-- In a finite tree in which nothing stops a listing, a recursive listing
with a step budget above the depth returns, and its output is the lines of
the directory followed by one section for each directory of `tree_dirs`
after the first; `tree_dirs` has no repetition and holds exactly the
directories reached through real subdirectories, all inside the subtree. -/
theorem visit_spec (env : Env) (flags : Nat) (root : CStr) (depth : CStr → Nat)
    (hrec : flags &&& LIST_RECURSIVE ≠ 0) (ht : finite_tree env flags root depth)
    (hl : listable_tree env flags root) :
    ∀ (n : Nat) (p : CStr), Reach env flags root p → depth p < n →
      tree_dirs n env flags p = p :: (tree_dirs n env flags p).tail ∧
      (∃ v, listdir n env p flags =
        ⟨dir_listing env flags p ++
          ((tree_dirs n env flags p).tail.map (section_text (dir_listing env flags))).flatten,
          .ret v⟩) ∧
      (tree_dirs n env flags p).Nodup ∧
      (∀ q, q ∈ tree_dirs n env flags p ↔ Reach env flags p q) ∧
      (∀ q ∈ tree_dirs n env flags p, q = p ∨ ∃ d, good_name d ∧ comp_of p d q) := by
  intro n
  induction n with
  | zero => intro p _ h; omega
  | succ m ih =>
    intro p hp hdep
    cases hopen : env.opendir p with
    | none =>
      have h1 : listdir (m + 1) env p flags = ⟨[], .ret (-1)⟩ := by
        rw [listdir]; simp only [hopen]
      have h2 : tree_dirs (m + 1) env flags p = [p] := by
        rw [tree_dirs]; simp only [hopen]
      have h3 : dir_listing env flags p = [] := by
        unfold dir_listing; simp only [hopen]
      refine ⟨by rw [h2]; rfl, ⟨-1, by rw [h1, h2, h3]; rfl⟩, by rw [h2]; simp, ?_, ?_⟩
      · intro q
        rw [h2]
        constructor
        · intro hq
          simp only [List.mem_singleton] at hq
          subst hq
          exact Reach.self _
        · intro hr
          cases hr with
          | self => simp
          | down _ entries d _ ho _ _ _ _ => rw [hopen] at ho; cases ho
      · intro q hq
        rw [h2] at hq
        simp only [List.mem_singleton] at hq
        exact Or.inl hq
    | some entries =>
      have hcap := hl.count p entries hp hopen
      have hgood := ht.names p entries hp hopen
      have hfit := ht.fits p entries hp hopen
      have hlines := entry_loop_ret env p flags entries (hl.printed p entries hp hopen)
      have hstat : ∀ d ∈ entries, passes_filter flags d = true →
          (scan_stat env (child_path 4096 p d)).isSome = true := by
        intro d hd hpass
        rw [(scan_stat_lstat env p d (hgood d hd hpass) (hfit d hd hpass)).2]
        exact hl.examined p entries hp hopen d hd hpass
      have hpaths : subdir_paths env p flags entries =
          (subdir_names env p flags entries).map (join_path p) :=
        subdir_paths_eq env p flags entries hfit
      have hkid := subdir_kid env flags root depth ht p entries hp hopen
      have ihd : ∀ d ∈ subdir_names env p flags entries, _ :=
        fun d hd => ih (join_path p d) (hkid d hd).2.2.2.2.1 (by have := (hkid d hd).2.2.2.2.2; omega)
      have hret : ∀ c ∈ subdir_paths env p flags entries,
          ∃ v, (listdir m env c flags).res = .ret v := by
        intro c hc
        rw [hpaths, List.mem_map] at hc
        obtain ⟨d, hd, rfl⟩ := hc
        obtain ⟨v, hv⟩ := (ihd d hd).2.1
        exact ⟨v, by rw [hv]⟩
      have hT := tree_dirs_open m env flags p entries hopen
      have hsec : (subdir_paths env p flags entries).map
            (section_text (fun c => (listdir m env c flags).out)) =
          (subdir_names env p flags entries).map
            (fun d => ((tree_dirs m env flags (join_path p d)).map
              (section_text (dir_listing env flags))).flatten) := by
        rw [hpaths, List.map_map]
        apply List.map_congr_left
        intro d hd
        obtain ⟨e1, ⟨v, hv⟩, -⟩ := ihd d hd
        rw [Function.comp_apply]
        conv_rhs => rw [e1]
        rw [List.map_cons, List.flatten_cons]
        simp only [section_text, hv, List.append_assoc]
      have hlist : listdir (m + 1) env p flags =
          ⟨dir_listing env flags p ++
            ((tree_dirs (m + 1) env flags p).tail.map
              (section_text (dir_listing env flags))).flatten, .ret 0⟩ := by
        rw [listdir_rec_ok env m p flags entries hopen hcap hrec hlines hstat,
          foreach_subdir_ret _ _ hret, hsec, hT, List.tail_cons, sections_flatten, List.map_map]
        have h3 : dir_listing env flags p =
            total_line env p flags entries ++ entry_lines env p flags entries := by
          unfold dir_listing; simp only [hopen]
        rw [h3]
        rfl
      have hmem : ∀ q, q ∈ ((subdir_names env p flags entries).map
            (fun d => tree_dirs m env flags (join_path p d))).flatten ↔
          ∃ d ∈ subdir_names env p flags entries,
            q ∈ tree_dirs m env flags (join_path p d) := by
        intro q
        simp only [List.mem_flatten, List.mem_map]
        constructor
        · rintro ⟨l, ⟨d, hd, rfl⟩, hq⟩
          exact ⟨d, hd, hq⟩
        · rintro ⟨d, hd, hq⟩
          exact ⟨_, ⟨d, hd, rfl⟩, hq⟩
      have hcomp : ∀ d ∈ subdir_names env p flags entries,
          ∀ q ∈ tree_dirs m env flags (join_path p d), comp_of p d q := by
        intro d hd q hq
        have hg := (hkid d hd).2.2.1
        rcases (ihd d hd).2.2.2.2 q hq with h | ⟨d2, hg2, hc2⟩
        · subst h; exact comp_of_self p d
        · exact comp_of_child p d d2 q hg hc2
      refine ⟨by rw [hT]; rfl, ⟨0, hlist⟩, ?_, ?_, ?_⟩
      · rw [hT, List.nodup_cons]
        refine ⟨?_, ?_⟩
        · intro hin
          obtain ⟨d, hd, hq⟩ := (hmem p).1 hin
          exact comp_of_ne p d p (hkid d hd).2.2.1 (hcomp d hd p hq) rfl
        · rw [List.nodup_flatten]
          refine ⟨?_, ?_⟩
          · intro l hlmem
            rw [List.mem_map] at hlmem
            obtain ⟨d, hd, rfl⟩ := hlmem
            exact (ihd d hd).2.2.1
          · rw [List.pairwise_map]
            apply (subdir_names_nodup env p flags entries
              (hl.distinct p entries hp hopen)).pairwise_of_forall_ne
            intro d1 hd1 d2 hd2 hne
            rw [List.disjoint_left]
            intro q hq1 hq2
            exact hne (comp_of_unique p d1 d2 q (hkid d1 hd1).2.2.1 (hkid d2 hd2).2.2.1
              (hcomp d1 hd1 q hq1) (hcomp d2 hd2 q hq2))
      · intro q
        rw [hT, List.mem_cons, hmem]
        constructor
        · rintro (h | ⟨d, hd, hq⟩)
          · subst h; exact Reach.self _
          · obtain ⟨h1, h3, hg, hr, -, -⟩ := hkid d hd
            exact Reach.down p entries d q hopen h1 h3 hr (((ihd d hd).2.2.2.1 q).1 hq)
        · intro hr
          cases hr with
          | self => exact Or.inl rfl
          | down _ entries2 d _ ho hd hpass hreal hrest =>
            rw [hopen] at ho
            cases ho
            have hg := hgood d hd hpass
            have hdk : d ∈ subdir_names env p flags entries :=
              (subdir_names_mem env p flags entries d).2
                ⟨hd, (scan_isdir_iff env p d hg).2 hreal, hpass⟩
            exact Or.inr ⟨d, hdk, ((ihd d hdk).2.2.2.1 q).2 hrest⟩
      · intro q hq
        rw [hT, List.mem_cons, hmem] at hq
        rcases hq with h | ⟨d, hd, hq⟩
        · exact Or.inl h
        · exact Or.inr ⟨d, (hkid d hd).2.2.1, hcomp d hd q hq⟩

/-! ### the sample trees -/

theorem env_tree_opendir (p : CStr) (entries : List CStr)
    (h : env_tree.opendir p = some entries) :
    (p = lit "d" ∧ entries = [lit ".", lit "..", lit "sub", lit "loop", lit "f"]) ∨
      (p = lit "d/sub" ∧ entries = [lit ".", lit "..", lit "g"]) := by
  have h2 : (if p = lit "d" then some [lit ".", lit "..", lit "sub", lit "loop", lit "f"]
      else if p = lit "d/sub" then some [lit ".", lit "..", lit "g"]
      else none) = some entries := h
  split_ifs at h2 with h1 h3
  · exact Or.inl ⟨h1, (Option.some.inj h2).symm⟩
  · exact Or.inr ⟨h3, (Option.some.inj h2).symm⟩

theorem env_tree_finite :
    finite_tree env_tree (LIST_RECURSIVE ||| LIST_LONG) (lit "d") depth_tree := by
  refine ⟨?_, ?_, ?_⟩
  · intro p entries _ h d hd hp
    rcases env_tree_opendir p entries h with ⟨rfl, rfl⟩ | ⟨rfl, rfl⟩
    · simp only [List.mem_cons, List.mem_nil_iff, or_false] at hd
      rcases hd with rfl | rfl | rfl | rfl | rfl
      · exact absurd hp (by decide)
      · exact absurd hp (by decide)
      · exact ⟨by decide, by decide⟩
      · exact ⟨by decide, by decide⟩
      · exact ⟨by decide, by decide⟩
    · simp only [List.mem_cons, List.mem_nil_iff, or_false] at hd
      rcases hd with rfl | rfl | rfl
      · exact absurd hp (by decide)
      · exact absurd hp (by decide)
      · exact ⟨by decide, by decide⟩
  · intro p entries _ h d hd _
    rcases env_tree_opendir p entries h with ⟨rfl, rfl⟩ | ⟨rfl, rfl⟩
    · simp only [List.mem_cons, List.mem_nil_iff, or_false] at hd
      rcases hd with rfl | rfl | rfl | rfl | rfl <;> decide
    · simp only [List.mem_cons, List.mem_nil_iff, or_false] at hd
      rcases hd with rfl | rfl | rfl <;> decide
  · intro p entries _ h d hd hp hreal
    rcases env_tree_opendir p entries h with ⟨rfl, rfl⟩ | ⟨rfl, rfl⟩
    · simp only [List.mem_cons, List.mem_nil_iff, or_false] at hd
      rcases hd with rfl | rfl | rfl | rfl | rfl
      · exact absurd hp (by decide)
      · exact absurd hp (by decide)
      · decide
      · decide
      · decide
    · simp only [List.mem_cons, List.mem_nil_iff, or_false] at hd
      rcases hd with rfl | rfl | rfl
      · exact absurd hp (by decide)
      · exact absurd hp (by decide)
      · obtain ⟨s, hs, hdir⟩ := hreal
        have hl : env_tree.lstat (join_path (lit "d/sub") (lit "g")) =
            some (mkstat 0o100644 8) := by decide!
        rw [hl] at hs
        cases hs
        exact absurd hdir (by decide)

theorem env_tree_listable :
    listable_tree env_tree (LIST_RECURSIVE ||| LIST_LONG) (lit "d") := by
  refine ⟨?_, ?_, ?_, ?_⟩
  · intro p entries _ h
    rcases env_tree_opendir p entries h with ⟨rfl, rfl⟩ | ⟨rfl, rfl⟩ <;> decide
  · intro p entries _ h
    rcases env_tree_opendir p entries h with ⟨rfl, rfl⟩ | ⟨rfl, rfl⟩ <;> decide
  · intro p entries _ h d hd hp
    rcases env_tree_opendir p entries h with ⟨rfl, rfl⟩ | ⟨rfl, rfl⟩
    · simp only [List.mem_cons, List.mem_nil_iff, or_false] at hd
      rcases hd with rfl | rfl | rfl | rfl | rfl
      · exact absurd hp (by decide)
      · exact absurd hp (by decide)
      · decide!
      · decide!
      · decide!
    · simp only [List.mem_cons, List.mem_nil_iff, or_false] at hd
      rcases hd with rfl | rfl | rfl
      · exact absurd hp (by decide)
      · exact absurd hp (by decide)
      · decide!
  · intro p entries _ h d hd hp
    rcases env_tree_opendir p entries h with ⟨rfl, rfl⟩ | ⟨rfl, rfl⟩
    · simp only [List.mem_cons, List.mem_nil_iff, or_false] at hd
      rcases hd with rfl | rfl | rfl | rfl | rfl
      · exact absurd hp (by decide)
      · exact absurd hp (by decide)
      · decide!
      · decide!
      · decide!
    · simp only [List.mem_cons, List.mem_nil_iff, or_false] at hd
      rcases hd with rfl | rfl | rfl
      · exact absurd hp (by decide)
      · exact absurd hp (by decide)
      · decide!

theorem env10_opendir (p : CStr) (entries : List CStr)
    (h : env10.opendir p = some entries) :
    (p = lit "d" ∧ entries = [lit ".", lit "..", lit "b", lit "a"]) ∨
      (p = lit "d/b" ∧ entries = [lit ".", lit "..", lit "x"]) ∨
      (p = lit "e" ∧ entries = [lit ".", lit "..", lit "a", lit "b"]) ∨
      (p = lit "e/a" ∧ entries = [lit ".", lit ".."]) := by
  have h2 : (if p = lit "d" then some [lit ".", lit "..", lit "b", lit "a"]
      else if p = lit "d/b" then some [lit ".", lit "..", lit "x"]
      else if p = lit "e" then some [lit ".", lit "..", lit "a", lit "b"]
      else if p = lit "e/a" then some [lit ".", lit ".."]
      else none) = some entries := h
  split_ifs at h2 with h1 h3 h4 h5
  · exact Or.inl ⟨h1, (Option.some.inj h2).symm⟩
  · exact Or.inr (Or.inl ⟨h3, (Option.some.inj h2).symm⟩)
  · exact Or.inr (Or.inr (Or.inl ⟨h4, (Option.some.inj h2).symm⟩))
  · exact Or.inr (Or.inr (Or.inr ⟨h5, (Option.some.inj h2).symm⟩))

theorem env10_finite : finite_tree env10 LIST_RECURSIVE (lit "e") depth10 := by
  refine ⟨?_, ?_, ?_⟩
  · intro p entries _ h d hd hp
    rcases env10_opendir p entries h with ⟨rfl, rfl⟩ | ⟨rfl, rfl⟩ | ⟨rfl, rfl⟩ | ⟨rfl, rfl⟩ <;>
      simp only [List.mem_cons, List.mem_nil_iff, or_false] at hd <;>
      rcases hd with rfl | rfl | hd <;>
      first
        | exact absurd hp (by decide)
        | (rcases hd with rfl | rfl <;> exact ⟨by decide, by decide⟩)
  · intro p entries _ h d hd _
    rcases env10_opendir p entries h with ⟨rfl, rfl⟩ | ⟨rfl, rfl⟩ | ⟨rfl, rfl⟩ | ⟨rfl, rfl⟩ <;>
      simp only [List.mem_cons, List.mem_nil_iff, or_false] at hd <;>
      rcases hd with rfl | rfl | hd <;>
      first
        | decide
        | (rcases hd with rfl | rfl <;> decide)
  · intro p entries _ h d hd hp hreal
    rcases env10_opendir p entries h with ⟨rfl, rfl⟩ | ⟨rfl, rfl⟩ | ⟨rfl, rfl⟩ | ⟨rfl, rfl⟩
    · simp only [List.mem_cons, List.mem_nil_iff, or_false] at hd
      rcases hd with rfl | rfl | rfl | rfl
      · exact absurd hp (by decide)
      · exact absurd hp (by decide)
      · decide
      · decide
    · simp only [List.mem_cons, List.mem_nil_iff, or_false] at hd
      rcases hd with rfl | rfl | rfl
      · exact absurd hp (by decide)
      · exact absurd hp (by decide)
      · obtain ⟨s, hs, hdir⟩ := hreal
        have hl : env10.lstat (join_path (lit "d/b") (lit "x")) =
            some (mkstat 0o100644 8) := by decide!
        rw [hl] at hs
        cases hs
        exact absurd hdir (by decide)
    · simp only [List.mem_cons, List.mem_nil_iff, or_false] at hd
      rcases hd with rfl | rfl | rfl | rfl
      · exact absurd hp (by decide)
      · exact absurd hp (by decide)
      · decide
      · decide
    · simp only [List.mem_cons, List.mem_nil_iff, or_false] at hd
      rcases hd with rfl | rfl
      · exact absurd hp (by decide)
      · exact absurd hp (by decide)

/-! ### mode bits -/

theorem and_bit_div (m k : Nat) : m &&& 2 ^ k = 2 ^ k * (m / 2 ^ k % 2) := by
  rw [and_two_pow_eq, Nat.testBit_to_div_mod]
  rcases Nat.mod_two_eq_zero_or_one (m / 2 ^ k) with h | h
  · simp [h]
  · simp [h]

theorem and_bit_cases (m k : Nat) : m &&& 2 ^ k = 0 ∨ m &&& 2 ^ k = 2 ^ k := by
  rw [and_two_pow_eq]
  by_cases h : m.testBit k = true
  · simp [h]
  · simp [h]

theorem low12_split (m : Nat) :
    m &&& 0o7777 =
      (m &&& 0o400) + (m &&& 0o200) + (m &&& 0o100) + (m &&& 0o4000) +
      (m &&& 0o40) + (m &&& 0o20) + (m &&& 0o10) + (m &&& 0o2000) +
      (m &&& 0o4) + (m &&& 0o2) + (m &&& 0o1) + (m &&& 0o1000) := by
  have h : m &&& 0o7777 = m % 4096 := Nat.and_pow_two_sub_one_eq_mod m 12
  have h0 := and_bit_div m 0
  have h1 := and_bit_div m 1
  have h2 := and_bit_div m 2
  have h3 := and_bit_div m 3
  have h4 := and_bit_div m 4
  have h5 := and_bit_div m 5
  have h6 := and_bit_div m 6
  have h7 := and_bit_div m 7
  have h8 := and_bit_div m 8
  have h9 := and_bit_div m 9
  have h10 := and_bit_div m 10
  have h11 := and_bit_div m 11
  norm_num at h0 h1 h2 h3 h4 h5 h6 h7 h8 h9 h10 h11
  rw [h]
  norm_num
  omega

/-- A column written as `c` or `-`: the bit is read back from `c`. -/
theorem plain_glyph (m k : Nat) (c : Char) (hc : '-' ≠ c) :
    glyph_bit (if m &&& 2 ^ k ≠ 0 then c else '-') [c] (2 ^ k) = m &&& 2 ^ k := by
  unfold glyph_bit
  rcases and_bit_cases m k with h | h
  · simp [h, hc]
  · have h2 : m &&& 2 ^ k ≠ 0 := by rw [h]; positivity
    simp [h2, h]

/-- A column written as `lo`, `up`, `x` or `-`: the execute bit and the
special bit are both read back. -/
theorem special_glyph (m k j : Nat) (lo up : Char)
    (h1 : lo ≠ 'x') (h2 : up ≠ 'x') (h3 : up ≠ lo) (h4 : '-' ≠ lo) (h5 : '-' ≠ up)
    (h6 : '-' ≠ 'x') (h7 : 'x' ≠ lo) (h8 : 'x' ≠ up) :
    glyph_bit (if m &&& 2 ^ j ≠ 0 then (if m &&& 2 ^ k ≠ 0 then lo else up)
        else (if m &&& 2 ^ k ≠ 0 then 'x' else '-')) ['x', lo] (2 ^ k) = m &&& 2 ^ k ∧
      glyph_bit (if m &&& 2 ^ j ≠ 0 then (if m &&& 2 ^ k ≠ 0 then lo else up)
        else (if m &&& 2 ^ k ≠ 0 then 'x' else '-')) [lo, up] (2 ^ j) = m &&& 2 ^ j := by
  unfold glyph_bit
  have p1 : (2 : Nat) ^ k ≠ 0 := by positivity
  have p2 : (2 : Nat) ^ j ≠ 0 := by positivity
  rcases and_bit_cases m k with h | h <;> rcases and_bit_cases m j with g | g <;>
    simp [h, g, h1, h2, h3, h4, h5, h6, h7, h8, p1, p2]

theorem decode_mode2str (m : Nat) : decode_perm (mode2str m) = some (m &&& 0o7777) := by
  have a8 := plain_glyph m 8 'r' (by decide)
  have a7 := plain_glyph m 7 'w' (by decide)
  have a5 := plain_glyph m 5 'r' (by decide)
  have a4 := plain_glyph m 4 'w' (by decide)
  have a2 := plain_glyph m 2 'r' (by decide)
  have a1 := plain_glyph m 1 'w' (by decide)
  have s6 := special_glyph m 6 11 's' 'S' (by decide) (by decide) (by decide) (by decide)
    (by decide) (by decide) (by decide) (by decide)
  have s3 := special_glyph m 3 10 's' 'S' (by decide) (by decide) (by decide) (by decide)
    (by decide) (by decide) (by decide) (by decide)
  have s0 := special_glyph m 0 9 't' 'T' (by decide) (by decide) (by decide) (by decide)
    (by decide) (by decide) (by decide) (by decide)
  norm_num at a8 a7 a5 a4 a2 a1 s6 s3 s0
  unfold mode2str decode_perm
  simp only []
  rw [low12_split]
  norm_num
  rw [a8, a7, a5, a4, a2, a1, s6.1, s6.2, s3.1, s3.2, s0.1, s0.2]

/-! ### the long format -/

/-- The line that `listfile_long` prints for a block or character device. -/
theorem listfile_long_dev (env : Env) (path : CStr) (flags : Nat) (s : stat_t)
    (user group : CStr) (tm : tm_t)
    (hlstat : env.lstat path = some s)
    (huser : user2str env s.st_uid 16 = some user)
    (hgroup : group2str env s.st_gid 16 = some group)
    (htime : env.localtime s.st_mtime = some tm)
    (hdev : s.st_mode &&& S_IFMT = S_IFBLK ∨ s.st_mode &&& S_IFMT = S_IFCHR) :
    listfile_long env path flags =
      ⟨(mode2str s.st_mode).map Char.toNat ++ lit " " ++ pad_right 8 user ++ lit " " ++
        pad_right 8 group ++ lit " " ++
        pad_left 3 (fmt_d (wrap32 (env.MAJOR s.st_rdev))) ++ lit ", " ++
        pad_left 3 (fmt_d (wrap32 (env.MINOR s.st_rdev))) ++ lit " " ++
        (env.strftime tm).take 31 ++ lit " " ++ basename path ++ lit "\n", .ret 0⟩ := by
  simp only [listfile_long, hlstat, huser, hgroup, htime, listfile_long_print, hdev, if_true]

/-- The line that `listfile_long` prints for a regular file. -/
theorem listfile_long_reg (env : Env) (path : CStr) (flags : Nat) (s : stat_t)
    (user group : CStr) (tm : tm_t)
    (hlstat : env.lstat path = some s)
    (huser : user2str env s.st_uid 16 = some user)
    (hgroup : group2str env s.st_gid 16 = some group)
    (htime : env.localtime s.st_mtime = some tm)
    (hreg : s.st_mode &&& S_IFMT = S_IFREG) :
    listfile_long env path flags =
      ⟨(mode2str s.st_mode).map Char.toNat ++ lit " " ++ pad_right 8 user ++ lit " " ++
        pad_right 8 group ++ lit " " ++ pad_left 8 (fmt_d (wrap32 s.st_size)) ++ lit " " ++
        (env.strftime tm).take 31 ++ lit " " ++ basename path ++ lit "\n", .ret 0⟩ := by
  have h1 : ¬ (S_IFREG = S_IFBLK ∨ S_IFREG = S_IFCHR) := by decide
  simp only [listfile_long, hlstat, huser, hgroup, htime, listfile_long_print, hreg, h1,
    if_false, if_true]

/-- The line that `listfile_long` prints for a symbolic link that `readlink` reads. -/
theorem listfile_long_lnk (env : Env) (path : CStr) (flags : Nat) (s : stat_t)
    (user group : CStr) (tm : tm_t) (target : List Nat)
    (hlstat : env.lstat path = some s)
    (huser : user2str env s.st_uid 16 = some user)
    (hgroup : group2str env s.st_gid 16 = some group)
    (htime : env.localtime s.st_mtime = some tm)
    (hlnk : s.st_mode &&& S_IFMT = S_IFLNK)
    (hread : env.readlink path = some target) :
    listfile_long env path flags =
      ⟨(mode2str s.st_mode).map Char.toNat ++ lit " " ++ pad_right 8 user ++ lit " " ++
        pad_right 8 group ++ lit "          " ++ (env.strftime tm).take 31 ++ lit " " ++
        basename path ++ lit " -> " ++ linkto_text env.linkto0 target ++ lit "\n", .ret 0⟩ := by
  have h1 : ¬ (S_IFLNK = S_IFBLK ∨ S_IFLNK = S_IFCHR) := by decide
  have h2 : ¬ (S_IFLNK = S_IFREG) := by decide
  simp only [listfile_long, hlstat, huser, hgroup, htime, listfile_long_print, hlnk, h1, h2,
    if_false, if_true, hread]

/-- The line that `listfile_long` prints for every other type of entry. -/
theorem listfile_long_other (env : Env) (path : CStr) (flags : Nat) (s : stat_t)
    (user group : CStr) (tm : tm_t)
    (hlstat : env.lstat path = some s)
    (huser : user2str env s.st_uid 16 = some user)
    (hgroup : group2str env s.st_gid 16 = some group)
    (htime : env.localtime s.st_mtime = some tm)
    (hdev : ¬ (s.st_mode &&& S_IFMT = S_IFBLK ∨ s.st_mode &&& S_IFMT = S_IFCHR))
    (hreg : s.st_mode &&& S_IFMT ≠ S_IFREG) (hlnk : s.st_mode &&& S_IFMT ≠ S_IFLNK) :
    listfile_long env path flags =
      ⟨(mode2str s.st_mode).map Char.toNat ++ lit " " ++ pad_right 8 user ++ lit " " ++
        pad_right 8 group ++ lit "          " ++ (env.strftime tm).take 31 ++ lit " " ++
        basename path ++ lit "\n", .ret 0⟩ := by
  simp only [listfile_long, hlstat, huser, hgroup, htime, listfile_long_print, hdev, hreg, hlnk,
    if_false]

/-- Every line of `listfile_long` has the same frame: mode, owner and group
in 8 columns each, a field, the date, the name after the final '/', and
for a symbolic link the target. -/
theorem listfile_long_shape (env : Env) (path : CStr) (flags : Nat) (s : stat_t)
    (user group : CStr) (tm : tm_t)
    (hlstat : env.lstat path = some s)
    (huser : user2str env s.st_uid 16 = some user)
    (hgroup : group2str env s.st_gid 16 = some group)
    (htime : env.localtime s.st_mtime = some tm)
    (hread : s.st_mode &&& S_IFMT = S_IFLNK → (env.readlink path).isSome = true) :
    ∃ field tail : CStr,
      listfile_long env path flags =
        ⟨(mode2str s.st_mode).map Char.toNat ++ lit " " ++ pad_right 8 user ++ lit " " ++
          pad_right 8 group ++ field ++ (env.strftime tm).take 31 ++ lit " " ++
          basename path ++ tail ++ lit "\n", .ret 0⟩ := by
  by_cases hdev : s.st_mode &&& S_IFMT = S_IFBLK ∨ s.st_mode &&& S_IFMT = S_IFCHR
  · refine ⟨lit " " ++ pad_left 3 (fmt_d (wrap32 (env.MAJOR s.st_rdev))) ++ lit ", " ++
      pad_left 3 (fmt_d (wrap32 (env.MINOR s.st_rdev))) ++ lit " ", [], ?_⟩
    rw [listfile_long_dev env path flags s user group tm hlstat huser hgroup htime hdev]
    simp only [List.append_assoc, List.append_nil]
  · by_cases hreg : s.st_mode &&& S_IFMT = S_IFREG
    · refine ⟨lit " " ++ pad_left 8 (fmt_d (wrap32 s.st_size)) ++ lit " ", [], ?_⟩
      rw [listfile_long_reg env path flags s user group tm hlstat huser hgroup htime hreg]
      simp only [List.append_assoc, List.append_nil]
    · by_cases hlnk : s.st_mode &&& S_IFMT = S_IFLNK
      · obtain ⟨target, ht⟩ := Option.isSome_iff_exists.1 (hread hlnk)
        refine ⟨lit "          ", lit " -> " ++ linkto_text env.linkto0 target, ?_⟩
        rw [listfile_long_lnk env path flags s user group tm target hlstat huser hgroup htime
          hlnk ht]
        simp only [List.append_assoc]
      · refine ⟨lit "          ", [], ?_⟩
        rw [listfile_long_other env path flags s user group tm hlstat huser hgroup htime hdev
          hreg hlnk]
        simp only [List.append_assoc, List.append_nil]

/-- The cases in which `listfile_long` ends as a fault: the entry is found
and the owner or the group does not fit its 16-byte array, or `localtime`
returns NULL. -/
theorem listfile_long_fault_iff (env : Env) (path : CStr) (flags : Nat) :
    (listfile_long env path flags).res = .fault ↔
      ∃ s, env.lstat path = some s ∧
        (user2str env s.st_uid 16 = none ∨ group2str env s.st_gid 16 = none ∨
          env.localtime s.st_mtime = none) := by
  unfold listfile_long
  cases hs : env.lstat path with
  | none => simp
  | some s =>
    simp only [Option.some.injEq, exists_eq_left']
    cases hu : user2str env s.st_uid 16 with
    | none => simp
    | some user =>
      cases hg : group2str env s.st_gid 16 with
      | none => simp
      | some group =>
        cases ht : env.localtime s.st_mtime with
        | none => simp
        | some tm =>
          simp only [listfile_long_print]
          split_ifs
          · simp
          · simp
          · cases env.readlink path <;> simp
          · simp

/-- For a regular file of a size below 2^31 bytes the size field of the
line is the decimal text of `st_size`, right-justified in 8 columns (wider
from 10^8 on). -/
theorem size_field_in_range (env : Env) (path : CStr) (flags : Nat) (s : stat_t)
    (user group : CStr) (tm : tm_t)
    (hlstat : env.lstat path = some s)
    (huser : user2str env s.st_uid 16 = some user)
    (hgroup : group2str env s.st_gid 16 = some group)
    (htime : env.localtime s.st_mtime = some tm)
    (hreg : s.st_mode &&& S_IFMT = S_IFREG)
    (hnonneg : 0 ≤ s.st_size) (hint : s.st_size < 2147483648) :
    listfile_long env path flags =
        ⟨(mode2str s.st_mode).map Char.toNat ++ lit " " ++ pad_right 8 user ++ lit " " ++
          pad_right 8 group ++ lit " " ++
          (List.replicate (8 - (decimal s.st_size.toNat).length) 32 ++
            decimal s.st_size.toNat) ++ lit " " ++
          (env.strftime tm).take 31 ++ lit " " ++ basename path ++ lit "\n", .ret 0⟩ ∧
      (s.st_size < 100000000 →
        (List.replicate (8 - (decimal s.st_size.toNat).length) 32 ++
          decimal s.st_size.toNat).length = 8) := by
  refine ⟨?_, ?_⟩
  · rw [listfile_long_reg env path flags s user group tm hlstat huser hgroup htime hreg,
      fmt_d_wrap32 _ hnonneg hint]
    rfl
  · intro h8
    have hl := decimal_length_le s.st_size.toNat 8 (by omega) (by omega)
    simp only [List.length_append, List.length_replicate]
    omega

/-! ## The claims -/

/-- C1. In bare-name mode (neither LIST_LONG nor LIST_SIZE) the output of
`listdir` begins with the names that pass the hidden-name filter, each
followed by a newline, in ascending byte-wise lexicographic order; nothing
follows them (and 0 is returned) unless LIST_RECURSIVE is set.  The same
lines are printed for every other enumeration order of the same entries. -/
theorem C1_listdir_sorted_names (env : Env) (fuel : Nat) (name : CStr) (flags : Nat)
    (entries : List CStr)
    (hopen : env.opendir name = some entries)
    (hcap : (entries.length : Int) ≤ INT_MAX / (env.sizeof_voidp : Int))
    (hbare : flags &&& (LIST_LONG ||| LIST_SIZE) = 0) :
    ∃ names : List CStr,
      names.Perm (entries.filter (fun d => passes_filter flags d)) ∧
      names.Sorted lex_le ∧
      (∃ rest, (listdir (fuel + 1) env name flags).out =
          (names.map (fun n => n ++ lit "\n")).flatten ++ rest ∧
        (flags &&& LIST_RECURSIVE = 0 →
          rest = [] ∧ (listdir (fuel + 1) env name flags).res = .ret 0)) ∧
      (∀ (env2 : Env) (entries2 : List CStr),
        env2.opendir name = some entries2 →
        env2.sizeof_voidp = env.sizeof_voidp →
        entries2.Perm entries →
        ∃ rest2, (listdir (fuel + 1) env2 name flags).out =
            (names.map (fun n => n ++ lit "\n")).flatten ++ rest2 ∧
          (flags &&& LIST_RECURSIVE = 0 →
            rest2 = [] ∧ (listdir (fuel + 1) env2 name flags).res = .ret 0)) := by
  have hsz := bare_no_size flags hbare
  have key : ∀ (env2 : Env) (entries2 : List CStr),
      env2.opendir name = some entries2 →
      (entries2.length : Int) ≤ INT_MAX / (env2.sizeof_voidp : Int) →
      ∃ rest2, (listdir (fuel + 1) env2 name flags).out =
          ((shown_names flags entries2).map (fun n => n ++ lit "\n")).flatten ++ rest2 ∧
        (flags &&& LIST_RECURSIVE = 0 →
          rest2 = [] ∧ (listdir (fuel + 1) env2 name flags).res = .ret 0) := by
    intro env2 entries2 hopen2 hcap2
    have hloop : (foreach_listfile env2 name flags (shown_names flags entries2)).res = .ret () := by
      rw [foreach_listfile_bare env2 name flags hbare]
    have hlines : entry_lines env2 name flags entries2 =
        ((shown_names flags entries2).map (fun n => n ++ lit "\n")).flatten := by
      unfold entry_lines
      rw [foreach_listfile_bare env2 name flags hbare]
    have htot : total_line env2 name flags entries2 = [] := by simp [total_line, hsz]
    by_cases hrec : flags &&& LIST_RECURSIVE = 0
    · refine ⟨[], ?_, fun _ => ⟨rfl, ?_⟩⟩
      · rw [listdir_norec env2 fuel name flags entries2 hopen2 hcap2 hrec hloop, htot, hlines]; simp
      · rw [listdir_norec env2 fuel name flags entries2 hopen2 hcap2 hrec hloop]
    · by_cases hfail : ∃ d ∈ entries2, passes_filter flags d = true ∧
          scan_stat env2 (child_path 4096 name d) = none
      · refine ⟨[], ?_, fun h => absurd h hrec⟩
        rw [listdir_rec_fail env2 fuel name flags entries2 hopen2 hcap2 hrec hloop hfail, htot, hlines]
        simp
      · have hstat : ∀ d ∈ entries2, passes_filter flags d = true →
            (scan_stat env2 (child_path 4096 name d)).isSome = true := by
          intro d hd hp
          cases hs : scan_stat env2 (child_path 4096 name d) with
          | none => exact absurd ⟨d, hd, hp, hs⟩ hfail
          | some s => rfl
        refine ⟨(foreach_subdir (fun path => listdir fuel env2 path flags)
          (subdir_paths env2 name flags entries2)).out, ?_, fun h => absurd h hrec⟩
        rw [listdir_rec_ok env2 fuel name flags entries2 hopen2 hcap2 hrec hloop hstat, htot, hlines]
        simp only [List.nil_append]
  refine ⟨shown_names flags entries, shown_names_perm flags entries, qsort_lex_sorted _,
    key env entries hopen hcap, ?_⟩
  intro env2 entries2 hopen2 hsize hperm
  rw [← shown_names_congr flags entries entries2 hperm]
  exact key env2 entries2 hopen2 (by rw [hsize, hperm.length_eq]; exact hcap)

/-- C1, at the directory of the specification's scenario: entries `b.txt`,
`a.txt`, `.hidden`, `sub` with no flags give `a.txt`, `b.txt`, `sub`. -/
theorem C1_listdir_sorted_names_witness :
    env1.opendir (lit "d") =
        some [lit ".", lit "..", lit "b.txt", lit "a.txt", lit ".hidden", lit "sub"] ∧
      (0 : Nat) &&& (LIST_LONG ||| LIST_SIZE) = 0 ∧
      listdir 1 env1 (lit "d") 0 = ⟨lit "a.txt\nb.txt\nsub\n", .ret 0⟩ ∧
      ∃ names : List CStr,
        names.Perm ([lit ".", lit "..", lit "b.txt", lit "a.txt", lit ".hidden",
          lit "sub"].filter (fun d => passes_filter 0 d)) ∧
        names.Sorted lex_le ∧
        (∃ rest, (listdir (0 + 1) env1 (lit "d") 0).out =
            (names.map (fun n => n ++ lit "\n")).flatten ++ rest ∧
          ((0 : Nat) &&& LIST_RECURSIVE = 0 →
            rest = [] ∧ (listdir (0 + 1) env1 (lit "d") 0).res = .ret 0)) ∧
        (∀ (env2 : Env) (entries2 : List CStr),
          env2.opendir (lit "d") = some entries2 →
          env2.sizeof_voidp = env1.sizeof_voidp →
          entries2.Perm [lit ".", lit "..", lit "b.txt", lit "a.txt", lit ".hidden",
            lit "sub"] →
          ∃ rest2, (listdir (0 + 1) env2 (lit "d") 0).out =
              (names.map (fun n => n ++ lit "\n")).flatten ++ rest2 ∧
            ((0 : Nat) &&& LIST_RECURSIVE = 0 →
              rest2 = [] ∧ (listdir (0 + 1) env2 (lit "d") 0).res = .ret 0)) :=
  ⟨rfl, rfl, rfl,
    C1_listdir_sorted_names env1 0 (lit "d") 0
      [lit ".", lit "..", lit "b.txt", lit "a.txt", lit ".hidden", lit "sub"] rfl
      (by decide) rfl⟩

/-- C2. `listdir` renders (through `listfile`) a list of entries in which a
name occurs if and only if the directory stream yields it, it is neither
"." nor "..", and it does not begin with '.' unless LIST_ALL is set; "."
and ".." are never rendered, whatever the flags.  The same test decides
each `readdir` loop (`skipped`). -/
theorem C2_hidden_filter (env : Env) (fuel : Nat) (name : CStr) (flags : Nat)
    (entries : List CStr)
    (hopen : env.opendir name = some entries)
    (hcap : (entries.length : Int) ≤ INT_MAX / (env.sizeof_voidp : Int)) :
    (∀ d : CStr, skipped flags d = false ↔
      d ≠ lit "." ∧ d ≠ lit ".." ∧ (d.head? ≠ some 46 ∨ flags &&& LIST_ALL ≠ 0)) ∧
    ∃ files : List CStr,
      (∀ d : CStr, d ∈ files ↔
        d ∈ entries ∧ d ≠ lit "." ∧ d ≠ lit ".." ∧
          (d.head? ≠ some 46 ∨ flags &&& LIST_ALL ≠ 0)) ∧
      lit "." ∉ files ∧ lit ".." ∉ files ∧
      ∃ rest, (listdir (fuel + 1) env name flags).out =
          total_line env name flags entries ++
            (foreach_listfile env name flags files).out ++ rest ∧
        (flags &&& LIST_RECURSIVE = 0 → rest = []) := by
  have hmem : ∀ d : CStr, d ∈ shown_names flags entries ↔
      d ∈ entries ∧ d ≠ lit "." ∧ d ≠ lit ".." ∧
        (d.head? ≠ some 46 ∨ flags &&& LIST_ALL ≠ 0) := by
    intro d
    rw [(shown_names_perm flags entries).mem_iff, List.mem_filter, passes_filter_iff]
  refine ⟨?_, shown_names flags entries, hmem, ?_, ?_, ?_⟩
  · intro d
    rw [skipped_eq, ← passes_filter_iff]
    cases passes_filter flags d <;> simp
  · intro h; exact ((hmem _).1 h).2.1 rfl
  · intro h; exact ((hmem _).1 h).2.2.1 rfl
  · rcases foreach_listfile_ends env name flags (shown_names flags entries) with hstop | hloop
    · refine ⟨[], ?_, fun _ => rfl⟩
      rw [listdir_fault env fuel name flags entries hopen hcap hstop]
      simp [entry_lines]
    · by_cases hrec : flags &&& LIST_RECURSIVE = 0
      · refine ⟨[], ?_, fun _ => rfl⟩
        rw [listdir_norec env fuel name flags entries hopen hcap hrec hloop]
        simp [entry_lines]
      · by_cases hfail : ∃ d ∈ entries, passes_filter flags d = true ∧
            scan_stat env (child_path 4096 name d) = none
        · refine ⟨[], ?_, fun h => absurd h hrec⟩
          rw [listdir_rec_fail env fuel name flags entries hopen hcap hrec hloop hfail]
          simp [entry_lines]
        · have hstat : ∀ d ∈ entries, passes_filter flags d = true →
              (scan_stat env (child_path 4096 name d)).isSome = true := by
            intro d hd hp
            cases hs : scan_stat env (child_path 4096 name d) with
            | none => exact absurd ⟨d, hd, hp, hs⟩ hfail
            | some s => rfl
          refine ⟨(foreach_subdir (fun path => listdir fuel env path flags)
            (subdir_paths env name flags entries)).out, ?_, fun h => absurd h hrec⟩
          rw [listdir_rec_ok env fuel name flags entries hopen hcap hrec hloop hstat]
          simp [entry_lines]

/-- C2, at the directory of the specification's scenario with `-a`:
`.hidden` is listed, first; "." and ".." are not. -/
theorem C2_hidden_filter_witness :
    env1.opendir (lit "d") =
        some [lit ".", lit "..", lit "b.txt", lit "a.txt", lit ".hidden", lit "sub"] ∧
      listdir 1 env1 (lit "d") LIST_ALL = ⟨lit ".hidden\na.txt\nb.txt\nsub\n", .ret 0⟩ ∧
      ((∀ d : CStr, skipped LIST_ALL d = false ↔
        d ≠ lit "." ∧ d ≠ lit ".." ∧ (d.head? ≠ some 46 ∨ LIST_ALL &&& LIST_ALL ≠ 0)) ∧
      ∃ files : List CStr,
        (∀ d : CStr, d ∈ files ↔
          d ∈ [lit ".", lit "..", lit "b.txt", lit "a.txt", lit ".hidden", lit "sub"] ∧
            d ≠ lit "." ∧ d ≠ lit ".." ∧
            (d.head? ≠ some 46 ∨ LIST_ALL &&& LIST_ALL ≠ 0)) ∧
        lit "." ∉ files ∧ lit ".." ∉ files ∧
        ∃ rest, (listdir (0 + 1) env1 (lit "d") LIST_ALL).out =
            total_line env1 (lit "d") LIST_ALL
                [lit ".", lit "..", lit "b.txt", lit "a.txt", lit ".hidden", lit "sub"] ++
              (foreach_listfile env1 (lit "d") LIST_ALL files).out ++ rest ∧
          (LIST_ALL &&& LIST_RECURSIVE = 0 → rest = [])) :=
  ⟨rfl, rfl,
    C2_hidden_filter env1 0 (lit "d") LIST_ALL
      [lit ".", lit "..", lit "b.txt", lit "a.txt", lit ".hidden", lit "sub"] rfl (by decide)⟩

/-- C3. `mode2str` produces 10 characters: the glyph of `mode2kind`, then
r, w and the execute character for user, group and other.  The execute
character is 's'/'S' under setuid (user) and setgid (group) and 't'/'T'
under the sticky bit (other), lower case when the execute bit is set.  The
glyph is '-', 'd', 'l', 'b', 'c', 'p', 's' for a regular file, directory,
symlink, block device, char device, fifo, socket and '?' for anything else. -/
theorem C3_mode2str (mode : Nat) :
    (mode2str mode).length = 10 ∧
    mode2str mode =
      [ mode2kind mode,
        flag_char (mode.testBit 8) 'r', flag_char (mode.testBit 7) 'w',
        exec_char (mode.testBit 11) (mode.testBit 6) 's' 'S',
        flag_char (mode.testBit 5) 'r', flag_char (mode.testBit 4) 'w',
        exec_char (mode.testBit 10) (mode.testBit 3) 's' 'S',
        flag_char (mode.testBit 2) 'r', flag_char (mode.testBit 1) 'w',
        exec_char (mode.testBit 9) (mode.testBit 0) 't' 'T' ] ∧
    (mode &&& S_IFMT = S_IFREG → mode2kind mode = '-') ∧
    (mode &&& S_IFMT = S_IFDIR → mode2kind mode = 'd') ∧
    (mode &&& S_IFMT = S_IFLNK → mode2kind mode = 'l') ∧
    (mode &&& S_IFMT = S_IFBLK → mode2kind mode = 'b') ∧
    (mode &&& S_IFMT = S_IFCHR → mode2kind mode = 'c') ∧
    (mode &&& S_IFMT = S_IFIFO → mode2kind mode = 'p') ∧
    (mode &&& S_IFMT = S_IFSOCK → mode2kind mode = 's') ∧
    (mode &&& S_IFMT ∉ [S_IFREG, S_IFDIR, S_IFLNK, S_IFBLK, S_IFCHR, S_IFIFO, S_IFSOCK] →
      mode2kind mode = '?') ∧
    mode2str 0o100755 = "-rwxr-xr-x".toList ∧
    mode2str 0o104755 = "-rwsr-xr-x".toList ∧
    mode2str 0o041754 = "drwxr-xr-T".toList := by
  have b8 : mode &&& 0o400 ≠ 0 ↔ mode.testBit 8 = true := and_two_pow_ne_zero mode 8
  have b7 : mode &&& 0o200 ≠ 0 ↔ mode.testBit 7 = true := and_two_pow_ne_zero mode 7
  have b6 : mode &&& 0o100 ≠ 0 ↔ mode.testBit 6 = true := and_two_pow_ne_zero mode 6
  have b5 : mode &&& 0o40 ≠ 0 ↔ mode.testBit 5 = true := and_two_pow_ne_zero mode 5
  have b4 : mode &&& 0o20 ≠ 0 ↔ mode.testBit 4 = true := and_two_pow_ne_zero mode 4
  have b3 : mode &&& 0o10 ≠ 0 ↔ mode.testBit 3 = true := and_two_pow_ne_zero mode 3
  have b2 : mode &&& 0o4 ≠ 0 ↔ mode.testBit 2 = true := and_two_pow_ne_zero mode 2
  have b1 : mode &&& 0o2 ≠ 0 ↔ mode.testBit 1 = true := and_two_pow_ne_zero mode 1
  have b0 : mode &&& 0o1 ≠ 0 ↔ mode.testBit 0 = true := and_two_pow_ne_zero mode 0
  have b11 : mode &&& 0o4000 ≠ 0 ↔ mode.testBit 11 = true := and_two_pow_ne_zero mode 11
  have b10 : mode &&& 0o2000 ≠ 0 ↔ mode.testBit 10 = true := and_two_pow_ne_zero mode 10
  have b9 : mode &&& 0o1000 ≠ 0 ↔ mode.testBit 9 = true := and_two_pow_ne_zero mode 9
  refine ⟨rfl, ?_, ?_, ?_, ?_, ?_, ?_, ?_, ?_, ?_, by decide, by decide, by decide⟩
  · simp only [mode2str, flag_char, exec_char, b0, b1, b2, b3, b4, b5, b6, b7, b8, b9, b10, b11]
  all_goals
    intro h
    simp only [S_IFMT, S_IFSOCK, S_IFLNK, S_IFREG, S_IFBLK, S_IFDIR, S_IFCHR, S_IFIFO,
      List.mem_cons, List.mem_nil_iff, or_false, not_or] at h
    simp [mode2kind, S_IFMT, S_IFSOCK, S_IFLNK, S_IFREG, S_IFBLK, S_IFDIR, S_IFCHR, S_IFIFO, h]

/-- C4 (as amended). With LIST_RECURSIVE set, every child path fitting the
4096-byte buffer, every child examined successfully and every call of
`listfile` returning (outside the long format it always does), `listdir`
prints first the total line and all direct entry lines, and only then, for
each child that passes the hidden-name filter and is a directory, in
ascending lexicographic order of the child's name, a blank line, the header
"<dir>/<child>:" ("/<child>:" under "/") and the listing of that child. -/
theorem C4_recursive_sections (env : Env) (fuel : Nat) (name : CStr) (flags : Nat)
    (entries : List CStr)
    (hopen : env.opendir name = some entries)
    (hcap : (entries.length : Int) ≤ INT_MAX / (env.sizeof_voidp : Int))
    (hrec : flags &&& LIST_RECURSIVE ≠ 0)
    (hfit : ∀ d ∈ entries, passes_filter flags d = true → name.length + 1 + d.length < 4096)
    (hstat : ∀ d ∈ entries, passes_filter flags d = true →
      (scan_stat env (join_path name d)).isSome = true)
    (hlines : flags &&& LIST_LONG ≠ 0 → ∀ d ∈ entries, passes_filter flags d = true →
      (listfile env (some name) d flags).res.returned = true)
    (hret : ∀ d ∈ entries, passes_filter flags d = true →
      scan_isdir env (join_path name d) = true →
      (listdir fuel env (join_path name d) flags).res.returned = true) :
    ∃ children : List CStr,
      children.Perm (entries.filter
        (fun d => scan_isdir env (join_path name d) && passes_filter flags d)) ∧
      children.Sorted lex_le ∧
      listdir (fuel + 1) env name flags =
        ⟨total_line env name flags entries ++ entry_lines env name flags entries ++
          (children.map (fun d => lit "\n" ++ join_path name d ++ lit ":\n" ++
            (listdir fuel env (join_path name d) flags).out)).flatten, .ret 0⟩ := by
  refine ⟨qsort strlist_compare_strings (entries.filter
      (fun d => scan_isdir env (join_path name d) && passes_filter flags d)),
    qsort_perm _, qsort_lex_sorted _, ?_⟩
  have hstat2 : ∀ d ∈ entries, passes_filter flags d = true →
      (scan_stat env (child_path 4096 name d)).isSome = true := by
    intro d hd hp
    rw [child_path_eq_join name d (hfit d hd hp)]
    exact hstat d hd hp
  have hlines2 : ∀ d ∈ entries, passes_filter flags d = true →
      (listfile env (some name) d flags).res.returned = true := by
    intro d hd hp
    by_cases hl : flags &&& LIST_LONG = 0
    · exact listfile_short_ret env (some name) d flags hl
    · exact hlines hl d hd hp
  rw [listdir_rec_ok env fuel name flags entries hopen hcap hrec
      (entry_loop_ret env name flags entries hlines2) hstat2,
    subdir_paths_eq env name flags entries hfit]
  have hall : ∀ p ∈ (qsort strlist_compare_strings (entries.filter
      (fun d => scan_isdir env (join_path name d) && passes_filter flags d))).map
        (join_path name), ∃ v, (listdir fuel env p flags).res = .ret v := by
    intro p hp
    rw [List.mem_map] at hp
    obtain ⟨d, hd, rfl⟩ := hp
    rw [(qsort_perm _).mem_iff, List.mem_filter, Bool.and_eq_true] at hd
    exact returned_iff.1 (hret d hd.1 hd.2.2 hd.2.1)
  rw [foreach_subdir_ret _ _ hall]
  simp only [List.map_map]
  rfl

/-- C4 (as amended), at the directory `d` of the scenario: the entry lines
come first, then the section of the only subdirectory `d/sub`. -/
theorem C4_recursive_sections_witness :
    env1.opendir (lit "d") =
        some [lit ".", lit "..", lit "b.txt", lit "a.txt", lit ".hidden", lit "sub"] ∧
      LIST_RECURSIVE &&& LIST_RECURSIVE ≠ 0 ∧
      (∀ d ∈ [lit ".", lit "..", lit "b.txt", lit "a.txt", lit ".hidden", lit "sub"],
        passes_filter LIST_RECURSIVE d = true → (lit "d").length + 1 + d.length < 4096) ∧
      (∀ d ∈ [lit ".", lit "..", lit "b.txt", lit "a.txt", lit ".hidden", lit "sub"],
        passes_filter LIST_RECURSIVE d = true →
        (scan_stat env1 (join_path (lit "d") d)).isSome = true) ∧
      (LIST_RECURSIVE &&& LIST_LONG ≠ 0 →
        ∀ d ∈ [lit ".", lit "..", lit "b.txt", lit "a.txt", lit ".hidden", lit "sub"],
          passes_filter LIST_RECURSIVE d = true →
          (listfile env1 (some (lit "d")) d LIST_RECURSIVE).res.returned = true) ∧
      listdir 2 env1 (lit "d") LIST_RECURSIVE =
        ⟨lit "a.txt\nb.txt\nsub\n\nd/sub:\n", .ret 0⟩ ∧
      ∃ children : List CStr,
        children.Perm ([lit ".", lit "..", lit "b.txt", lit "a.txt", lit ".hidden",
          lit "sub"].filter
          (fun d => scan_isdir env1 (join_path (lit "d") d) &&
            passes_filter LIST_RECURSIVE d)) ∧
        children.Sorted lex_le ∧
        listdir (1 + 1) env1 (lit "d") LIST_RECURSIVE =
          ⟨total_line env1 (lit "d") LIST_RECURSIVE
              [lit ".", lit "..", lit "b.txt", lit "a.txt", lit ".hidden", lit "sub"] ++
            entry_lines env1 (lit "d") LIST_RECURSIVE
              [lit ".", lit "..", lit "b.txt", lit "a.txt", lit ".hidden", lit "sub"] ++
            (children.map (fun d => lit "\n" ++ join_path (lit "d") d ++ lit ":\n" ++
              (listdir 1 env1 (join_path (lit "d") d) LIST_RECURSIVE).out)).flatten,
            .ret 0⟩ :=
  ⟨rfl, by decide, by decide!, by decide!, fun h => absurd h (by decide), by decide!,
    C4_recursive_sections env1 1 (lit "d") LIST_RECURSIVE
      [lit ".", lit "..", lit "b.txt", lit "a.txt", lit ".hidden", lit "sub"] rfl (by decide)
      (by decide) (by decide!) (by decide!) (fun h => absurd h (by decide)) (by decide!)⟩

set_option maxHeartbeats 4000000 in
set_option maxRecDepth 1000000 in
/-- C4 as stated fails when a child path does not fit the buffer: under the
4090-byte directory `long_dir` the path of the child `abcdefgh` is cut to
`<long_dir>/abcd`, so the section of `abcd` is printed twice and no header
"<long_dir>/abcdefgh:" is printed. -/
theorem C4_counterexample :
    env_long.opendir long_dir = some [lit ".", lit "..", lit "abcd", lit "abcdefgh"] ∧
      scan_isdir env_long (join_path long_dir (lit "abcd")) = true ∧
      scan_isdir env_long (join_path long_dir (lit "abcdefgh")) = true ∧
      child_path 4096 long_dir (lit "abcdefgh") = long_dir ++ lit "/abcd" ∧
      listdir 2 env_long long_dir LIST_RECURSIVE =
        ⟨lit "abcd\nabcdefgh\n" ++
          ((lit "\n" ++ (long_dir ++ lit "/abcd") ++ lit ":\n") ++
            (lit "\n" ++ (long_dir ++ lit "/abcd") ++ lit ":\n")), .ret 0⟩ ∧
      (listdir 2 env_long long_dir LIST_RECURSIVE).out ≠
        lit "abcd\nabcdefgh\n" ++
          ((lit "\n" ++ join_path long_dir (lit "abcd") ++ lit ":\n" ++
              (listdir 1 env_long (join_path long_dir (lit "abcd")) LIST_RECURSIVE).out) ++
            (lit "\n" ++ join_path long_dir (lit "abcdefgh") ++ lit ":\n" ++
              (listdir 1 env_long (join_path long_dir (lit "abcdefgh")) LIST_RECURSIVE).out)) := by
  have hopen : env_long.opendir long_dir =
      some [lit ".", lit "..", lit "abcd", lit "abcdefgh"] := by decide!
  have hstat : ∀ d ∈ [lit ".", lit "..", lit "abcd", lit "abcdefgh"],
      passes_filter LIST_RECURSIVE d = true →
      (scan_stat env_long (child_path 4096 long_dir d)).isSome = true := by decide!
  have hcap : (([lit ".", lit "..", lit "abcd", lit "abcdefgh"] : List CStr).length : Int) ≤
      INT_MAX / (env_long.sizeof_voidp : Int) := by decide!
  have hrec : LIST_RECURSIVE &&& LIST_RECURSIVE ≠ 0 := by decide
  have hloop : (foreach_listfile env_long long_dir LIST_RECURSIVE
      (shown_names LIST_RECURSIVE [lit ".", lit "..", lit "abcd", lit "abcdefgh"])).res =
      .ret () := by decide!
  have hsub : subdir_paths env_long long_dir LIST_RECURSIVE
      [lit ".", lit "..", lit "abcd", lit "abcdefgh"] =
      [long_dir ++ lit "/abcd", long_dir ++ lit "/abcd"] := by decide!
  have hl1 : listdir 1 env_long (long_dir ++ lit "/abcd") LIST_RECURSIVE = ⟨[], .ret 0⟩ := by
    decide!
  have hl2 : listdir 1 env_long (join_path long_dir (lit "abcdefgh")) LIST_RECURSIVE =
      ⟨[], .ret 0⟩ := by decide!
  have hj1 : join_path long_dir (lit "abcd") = long_dir ++ lit "/abcd" := by decide!
  have hj2 : join_path long_dir (lit "abcdefgh") = long_dir ++ lit "/abcdefgh" := by decide!
  have hlines : entry_lines env_long long_dir LIST_RECURSIVE
      [lit ".", lit "..", lit "abcd", lit "abcdefgh"] = lit "abcd\nabcdefgh\n" := by decide!
  have htot : total_line env_long long_dir LIST_RECURSIVE
      [lit ".", lit "..", lit "abcd", lit "abcdefgh"] = [] := by decide!
  have hmain : listdir 2 env_long long_dir LIST_RECURSIVE =
      ⟨lit "abcd\nabcdefgh\n" ++
        ((lit "\n" ++ (long_dir ++ lit "/abcd") ++ lit ":\n") ++
          (lit "\n" ++ (long_dir ++ lit "/abcd") ++ lit ":\n")), .ret 0⟩ := by
    rw [listdir_rec_ok env_long 1 long_dir LIST_RECURSIVE
        [lit ".", lit "..", lit "abcd", lit "abcdefgh"] hopen hcap hrec hloop hstat,
      hsub, foreach_subdir_ret _ _ (by
        intro p hp
        simp only [List.mem_cons, List.mem_nil_iff, or_false, or_self] at hp
        subst hp
        exact ⟨0, by rw [hl1]⟩),
      htot, hlines]
    simp [section_text, hl1]
  refine ⟨hopen, by decide!, by decide!, by decide!, hmain, ?_⟩
  rw [hmain, hl2, hj1, hj2, hl1]
  intro h
  have h5 : (lit "/abcd").length = 5 := rfl
  have h9 : (lit "/abcdefgh").length = 9 := rfl
  have hlen := congrArg List.length h
  simp only [List.length_append, h5, h9, List.length_nil] at hlen
  omega

set_option maxRecDepth 1000000 in
/-- C5, the code at two inputs where it departs from the claim.  (1) The
total is accumulated in an `int`: for a child of 2^33 blocks the line is
"total 0" while the entry line shows 4294967296.  (2) The child path is
built in a 1024-byte buffer: under the 1020-byte directory `dir1020` the
path of `abcdef` is cut to `<dir1020>/ab`, whose `lstat` fails, and no
total line is printed although the entry line shows the child's size. -/
theorem C5_total_line_defects :
    listdir 1 env_big (lit "d") LIST_SIZE = ⟨lit "total 0\n4294967296 big\n", .ret 0⟩ ∧
      env_big.lstat (join_path (lit "d") (lit "big")) = some (mkstat 0o100644 8589934592) ∧
      dir1020.length = 1020 ∧
      env1020.lstat (join_path dir1020 (lit "abcdef")) = some (mkstat 0o100644 8) ∧
      child_path 1024 dir1020 (lit "abcdef") = dir1020 ++ lit "/ab" ∧
      show_total_size env1020 dir1020 [lit ".", lit "..", lit "abcdef"] LIST_SIZE = ([], -1) ∧
      listdir 1 env1020 dir1020 LIST_SIZE = ⟨lit "4 abcdef\n", .ret 0⟩ := by
  refine ⟨by decide!, by decide!, by decide!, by decide!, by decide!, by decide!, by decide!⟩

/-- C9, the code at two inputs where a per-path operation fails and the
exit status is 0.  `ls -R d`: the subdirectory `d/sub` cannot be opened
(`listdir` returns -1 for it), the value is discarded by the loop of
`listdir`.  `ls -l e`: the `lstat` of the entry `e/f` fails (`listfile`
returns -1), the value is discarded as well.  The same failure on a
top-level argument (`ls d/sub`) gives status 1. -/
theorem C9_exit_status_lost :
    listdir 1 env9 (lit "d/sub") LIST_RECURSIVE = ⟨[], .ret (-1)⟩ ∧
      ls_main 2 env9 [lit "ls", lit "-R", lit "d"] =
        ⟨lit "\nd:\nsub\n\nd/sub:\n", .ret 0⟩ ∧
      listfile env9 (some (lit "e")) (lit "f") LIST_LONG = ⟨[], .ret (-1)⟩ ∧
      ls_main 2 env9 [lit "ls", lit "-l", lit "e"] = ⟨[], .ret 0⟩ ∧
      ls_main 2 env9 [lit "ls", lit "d/sub"] = ⟨[], .ret 1⟩ := by
  refine ⟨by decide!, by decide!, by decide!, by decide!, by decide!⟩

/-- C10 as stated fails for a failed `lstat`: in directory `e` the entry
`b` cannot be examined, and the subdirectory `e/a`, which lists without
error, is not listed: `listdir` stops after the entry lines with -1. -/
theorem C10_counterexample :
    env10.opendir (lit "e") = some [lit ".", lit "..", lit "a", lit "b"] ∧
      scan_stat env10 (child_path 4096 (lit "e") (lit "b")) = none ∧
      scan_isdir env10 (child_path 4096 (lit "e") (lit "a")) = true ∧
      listdir 1 env10 (lit "e/a") LIST_RECURSIVE = ⟨[], .ret 0⟩ ∧
      listdir 2 env10 (lit "e") LIST_RECURSIVE = ⟨lit "a\nb\n", .ret (-1)⟩ := by
  refine ⟨by decide!, by decide!, by decide!, by decide!, by decide!⟩

/-- C10 (as amended). (1) When the options are known, `ls_main` runs
`listpath` on every path argument in command-line order, whatever the
earlier calls returned; the status is 1 when some call returned non-zero,
else 0.  (2) In a recursive listing in which every call of `listfile`
returns (outside the long format it always does) and every filtered child
can be examined, every subdirectory is listed, in order, whatever the
listing of another subdirectory returned (such as -1 after a failed
`opendir`).  (3) When every call of `listfile` returns and the
`stat`/`lstat` of a filtered child fails, `listdir` returns -1 after the
entry lines and lists no subdirectory. -/
theorem C10_failure_isolation (env : Env) (fuel : Nat) :
    (∀ (argv : List CStr) (flags : Nat),
      parse_flags argv.tail 0 = some flags →
      (argv.length : Int) ≤ INT_MAX / (env.sizeof_voidp : Int) →
      path_args argv.tail ≠ [] →
      (∀ p ∈ path_args argv.tail, (listpath fuel env p flags).res.returned = true) →
      ls_main fuel env argv =
        ⟨((path_args argv.tail).map (fun p => (listpath fuel env p flags).out)).flatten,
          .ret (if (path_args argv.tail).all
              (fun p => decide ((listpath fuel env p flags).res = .ret 0))
            then 0 else 1)⟩) ∧
    (∀ (name : CStr) (flags : Nat) (entries : List CStr),
      env.opendir name = some entries →
      (entries.length : Int) ≤ INT_MAX / (env.sizeof_voidp : Int) →
      flags &&& LIST_RECURSIVE ≠ 0 →
      (flags &&& LIST_LONG ≠ 0 → ∀ d ∈ entries, passes_filter flags d = true →
        (listfile env (some name) d flags).res.returned = true) →
      (∀ d ∈ entries, passes_filter flags d = true →
        (scan_stat env (child_path 4096 name d)).isSome = true) →
      (∀ p ∈ subdir_paths env name flags entries,
        (listdir fuel env p flags).res.returned = true) →
      listdir (fuel + 1) env name flags =
        ⟨total_line env name flags entries ++ entry_lines env name flags entries ++
          ((subdir_paths env name flags entries).map
            (section_text (fun p => (listdir fuel env p flags).out))).flatten, .ret 0⟩) ∧
    (∀ (name : CStr) (flags : Nat) (entries : List CStr),
      env.opendir name = some entries →
      (entries.length : Int) ≤ INT_MAX / (env.sizeof_voidp : Int) →
      flags &&& LIST_RECURSIVE ≠ 0 →
      (flags &&& LIST_LONG ≠ 0 → ∀ d ∈ entries, passes_filter flags d = true →
        (listfile env (some name) d flags).res.returned = true) →
      (∃ d ∈ entries, passes_filter flags d = true ∧
        scan_stat env (child_path 4096 name d) = none) →
      listdir (fuel + 1) env name flags =
        ⟨total_line env name flags entries ++ entry_lines env name flags entries,
          .ret (-1)⟩) := by
  have hall : ∀ (name : CStr) (flags : Nat) (entries : List CStr),
      (flags &&& LIST_LONG ≠ 0 → ∀ d ∈ entries, passes_filter flags d = true →
        (listfile env (some name) d flags).res.returned = true) →
      ∀ d ∈ entries, passes_filter flags d = true →
        (listfile env (some name) d flags).res.returned = true := by
    intro name flags entries h d hd hp
    by_cases hl : flags &&& LIST_LONG = 0
    · exact listfile_short_ret env (some name) d flags hl
    · exact h hl d hd hp
  refine ⟨?_, ?_, ?_⟩
  · intro argv flags hflags hcap hpaths hret
    rw [ls_main_paths env fuel argv flags hflags hcap hpaths,
      foreach_listpath_spec fuel env flags _ 0 hret]
  · intro name flags entries hopen hcap hrec hlines hstat hret
    rw [listdir_rec_ok env fuel name flags entries hopen hcap hrec
        (entry_loop_ret env name flags entries (hall name flags entries hlines)) hstat,
      foreach_subdir_ret _ _ (fun p hp => returned_iff.1 (hret p hp))]
  · intro name flags entries hopen hcap hrec hlines hfail
    exact listdir_rec_fail env fuel name flags entries hopen hcap hrec
      (entry_loop_ret env name flags entries (hall name flags entries hlines)) hfail

/-- C10 (as amended), in `env10`: `ls -R nope d` lists `d` although `nope`
failed, and lists `d/b` although `d/a` could not be opened; the status is 1.
In `e` the failed `lstat` of `b` ends the listing with -1. -/
theorem C10_failure_isolation_witness :
    parse_flags [lit "-R", lit "nope", lit "d"] 0 = some LIST_RECURSIVE ∧
      path_args [lit "-R", lit "nope", lit "d"] = [lit "nope", lit "d"] ∧
      listpath 2 env10 (lit "nope") LIST_RECURSIVE = ⟨[], .ret (-1)⟩ ∧
      listdir 1 env10 (lit "d/a") LIST_RECURSIVE = ⟨[], .ret (-1)⟩ ∧
      ls_main 2 env10 [lit "ls", lit "-R", lit "nope", lit "d"] =
        ⟨lit "\nd:\na\nb\n\nd/a:\n\nd/b:\nx\n", .ret 1⟩ ∧
      ls_main 2 env10 [lit "ls", lit "-R", lit "nope", lit "d"] =
        ⟨((path_args [lit "-R", lit "nope", lit "d"]).map
            (fun p => (listpath 2 env10 p LIST_RECURSIVE).out)).flatten,
          .ret (if (path_args [lit "-R", lit "nope", lit "d"]).all
              (fun p => decide ((listpath 2 env10 p LIST_RECURSIVE).res = .ret 0))
            then 0 else 1)⟩ ∧
      listdir (1 + 1) env10 (lit "d") LIST_RECURSIVE =
        ⟨total_line env10 (lit "d") LIST_RECURSIVE [lit ".", lit "..", lit "b", lit "a"] ++
          entry_lines env10 (lit "d") LIST_RECURSIVE [lit ".", lit "..", lit "b", lit "a"] ++
          ((subdir_paths env10 (lit "d") LIST_RECURSIVE
              [lit ".", lit "..", lit "b", lit "a"]).map
            (section_text (fun p => (listdir 1 env10 p LIST_RECURSIVE).out))).flatten,
          .ret 0⟩ ∧
      listdir (1 + 1) env10 (lit "e") LIST_RECURSIVE =
        ⟨total_line env10 (lit "e") LIST_RECURSIVE [lit ".", lit "..", lit "a", lit "b"] ++
          entry_lines env10 (lit "e") LIST_RECURSIVE [lit ".", lit "..", lit "a", lit "b"],
          .ret (-1)⟩ :=
  ⟨by decide!, by decide!, by decide!, by decide!, by decide!,
    (C10_failure_isolation env10 2).1 [lit "ls", lit "-R", lit "nope", lit "d"] LIST_RECURSIVE
      (by decide!) (by decide!) (by decide!) (by decide!),
    (C10_failure_isolation env10 1).2.1 (lit "d") LIST_RECURSIVE
      [lit ".", lit "..", lit "b", lit "a"] (by decide!) (by decide!) (by decide)
      (fun h => absurd h (by decide)) (by decide!) (by decide!),
    (C10_failure_isolation env10 1).2.2 (lit "e") LIST_RECURSIVE
      [lit ".", lit "..", lit "a", lit "b"] (by decide!) (by decide!) (by decide)
      (fun h => absurd h (by decide))
      ⟨lit "b", by decide!, by decide!, by decide!⟩⟩

/-- C11. When some argument after `argv[0]` begins with '-' and holds a
letter other than l, s, R, d, a, `ls_main` ends with status 1 and empty
output, with any step budget (also 0) and in any environment: no path is
listed, wherever the argument stands. -/
theorem C11_unknown_option (env : Env) (fuel : Nat) (argv : List CStr)
    (hcap : (argv.length : Int) ≤ INT_MAX / (env.sizeof_voidp : Int))
    (hbad : ∃ arg ∈ argv.tail, arg.head? = some 45 ∧
      ∃ c ∈ arg.tail, c ≠ 108 ∧ c ≠ 115 ∧ c ≠ 82 ∧ c ≠ 100 ∧ c ≠ 97) :
    ls_main fuel env argv = ⟨[], .ret 1⟩ := by
  obtain ⟨arg, harg, hdash, c, hc, h1, h2, h3, h4, h5⟩ := hbad
  have hnone : parse_flags argv.tail 0 = none := by
    rw [parse_flags_none_iff, List.any_eq_true]
    refine ⟨arg, harg, ?_⟩
    simp only [bad_option, hdash, beq_self_eq_true, Bool.true_and, List.any_eq_true]
    exact ⟨c, hc, by simp [known_letter, h1, h2, h3, h4, h5]⟩
  have hlen : argv.length > 1 := by
    cases argv with
    | nil => simp at harg
    | cons a rest =>
      cases rest with
      | nil => simp at harg
      | cons b rest2 => simp
  obtain ⟨h, -⟩ := parse_args_spec env argv.tail 0 STRLIST_INITIALIZER
    (strlist_initializer_wf _ (max_cap_nonneg _))
    (by simp only [STRLIST_INITIALIZER, DYNARRAY_INITIALIZER, List.length_nil, List.length_tail]
        push_cast; omega)
  simp only [ls_main, hlen, if_true, h hnone]

/-- C11, for `ls -l d -az e` in the scenario's environment: status 1, no
output, although `d` could be listed and valid options precede. -/
theorem C11_unknown_option_witness :
    ((argv_bad.length : Nat) : Int) ≤ INT_MAX / (env1.sizeof_voidp : Int) ∧
      (∃ arg ∈ argv_bad.tail, arg.head? = some 45 ∧
        ∃ c ∈ arg.tail, c ≠ 108 ∧ c ≠ 115 ∧ c ≠ 82 ∧ c ≠ 100 ∧ c ≠ 97) ∧
      ls_main 5 env1 argv_bad = ⟨[], .ret 1⟩ :=
  ⟨by decide, ⟨lit "-az", by decide, by decide, 122, by decide, by decide⟩,
    C11_unknown_option env1 5 argv_bad (by decide)
      ⟨lit "-az", by decide, by decide, 122, by decide, by decide⟩⟩

/-- C12 (as amended). `listfile` selects the style by the flags.  With
neither LIST_LONG nor LIST_SIZE it prints the filename and a newline and
returns 0 in every environment (no system call is consulted).  When
parent + "/" + filename fits the 4096-byte buffer (or there is no parent),
it works on the resolved path (parent + "/" + filename, or the filename
alone).  With LIST_SIZE only it prints "<st_blocks / 2> <filename>" for the
`lstat` of that path and returns 0 (nothing and -1 when the `lstat` fails).
With LIST_LONG set, with or without LIST_SIZE, it is `listfile_long` on
that path: when that call prints a line, the line shows mode, owner, group
and date of the `lstat` of that path, and its name after the final '/'. -/
theorem C12_listfile_styles (env : Env) (dirname : Option CStr) (filename : CStr)
    (flags : Nat) :
    (flags &&& (LIST_LONG ||| LIST_SIZE) = 0 →
      ∀ env2 : Env, listfile env2 dirname filename flags = ⟨filename ++ lit "\n", .ret 0⟩) ∧
    ((∀ d, dirname = some d → d.length + 1 + filename.length < 4096) →
      (flags &&& LIST_LONG = 0 → flags &&& LIST_SIZE ≠ 0 →
        (∀ s, env.lstat (resolved_path dirname filename) = some s →
          listfile env dirname filename flags =
            ⟨decimal (s.st_blocks / 2) ++ lit " " ++ filename ++ lit "\n", .ret 0⟩) ∧
        (env.lstat (resolved_path dirname filename) = none →
          listfile env dirname filename flags = ⟨[], .ret (-1)⟩)) ∧
      (flags &&& LIST_LONG ≠ 0 →
        listfile env dirname filename flags =
            listfile_long env (resolved_path dirname filename) flags ∧
          ∀ (s : stat_t) (user group : CStr) (tm : tm_t),
            env.lstat (resolved_path dirname filename) = some s →
            user2str env s.st_uid 16 = some user → group2str env s.st_gid 16 = some group →
            env.localtime s.st_mtime = some tm →
            (s.st_mode &&& S_IFMT = S_IFLNK →
              (env.readlink (resolved_path dirname filename)).isSome = true) →
            ∃ field tail : CStr,
              listfile env dirname filename flags =
                ⟨(mode2str s.st_mode).map Char.toNat ++ lit " " ++ pad_right 8 user ++
                  lit " " ++ pad_right 8 group ++ field ++ (env.strftime tm).take 31 ++
                  lit " " ++ basename (resolved_path dirname filename) ++ tail ++ lit "\n",
                  .ret 0⟩)) := by
  refine ⟨fun hbare env2 => by simp only [listfile, hbare, if_true], fun hfit => ?_⟩
  have hpath0 : ∀ dn : Option CStr,
      (∀ d, dn = some d → d.length + 1 + filename.length < 4096) →
      (match dn with
        | some d => snprintf 4096 (d ++ lit "/" ++ filename)
        | none => filename) = resolved_path dn filename := by
    intro dn h
    cases dn with
    | none => rfl
    | some d =>
      simp only [resolved_path]
      apply snprintf_fit
      have := h d rfl
      simp only [List.length_append, lit_slash_length]; omega
  have hpath := hpath0 dirname hfit
  refine ⟨fun hnl hs => ?_, fun hl => ?_⟩
  · have hnb : ¬ (flags &&& (LIST_LONG ||| LIST_SIZE) = 0) :=
      fun hb => hs (bare_no_size flags hb)
    have h1 : listfile env dirname filename flags =
        ⟨(listfile_size env (resolved_path dirname filename) filename flags).1,
          .ret (listfile_size env (resolved_path dirname filename) filename flags).2⟩ := by
      simp only [listfile, hnb, if_false, hnl, ne_eq, not_true_eq_false, hpath]
    refine ⟨fun s hst => ?_, fun hst => ?_⟩
    · rw [h1]
      simp only [listfile_size, hst, fmt_d_nat]
    · rw [h1]
      simp only [listfile_size, hst]
  · have hnb : ¬ (flags &&& (LIST_LONG ||| LIST_SIZE) = 0) :=
      fun hb => hl (bare_no_long flags hb)
    have h1 : listfile env dirname filename flags =
        listfile_long env (resolved_path dirname filename) flags := by
      simp only [listfile, hnb, if_false, hl, ne_eq, not_false_eq_true, if_true, hpath]
    refine ⟨h1, fun s user group tm hst huser hgroup htime hread => ?_⟩
    rw [h1]
    exact listfile_long_shape env _ flags s user group tm hst huser hgroup htime hread

/-- C12 (as amended), for the entry `a.txt` of directory `d`: "a.txt" in
bare-name mode, "4 a.txt" with `-s`, the long-format line with `-l -s`. -/
theorem C12_listfile_styles_witness :
    (∀ d, some (lit "d") = some d → d.length + 1 + (lit "a.txt").length < 4096) ∧
      listfile env1 (some (lit "d")) (lit "a.txt") 0 = ⟨lit "a.txt\n", .ret 0⟩ ∧
      listfile env1 (some (lit "d")) (lit "a.txt") LIST_SIZE = ⟨lit "4 a.txt\n", .ret 0⟩ ∧
      listfile env1 (some (lit "d")) (lit "a.txt") (LIST_LONG ||| LIST_SIZE) =
        ⟨lit "-rw-r--r-- 0        0               0 1970-01-01 00:00 a.txt\n", .ret 0⟩ ∧
      (((LIST_LONG ||| LIST_SIZE) &&& (LIST_LONG ||| LIST_SIZE) = 0 →
        ∀ env2 : Env,
          listfile env2 (some (lit "d")) (lit "a.txt") (LIST_LONG ||| LIST_SIZE) =
            ⟨lit "a.txt" ++ lit "\n", .ret 0⟩) ∧
      ((∀ d, some (lit "d") = some d → d.length + 1 + (lit "a.txt").length < 4096) →
        ((LIST_LONG ||| LIST_SIZE) &&& LIST_LONG = 0 →
          (LIST_LONG ||| LIST_SIZE) &&& LIST_SIZE ≠ 0 →
          (∀ s, env1.lstat (resolved_path (some (lit "d")) (lit "a.txt")) = some s →
            listfile env1 (some (lit "d")) (lit "a.txt") (LIST_LONG ||| LIST_SIZE) =
              ⟨decimal (s.st_blocks / 2) ++ lit " " ++ lit "a.txt" ++ lit "\n", .ret 0⟩) ∧
          (env1.lstat (resolved_path (some (lit "d")) (lit "a.txt")) = none →
            listfile env1 (some (lit "d")) (lit "a.txt") (LIST_LONG ||| LIST_SIZE) =
              ⟨[], .ret (-1)⟩)) ∧
        ((LIST_LONG ||| LIST_SIZE) &&& LIST_LONG ≠ 0 →
          listfile env1 (some (lit "d")) (lit "a.txt") (LIST_LONG ||| LIST_SIZE) =
              listfile_long env1 (resolved_path (some (lit "d")) (lit "a.txt"))
                (LIST_LONG ||| LIST_SIZE) ∧
            ∀ (s : stat_t) (user group : CStr) (tm : tm_t),
              env1.lstat (resolved_path (some (lit "d")) (lit "a.txt")) = some s →
              user2str env1 s.st_uid 16 = some user →
              group2str env1 s.st_gid 16 = some group →
              env1.localtime s.st_mtime = some tm →
              (s.st_mode &&& S_IFMT = S_IFLNK →
                (env1.readlink (resolved_path (some (lit "d")) (lit "a.txt"))).isSome = true) →
              ∃ field tail : CStr,
                listfile env1 (some (lit "d")) (lit "a.txt") (LIST_LONG ||| LIST_SIZE) =
                  ⟨(mode2str s.st_mode).map Char.toNat ++ lit " " ++ pad_right 8 user ++
                    lit " " ++ pad_right 8 group ++ field ++ (env1.strftime tm).take 31 ++
                    lit " " ++ basename (resolved_path (some (lit "d")) (lit "a.txt")) ++
                    tail ++ lit "\n", .ret 0⟩))) :=
  ⟨by
      intro d h
      cases h
      decide,
    by decide!, by decide!, by decide!,
    C12_listfile_styles env1 (some (lit "d")) (lit "a.txt") (LIST_LONG ||| LIST_SIZE)⟩

set_option maxHeartbeats 4000000 in
set_option maxRecDepth 1000000 in
/-- C12 as stated fails when parent + "/" + filename does not fit the
buffer: for the entry `abcdefgh` of the 4090-byte directory `long_dir` the
path is cut to `<long_dir>/abcd`, and with `-s` the line shows the 4 KB of
that other file, not the 8 KB of the resolved path. -/
theorem C12_counterexample :
    env_long2.lstat (resolved_path (some long_dir) (lit "abcdefgh")) =
        some (mkstat 0o100644 16) ∧
      listfile_size env_long2 (resolved_path (some long_dir) (lit "abcdefgh"))
          (lit "abcdefgh") LIST_SIZE = (lit "8 abcdefgh\n", 0) ∧
      snprintf 4096 (long_dir ++ lit "/" ++ lit "abcdefgh") = long_dir ++ lit "/abcd" ∧
      listfile env_long2 (some long_dir) (lit "abcdefgh") LIST_SIZE =
        ⟨lit "4 abcdefgh\n", .ret 0⟩ := by
  refine ⟨by decide!, by decide!, by decide!, by decide!⟩

/-- C13, the code at two inputs where the size field is not the decimal
text of `st_size`.  The size is passed to `%8d` as `(int) s.st_size`
(ls.c 299-301): for the file `f` of 2^32 bytes the field is "       0", for
the file `h` of 2^31 bytes it is "-2147483648".  The sibling
`listfile_size` prints a 64-bit quantity of that magnitude in full, with
`%lld` (ls.c 256). -/
theorem C13_size_cast_defect :
    env_4g.lstat (lit "f") = some ⟨0o100644, 0, 0, 0, 4294967296, 8388608, 0⟩ ∧
      decimal 4294967296 = lit "4294967296" ∧
      listfile_long env_4g (lit "f") LIST_LONG =
        ⟨lit "-rw-r--r-- 0        0               0 1970-01-01 00:00 f\n", .ret 0⟩ ∧
      env_4g.lstat (lit "h") = some ⟨0o100644, 0, 0, 0, 2147483648, 4194304, 0⟩ ∧
      decimal 2147483648 = lit "2147483648" ∧
      listfile_long env_4g (lit "h") LIST_LONG =
        ⟨lit "-rw-r--r-- 0        0        -2147483648 1970-01-01 00:00 h\n", .ret 0⟩ ∧
      listfile_size env_big (lit "d/big") (lit "big") LIST_SIZE =
        (lit "4294967296 big\n", 0) := by
  refine ⟨by decide!, by decide!, by decide!, by decide!, by decide!, by decide!, by decide!⟩

/-- C14. For an array state with 0 <= count <= capacity <= max_cap
(max_cap = INT_MAX / sizeof(void*)): when 0 < n <= max_cap - count,
`dynarray_reserve_more` returns the array with count and items unchanged
and a capacity that is the first iterate of the growth step
cap + floor(cap/4) + 4 clamped to max_cap that reaches count + n; it lies
between count + n and max_cap.  With pointers of 2 bytes or more no sum
computed on the way leaves the range of `int`.  For n <= 0 the array is
returned unchanged; for n > max_cap - count the call aborts. -/
theorem C14_reserve_more {α : Type} (sizeof_voidp : Nat) (a : dynarray_t α) (n : Int)
    (hcount : 0 ≤ a.count) (hcap : a.count ≤ a.capacity)
    (hmax : a.capacity ≤ INT_MAX / (sizeof_voidp : Int)) :
    (0 < n → n ≤ INT_MAX / (sizeof_voidp : Int) - a.count →
      ∃ k : Nat,
        dynarray_reserve_more sizeof_voidp a n =
          .ret { a with
            capacity := (grow_step (INT_MAX / (sizeof_voidp : Int)))^[k] a.capacity } ∧
        (∀ j < k, (grow_step (INT_MAX / (sizeof_voidp : Int)))^[j] a.capacity < a.count + n) ∧
        a.count + n ≤ (grow_step (INT_MAX / (sizeof_voidp : Int)))^[k] a.capacity ∧
        (grow_step (INT_MAX / (sizeof_voidp : Int)))^[k] a.capacity ≤
          INT_MAX / (sizeof_voidp : Int) ∧
        (2 ≤ sizeof_voidp →
          a.count + n ≤ INT_MAX ∧
          ∀ j < k,
            0 ≤ (grow_step (INT_MAX / (sizeof_voidp : Int)))^[j] a.capacity ∧
            (grow_step (INT_MAX / (sizeof_voidp : Int)))^[j] a.capacity +
              (grow_step (INT_MAX / (sizeof_voidp : Int)))^[j] a.capacity / 4 + 4 ≤ INT_MAX)) ∧
    (n ≤ 0 → dynarray_reserve_more sizeof_voidp a n = .ret a) ∧
    (n > INT_MAX / (sizeof_voidp : Int) - a.count →
      dynarray_reserve_more sizeof_voidp a n = .abort) := by
  have hM : INT_MAX / (sizeof_voidp : Int) ≤ INT_MAX := by
    apply Int.ediv_le_self; unfold INT_MAX; omega
  have hM2 : INT_MAX / (sizeof_voidp : Int) ≤ 2147483647 := hM
  refine ⟨?_, ?_, ?_⟩
  · intro hpos hn
    obtain ⟨r, hr, hr1, hr2, hr3⟩ := reserve_loop_spec (INT_MAX / (sizeof_voidp : Int))
      (a.count + n) hM (by omega) RESERVE_FUEL a.capacity (by omega) hmax
      (by unfold RESERVE_FUEL; push_cast; omega)
      (by unfold RESERVE_FUEL; omega)
    obtain ⟨k, hk1, hk2, hk3⟩ := reserve_loop_iter (INT_MAX / (sizeof_voidp : Int))
      (a.count + n) hM RESERVE_FUEL a.capacity r (by omega) hmax hr
    refine ⟨k, ?_, hk2, ?_, ?_, ?_⟩
    · have h1 : ¬ (n ≤ 0) := by omega
      have h2 : ¬ (n > INT_MAX / (sizeof_voidp : Int) - a.count) := by omega
      simp only [dynarray_reserve_more, h1, h2, if_false, hr, hk1]
    · rw [← hk1]; exact hk3
    · rw [← hk1]; exact hr3
    · intro hptr
      have hhalf := max_cap_le_half sizeof_voidp hptr
      have h1 : a.count + n ≤ 2147483647 := by omega
      refine ⟨h1, fun j _ => ?_⟩
      have hrange := grow_iterate_range (INT_MAX / (sizeof_voidp : Int)) a.capacity
        (by omega) hmax j
      have h2 : (grow_step (INT_MAX / (sizeof_voidp : Int)))^[j] a.capacity +
          (grow_step (INT_MAX / (sizeof_voidp : Int)))^[j] a.capacity / 4 + 4 ≤ 2147483647 := by
        omega
      exact ⟨hrange.1, h2⟩
  · intro hn
    simp only [dynarray_reserve_more, hn, if_true]
  · intro hn
    have h1 : ¬ (n ≤ 0) := by omega
    simp only [dynarray_reserve_more, h1, if_false, hn, if_true]

/-- C14, for an array of 4 items at capacity 4 with 8-byte pointers: one
growth step gives capacity 4 + 1 + 4 = 9. -/
theorem C14_reserve_more_witness :
    dynarray_reserve_more 8 (⟨4, 4, [1, 2, 3, 4]⟩ : dynarray_t Nat) 1 =
        .ret ⟨4, 9, [1, 2, 3, 4]⟩ ∧
      dynarray_reserve_more 8 (⟨4, 4, [1, 2, 3, 4]⟩ : dynarray_t Nat) 0 =
        .ret ⟨4, 4, [1, 2, 3, 4]⟩ ∧
      dynarray_reserve_more 8 (⟨4, 4, [1, 2, 3, 4]⟩ : dynarray_t Nat) 268435452 = .abort ∧
      ((0 : Int) < 1 → (1 : Int) ≤ INT_MAX / ((8 : Nat) : Int) - 4 →
        ∃ k : Nat,
          dynarray_reserve_more 8 (⟨4, 4, [1, 2, 3, 4]⟩ : dynarray_t Nat) 1 =
            .ret { (⟨4, 4, [1, 2, 3, 4]⟩ : dynarray_t Nat) with
              capacity := (grow_step (INT_MAX / ((8 : Nat) : Int)))^[k] 4 } ∧
          (∀ j < k, (grow_step (INT_MAX / ((8 : Nat) : Int)))^[j] 4 < 4 + 1) ∧
          4 + 1 ≤ (grow_step (INT_MAX / ((8 : Nat) : Int)))^[k] 4 ∧
          (grow_step (INT_MAX / ((8 : Nat) : Int)))^[k] 4 ≤ INT_MAX / ((8 : Nat) : Int) ∧
          (2 ≤ 8 →
            (4 : Int) + 1 ≤ INT_MAX ∧
            ∀ j < k,
              0 ≤ (grow_step (INT_MAX / ((8 : Nat) : Int)))^[j] 4 ∧
              (grow_step (INT_MAX / ((8 : Nat) : Int)))^[j] 4 +
                (grow_step (INT_MAX / ((8 : Nat) : Int)))^[j] 4 / 4 + 4 ≤ INT_MAX)) :=
  ⟨by decide, by decide, by decide,
    (C14_reserve_more 8 (⟨4, 4, [1, 2, 3, 4]⟩ : dynarray_t Nat) 1
      (by decide) (by decide) (by decide)).1⟩

/-- C15. For a string list holding `count` items with count <= capacity
and count < max_cap, `strlist_append_dup` returns a list with one more
item: the old items unchanged and in order, then the appended string, also
when that string is already in the list; count <= capacity still holds. -/
theorem C15_append_dup (sizeof_voidp : Nat) (list : strlist_t) (str : CStr)
    (hitems : list.count = (list.items.length : Int))
    (hcap : list.count ≤ list.capacity)
    (hroom : list.count < INT_MAX / (sizeof_voidp : Int)) :
    ∃ l2 : strlist_t,
      strlist_append_dup sizeof_voidp list str = .ret l2 ∧
      l2.count = list.count + 1 ∧
      l2.items = list.items ++ [str] ∧
      l2.items.take list.items.length = list.items ∧
      l2.items.getLast? = some str ∧
      l2.items.count str = list.items.count str + 1 ∧
      l2.count = (l2.items.length : Int) ∧
      l2.count ≤ l2.capacity := by
  have htake : list.items.take list.count.toNat = list.items := by
    rw [hitems]; simp
  have hM : INT_MAX / (sizeof_voidp : Int) ≤ INT_MAX := by
    apply Int.ediv_le_self; unfold INT_MAX; omega
  have hM2 : INT_MAX / (sizeof_voidp : Int) ≤ 2147483647 := hM
  have hfacts : ∀ l2 : strlist_t, l2.items = list.items ++ [str] →
      l2.items.take list.items.length = list.items ∧
      l2.items.getLast? = some str ∧
      l2.items.count str = list.items.count str + 1 := by
    intro l2 h
    rw [h]
    refine ⟨by simp, by simp, by simp⟩
  unfold strlist_append_dup strlist_append_b dynarray_append
  rw [List.take_length]
  by_cases hfull : list.count ≥ list.capacity
  · simp only [hfull, if_true]
    unfold dynarray_reserve_more
    have h1 : ¬ ((1 : Int) ≤ 0) := by omega
    have h2 : ¬ ((1 : Int) > INT_MAX / (sizeof_voidp : Int) - list.count) := by omega
    simp only [h1, h2, if_false]
    obtain ⟨r, hr, hr1, hr2, hr3⟩ := reserve_loop_spec (INT_MAX / (sizeof_voidp : Int))
      (list.count + 1) hM (by omega) RESERVE_FUEL list.capacity (by omega) (by omega)
      (by unfold RESERVE_FUEL; push_cast; omega)
      (by unfold RESERVE_FUEL; omega)
    rw [hr]
    refine ⟨_, rfl, rfl, by simp [htake], ?_⟩
    obtain ⟨f1, f2, f3⟩ := hfacts
      { count := list.count + 1, capacity := r, items := list.items ++ [str] } rfl
    simp only [htake]
    exact ⟨f1, f2, f3, by simp; omega, by simpa using hr1⟩
  · simp only [hfull, if_false]
    refine ⟨_, rfl, rfl, by simp [htake], ?_⟩
    obtain ⟨f1, f2, f3⟩ := hfacts
      { count := list.count + 1, capacity := list.capacity, items := list.items ++ [str] } rfl
    simp only [htake]
    exact ⟨f1, f2, f3, by simp; omega, by omega⟩

/-- C15, appending "a" to the list that already holds "a". -/
theorem C15_append_dup_witness :
    strlist_append_dup 8 ⟨1, 4, [lit "a"]⟩ (lit "a") = .ret ⟨2, 4, [lit "a", lit "a"]⟩ ∧
      ∃ l2 : strlist_t,
        strlist_append_dup 8 ⟨1, 4, [lit "a"]⟩ (lit "a") = .ret l2 ∧
        l2.count = (1 : Int) + 1 ∧
        l2.items = [lit "a"] ++ [lit "a"] ∧
        l2.items.take [lit "a"].length = [lit "a"] ∧
        l2.items.getLast? = some (lit "a") ∧
        l2.items.count (lit "a") = [lit "a"].count (lit "a") + 1 ∧
        l2.count = (l2.items.length : Int) ∧
        l2.count ≤ l2.capacity :=
  ⟨by decide, C15_append_dup 8 ⟨1, 4, [lit "a"]⟩ (lit "a") (by decide) (by decide) (by decide)⟩

set_option maxRecDepth 1000000 in
/-- C17, the code at two inputs where every `lstat` call succeeds and the
number of the total line is not the sum of the numbers of the entry lines
(the defects of `show_total_size` seen in C5).  In `env_big` the only entry
line begins with 4294967296 and the total line says 0.  Under the 1023-byte
directory `dir1023` the path built for the child `x` is cut to the
directory itself, so the total line says 4 (the directory's own size) and
the entry line begins with 8.  In both the child counted is the child
rendered. -/
theorem C17_total_differs_from_entries :
    shown_names LIST_SIZE [lit ".", lit "..", lit "big"] = [lit "big"] ∧
      entry_lines env_big (lit "d") LIST_SIZE [lit ".", lit "..", lit "big"] =
        lit "4294967296 big\n" ∧
      total_line env_big (lit "d") LIST_SIZE [lit ".", lit "..", lit "big"] = lit "total 0\n" ∧
      shown_names LIST_SIZE [lit ".", lit "..", lit "x"] = [lit "x"] ∧
      child_path 1024 dir1023 (lit "x") = dir1023 ∧
      entry_lines env1023 dir1023 LIST_SIZE [lit ".", lit "..", lit "x"] = lit "8 x\n" ∧
      total_line env1023 dir1023 LIST_SIZE [lit ".", lit "..", lit "x"] = lit "total 4\n" ∧
      listdir 1 env1023 dir1023 LIST_SIZE = ⟨lit "total 4\n8 x\n", .ret 0⟩ := by
  refine ⟨by decide!, by decide!, by decide!, by decide!, by decide!, by decide!, by decide!,
    by decide!⟩

/-- C18, the code at an input where the early return leaves a collection
unreleased.  In directory `e` the scan appends the path of the
subdirectory `a` to `subdirs`, then the `lstat` of `b` fails and `listdir`
returns -1 through ls.c 411-415: the handle was closed once and `files`
was released, but `subdirs` still holds "e/a" (`strlist_done(&subdirs)` is
only at ls.c 426). -/
theorem C18_subdirs_not_released :
    listdir 2 env10 (lit "e") LIST_RECURSIVE = ⟨lit "a\nb\n", .ret (-1)⟩ ∧
      listdir_frame 1 env10 (lit "e") LIST_RECURSIVE =
        some ⟨1, ⟨0, 0, []⟩, some ⟨1, 4, [lit "e/a"]⟩⟩ ∧
      listdir 2 env10 (lit "d") LIST_RECURSIVE =
        ⟨lit "a\nb\n\nd/a:\n\nd/b:\nx\n", .ret 0⟩ ∧
      listdir_frame 1 env10 (lit "d") LIST_RECURSIVE =
        some ⟨1, ⟨0, 0, []⟩, some ⟨0, 0, []⟩⟩ := by
  refine ⟨by decide!, by decide!, by decide!, by decide!⟩

/-- C19 (as amended). In a finite file system tree below `name` (in the
directories reached, names that pass the filter are non-empty and free of
'/', child paths fit the 4096-byte buffer, real subdirectories are less
deep than their parent), for `listdir` with LIST_RECURSIVE.  (1) The path
built for a child does not end in '/' and is examined with `lstat`.  (2) A
child that is a symbolic link is not among the paths descended into,
whatever `stat` would find behind it.  (3) With every step budget above the
depth the call ends, always with the same result.  (4) When in addition
nothing stops the listing (in the directories reached the names are
distinct and within `max_cap` in number, the `lstat` of every filtered child
succeeds and every call of `listfile` returns), the call returns and its
output is the lines of `name` followed by exactly one section (blank line,
header, lines) for each other directory reached through real
subdirectories. -/
theorem C19_recursive_terminates (env : Env) (flags : Nat) (depth : CStr → Nat) (name : CStr)
    (hrec : flags &&& LIST_RECURSIVE ≠ 0) (htree : finite_tree env flags name depth) :
    (∀ p entries d, Reach env flags name p → env.opendir p = some entries → d ∈ entries →
      passes_filter flags d = true →
      child_path 4096 p d = join_path p d ∧
        (child_path 4096 p d).getLast? ≠ some 47 ∧
        scan_stat env (child_path 4096 p d) = env.lstat (child_path 4096 p d)) ∧
    (∀ p entries d s, Reach env flags name p → env.opendir p = some entries → d ∈ entries →
      passes_filter flags d = true →
      env.lstat (join_path p d) = some s → s.st_mode &&& S_IFMT = S_IFLNK →
      join_path p d ∉ subdir_paths env p flags entries) ∧
    (∀ n, depth name < n →
      (listdir n env name flags).res ≠ .nofuel ∧
        listdir n env name flags = listdir (depth name + 1) env name flags) ∧
    (listable_tree env flags name →
      ∃ rest : List CStr,
        (name :: rest).Nodup ∧
        (∀ q, q ∈ name :: rest ↔ Reach env flags name q) ∧
        ∀ n, depth name < n →
          ∃ v, listdir n env name flags =
            ⟨dir_listing env flags name ++
              (rest.map (section_text (dir_listing env flags))).flatten, .ret v⟩) := by
  have hne : (listdir (depth name + 1) env name flags).res ≠ .nofuel :=
    listdir_ends env flags name depth htree (depth name + 1) name (Reach.self _) (by omega)
  have hmono : ∀ n, depth name < n →
      listdir n env name flags = listdir (depth name + 1) env name flags := by
    intro n hn
    have h := listdir_mono env flags (depth name + 1) (n - (depth name + 1)) name hne
    have hn2 : depth name + 1 + (n - (depth name + 1)) = n := by omega
    rw [hn2] at h
    exact h
  refine ⟨?_, ?_, ?_, ?_⟩
  · intro p entries d hp hopen hd hpass
    have hg := htree.names p entries hp hopen d hd hpass
    obtain ⟨h1, h2⟩ := scan_stat_lstat env p d hg (htree.fits p entries hp hopen d hd hpass)
    refine ⟨h1, ?_, ?_⟩
    · rw [h1]; exact join_path_last p d hg
    · rw [h2, h1]
  · intro p entries d s hp hopen hd hpass hl hlnk hin
    rw [subdir_paths_eq env p flags entries (htree.fits p entries hp hopen), List.mem_map] at hin
    obtain ⟨d2, hd2, he⟩ := hin
    obtain ⟨h1, h2, h3⟩ := (subdir_names_mem env p flags entries d2).1 hd2
    obtain ⟨s2, hs2, hdir⟩ :=
      (scan_isdir_iff env p d2 (htree.names p entries hp hopen d2 h1 h3)).1 h2
    rw [he, hl] at hs2
    cases hs2
    unfold S_ISDIR at hdir
    rw [hlnk] at hdir
    exact absurd hdir (by decide)
  · intro n hn
    exact ⟨by rw [hmono n hn]; exact hne, hmono n hn⟩
  · intro hl
    obtain ⟨e1, ⟨v, hv⟩, hnd, hmem, -⟩ :=
      visit_spec env flags name depth hrec htree hl (depth name + 1) name (Reach.self _)
        (by omega)
    refine ⟨(tree_dirs (depth name + 1) env flags name).tail, ?_, ?_, ?_⟩
    · rw [← e1]; exact hnd
    · intro q; rw [← e1]; exact hmem q
    · intro n hn
      exact ⟨v, by rw [hmono n hn, hv]⟩

set_option maxRecDepth 100000 in
/-- C19 (as amended), for the tree of `env_tree` with `-R -l`: the listing
of `d` returns; the symbolic link `d/loop` (behind which `stat` finds a
directory) is shown and not descended into; the output is the lines of `d`
and one section for `d/sub`. -/
theorem C19_recursive_terminates_witness :
    (LIST_RECURSIVE ||| LIST_LONG) &&& LIST_RECURSIVE ≠ 0 ∧
      finite_tree env_tree (LIST_RECURSIVE ||| LIST_LONG) (lit "d") depth_tree ∧
      listable_tree env_tree (LIST_RECURSIVE ||| LIST_LONG) (lit "d") ∧
      env_tree.lstat (lit "d/loop") = some (mkstat 0o120777 0) ∧
      env_tree.stat (lit "d/loop") = some (mkstat 0o040755 8) ∧
      listdir 2 env_tree (lit "d") (LIST_RECURSIVE ||| LIST_LONG) =
        ⟨lit "-rw-r--r-- 0        0               0 1970-01-01 00:00 f\n" ++
          lit "lrwxrwxrwx 0        0                 1970-01-01 00:00 loop -> .\n" ++
          lit "drwxr-xr-x 0        0                 1970-01-01 00:00 sub\n" ++
          lit "\nd/sub:\n" ++
          lit "-rw-r--r-- 0        0               0 1970-01-01 00:00 g\n", .ret 0⟩ ∧
      tree_dirs 2 env_tree (LIST_RECURSIVE ||| LIST_LONG) (lit "d") = [lit "d", lit "d/sub"] ∧
      ((∀ p entries d, Reach env_tree (LIST_RECURSIVE ||| LIST_LONG) (lit "d") p →
        env_tree.opendir p = some entries → d ∈ entries →
        passes_filter (LIST_RECURSIVE ||| LIST_LONG) d = true →
        child_path 4096 p d = join_path p d ∧
          (child_path 4096 p d).getLast? ≠ some 47 ∧
          scan_stat env_tree (child_path 4096 p d) = env_tree.lstat (child_path 4096 p d)) ∧
      (∀ p entries d s, Reach env_tree (LIST_RECURSIVE ||| LIST_LONG) (lit "d") p →
        env_tree.opendir p = some entries → d ∈ entries →
        passes_filter (LIST_RECURSIVE ||| LIST_LONG) d = true →
        env_tree.lstat (join_path p d) = some s → s.st_mode &&& S_IFMT = S_IFLNK →
        join_path p d ∉ subdir_paths env_tree p (LIST_RECURSIVE ||| LIST_LONG) entries) ∧
      (∀ n, depth_tree (lit "d") < n →
        (listdir n env_tree (lit "d") (LIST_RECURSIVE ||| LIST_LONG)).res ≠ .nofuel ∧
          listdir n env_tree (lit "d") (LIST_RECURSIVE ||| LIST_LONG) =
            listdir (depth_tree (lit "d") + 1) env_tree (lit "d")
              (LIST_RECURSIVE ||| LIST_LONG)) ∧
      (listable_tree env_tree (LIST_RECURSIVE ||| LIST_LONG) (lit "d") →
        ∃ rest : List CStr,
          (lit "d" :: rest).Nodup ∧
          (∀ q, q ∈ lit "d" :: rest ↔
            Reach env_tree (LIST_RECURSIVE ||| LIST_LONG) (lit "d") q) ∧
          ∀ n, depth_tree (lit "d") < n →
            ∃ v, listdir n env_tree (lit "d") (LIST_RECURSIVE ||| LIST_LONG) =
              ⟨dir_listing env_tree (LIST_RECURSIVE ||| LIST_LONG) (lit "d") ++
                (rest.map (section_text
                  (dir_listing env_tree (LIST_RECURSIVE ||| LIST_LONG)))).flatten,
                .ret v⟩)) :=
  ⟨by decide, env_tree_finite, env_tree_listable, by decide!, by decide!, by decide!,
    by decide!,
    C19_recursive_terminates env_tree (LIST_RECURSIVE ||| LIST_LONG) depth_tree (lit "d")
      (by decide) env_tree_finite⟩

/-- C19 as stated fails when a child cannot be examined: `env10` below `e`
is a finite tree in the sense of the claim, `e/a` is reached through a real
subdirectory, but the `lstat` of the sibling `b` fails and `listdir` returns
-1 after the lines of `e`, with every step budget: `e/a` is never listed. -/
theorem C19_counterexample :
    finite_tree env10 LIST_RECURSIVE (lit "e") depth10 ∧
      Reach env10 LIST_RECURSIVE (lit "e") (lit "e/a") ∧
      env10.lstat (join_path (lit "e") (lit "b")) = none ∧
      dir_listing env10 LIST_RECURSIVE (lit "e") = lit "a\nb\n" ∧
      section_text (dir_listing env10 LIST_RECURSIVE) (lit "e/a") = lit "\ne/a:\n" ∧
      ∀ k, listdir (2 + k) env10 (lit "e") LIST_RECURSIVE = ⟨lit "a\nb\n", .ret (-1)⟩ := by
  have h2 : listdir 2 env10 (lit "e") LIST_RECURSIVE = ⟨lit "a\nb\n", .ret (-1)⟩ := by decide!
  refine ⟨env10_finite, ?_, by decide!, by decide!, by decide!, ?_⟩
  · have hj : join_path (lit "e") (lit "a") = lit "e/a" := by decide!
    have hr : Reach env10 LIST_RECURSIVE (lit "e") (join_path (lit "e") (lit "a")) :=
      Reach.down (lit "e") [lit ".", lit "..", lit "a", lit "b"] (lit "a")
        (join_path (lit "e") (lit "a")) (by decide!) (by decide) (by decide)
        ⟨mkstat 0o040755 8, by decide!, by decide⟩ (Reach.self _)
    rw [hj] at hr
    exact hr
  · intro k
    rw [listdir_mono env10 LIST_RECURSIVE 2 k (lit "e") (by rw [h2]; simp), h2]

/-- C20. `mode2str` loses no permission information: the nine permission
characters decode back (`decode_perm`) to the twelve low bits of the mode,
so two modes with the same string agree on `mode & 07777` and have the
same type glyph. -/
theorem C20_mode2str_injective (m1 m2 : Nat) :
    decode_perm (mode2str m1) = some (m1 &&& 0o7777) ∧
    (mode2str m1).head? = some (mode2kind m1) ∧
    (mode2str m1 = mode2str m2 →
      m1 &&& 0o7777 = m2 &&& 0o7777 ∧ mode2kind m1 = mode2kind m2) := by
  refine ⟨decode_mode2str m1, rfl, ?_⟩
  intro h
  constructor
  · have h1 := decode_mode2str m1
    rw [h, decode_mode2str m2] at h1
    exact (Option.some.inj h1).symm
  · have h1 : (mode2str m1).head? = (mode2str m2).head? := by rw [h]
    exact Option.some.inj h1

/-- C20, for a setuid executable: the modes `0o104755` and `0o1104755`
(they differ in a bit above the type field) have the same string
`-rwsr-xr-x`, the same twelve low bits `0o4755` and the same glyph. -/
theorem C20_mode2str_injective_witness :
    mode2str 0o104755 = "-rwsr-xr-x".toList ∧
    mode2str 0o104755 = mode2str 0o1104755 ∧
    decode_perm "-rwsr-xr-x".toList = some 0o4755 ∧
    (decode_perm (mode2str 0o104755) = some (0o104755 &&& 0o7777) ∧
      (mode2str 0o104755).head? = some (mode2kind 0o104755) ∧
      (mode2str 0o104755 = mode2str 0o1104755 →
        0o104755 &&& 0o7777 = 0o1104755 &&& 0o7777 ∧
          mode2kind 0o104755 = mode2kind 0o1104755)) :=
  ⟨by decide, by decide, by decide, C20_mode2str_injective 0o104755 0o1104755⟩

end Ls
